import Mathlib

/-!
Verification development for the OpenRails-for-simulation route-creation core.

The definitions below are shallow embeddings of the Python sources
`Dlr/routecreation/openrails_data.py`, `Dlr/routecreation/railgraphs.py` and
`Dlr/routecreation/geometry.py`.  Python floats are modelled as exact reals,
Python (unbounded) ints as `Int`/`Nat`, Python object identity as natural-number
arena ids, and mutation as explicit state passing.  Operations that can raise
in Python (assertions, `KeyError`, attribute errors on `None`) are modelled
with `Option`, `none` standing for the raised exception.
-/

namespace RailSpec

/-! ## `openrails_data._Indexer`

```python
class _Indexer:
    def __init__(self, key, first_index=1):
        self.key = key
        self.next_index = first_index
        self.indices = {}
    def get_or_add(self, item):
        if item in self.indices:
            return self.indices[item]
        else:
            idx = self.next_index
            self.next_index += 1
            self.indices[item] = idx
            item.attrs[self.key] = idx
            return idx
```

Items are keyed by identity; we model them as arena ids (`Nat`).  The side
effect `item.attrs[self.key] = idx` writes the same value into the item's
attribute table and is irrelevant to the indices assigned, so the state we
track is `next_index` and the insertion-ordered dictionary `indices`. -/

structure Indexer where
  nextIndex : ℤ
  indices : List (ℕ × ℤ)
  deriving Repr, DecidableEq

def mkIndexer (firstIndex : ℤ) : Indexer := ⟨firstIndex, []⟩

def Indexer.getOrAdd (ix : Indexer) (item : ℕ) : ℤ × Indexer :=
  match ix.indices.lookup item with
  | some v => (v, ix)
  | none => (ix.nextIndex, ⟨ix.nextIndex + 1, ix.indices ++ [(item, ix.nextIndex)]⟩)

/-- `register(*items)` registers the items in order (result ids discarded). -/
def Indexer.registerList (ix : Indexer) (items : List ℕ) : Indexer :=
  items.foldl (fun st it => (st.getOrAdd it).2) ix

/-! ## `openrails_data.STFOutput.write`

```python
def write(self, content):
    lines = content.splitlines()
    indented_lines = ''
    for line in lines:
        line = line.lstrip()
        indent = self._parentheses
        if line.startswith(')'):
            indent -= 1
        assert indent >= 0, "unbalanced input"
        indented_lines += '\t' * indent + line + '\n'
        self._parentheses += line.count('(') - line.count(')')
    self._file.write(indented_lines)
```

Strings are modelled as `List Char`; `splitlines` is modelled for `'\n'`
separators (the inputs the writer ever produces).  The `assert` is modelled by
returning `none`.  The state is the running delimiter balance
`self._parentheses : ℤ` and the text written so far. -/

def lstrip (l : List Char) : List Char := l.dropWhile (fun c => c.isWhitespace)

def countChar (c : Char) (l : List Char) : ℕ := l.countP (fun d => d = c)

def startsWithChar (c : Char) (l : List Char) : Prop := l.head? = some c

instance (c : Char) (l : List Char) : Decidable (startsWithChar c l) := by
  unfold startsWithChar; infer_instance

/-- Scanner for `splitLines`: `cur` is the (reversed-free) current line. -/
def splitLinesAux : List Char → List Char → List (List Char)
  | [], cur => [cur]
  | c :: tl, cur =>
    if c = '\n' then
      match tl with
      | [] => [cur]
      | _ :: _ => cur :: splitLinesAux tl []
    else splitLinesAux tl (cur ++ [c])

/-- `str.splitlines()` for newline-separated text: split on `'\n'`, no trailing
empty line for a trailing newline, `[]` for the empty string. -/
def splitLines (l : List Char) : List (List Char) :=
  if l = [] then [] else splitLinesAux l []

/-- One line of `STFOutput.write`: returns the indented text appended for this
line and the new balance, or `none` when the assertion fires. -/
def writeLine (bal : ℤ) (line : List Char) : Option (List Char × ℤ) :=
  let line := lstrip line
  let indent : ℤ := if startsWithChar ')' line then bal - 1 else bal
  if indent < 0 then none
  else some (List.replicate indent.toNat '\t' ++ line ++ ['\n'],
             bal + countChar '(' line - countChar ')' line)

/-- `STFOutput.write`: processes every line of `content`; returns the text
written and the final balance, `none` when the assertion fires. -/
def stfWrite (bal : ℤ) (content : List Char) : Option (List Char × ℤ) :=
  (splitLines content).foldl
    (fun acc line =>
      match acc with
      | none => none
      | some (out, b) =>
        match writeLine b line with
        | none => none
        | some (txt, b2) => some (out ++ txt, b2))
    (some ([], bal))

/-! ## `openrails_data.ORWriter._get_section_index`

```python
def _get_section_index(self, segment):
    idx = self._section_indices[segment]
    # TSRE assigns even indices to straight and left turn segments, and odd
    # indices to right turns
    if segment.radius <= 0.0:
        return 2 * idx - 40000
    else:
        return 2 * idx - 40000 + 1
```

`self._section_indices[segment]` is an `_Indexer` id for the segment; the
radius is the segment's float radius, modelled as a real. -/

noncomputable def getSectionIndex (idx : ℤ) (radius : ℝ) : ℤ :=
  if radius ≤ 0 then 2 * idx - 40000 else 2 * idx - 40000 + 1

/-! ## `openrails_data.ORWriter._tile_file_names`

```python
def _tile_file_names(self, tile_x, tile_z):
    x = tile_x + (1 << 14)
    z = tile_z + (1 << 14)
    x = x ^ z
    x = ~x
    z = ~z
    tile_idx = 0
    for i in range(15):
        tile_idx |= ((x & (1 << i)) | ((z & (1 << i)) << 1)) << i
    tile_idx <<= 2
    basename = os.path.join(self.directory, 'tiles', f'-{tile_idx:08x}')
    return basename + '.t', basename + '_y.raw'
```

Python ints are unbounded and bitwise operations use infinite two's
complement, so `~a = -a - 1`, `a << k = a * 2 ^ k`, and bit `i` of any `a`
is `(a >> i) & 1 = (a.fdiv 2^i).emod 2` (Python `>>` floors; for the positive
divisor `2^i`, floor division equals Euclidean division).  `x ^ z` and the
`|`s below are only applied to nonnegative values (`x, z ≥ 0` before the
complement; masked bits and the accumulator are nonnegative), where Python's
operators agree with `Nat.xor`/`Nat.lor`. -/

def pyNot (a : ℤ) : ℤ := -a - 1

/-- `a & (1 << i)`: bit `i` of `a` (two's complement), scaled by `2 ^ i`.
(`/` and `%` on `ℤ` are Euclidean division, which agrees with Python's floor
division/modulo for the positive divisors used here.) -/
def pyBitAnd (a : ℤ) (i : ℕ) : ℤ := 2 ^ i * (a / 2 ^ i % 2)

/-- `a | b` for nonnegative operands. -/
def pyOr (a b : ℤ) : ℤ := ((a.toNat ||| b.toNat : ℕ) : ℤ)

/-- `a ^ b` for nonnegative operands. -/
def pyXor (a b : ℤ) : ℤ := ((a.toNat ^^^ b.toNat : ℕ) : ℤ)

/-- The `tile_idx` computed by `_tile_file_names`, which (as `-{tile_idx:08x}`)
is the tile's `.t`/`_y.raw` file-name index. -/
def tileFileIdx (tileX tileZ : ℤ) : ℤ :=
  let x0 := tileX + 2 ^ 14
  let z0 := tileZ + 2 ^ 14
  let x := pyNot (pyXor x0 z0)
  let z := pyNot z0
  let tileIdx := (List.range 15).foldl
    (fun acc i => pyOr acc ((pyOr (pyBitAnd x i) (pyBitAnd z i * 2)) * 2 ^ i)) 0
  tileIdx * 2 ^ 2

/-! ### Lemmas about `_Indexer` -/

theorem getOrAdd_of_mem {ix : Indexer} {k : ℕ} {v : ℤ}
    (h : ix.indices.lookup k = some v) : ix.getOrAdd k = (v, ix) := by
  unfold Indexer.getOrAdd
  rw [h]

theorem getOrAdd_preserves {ix : Indexer} {k : ℕ} {v : ℤ} (it : ℕ)
    (h : ix.indices.lookup k = some v) :
    (ix.getOrAdd it).2.indices.lookup k = some v := by
  unfold Indexer.getOrAdd
  cases hit : ix.indices.lookup it with
  | some w => exact h
  | none => simp [List.lookup_append, h]

theorem registerList_preserves {ix : Indexer} {k : ℕ} {v : ℤ} (l : List ℕ)
    (h : ix.indices.lookup k = some v) :
    (ix.registerList l).indices.lookup k = some v := by
  induction l generalizing ix with
  | nil => exact h
  | cons a l ih =>
    show ((ix.getOrAdd a).2.registerList l).indices.lookup k = some v
    exact ih (getOrAdd_preserves a h)

theorem registerList_cons (ix : Indexer) (a : ℕ) (l : List ℕ) :
    ix.registerList (a :: l) = ((ix.getOrAdd a).2).registerList l := rfl

theorem registerList_fresh (ix : Indexer) (l : List ℕ) (hl : l.Nodup)
    (hfresh : ∀ x ∈ l, ix.indices.lookup x = none) (i : ℕ) (hi : i < l.length) :
    (ix.registerList l).indices.lookup l[i] = some (ix.nextIndex + i) := by
  induction l generalizing ix i with
  | nil => simp at hi
  | cons a l ih =>
    have ha : ix.indices.lookup a = none := hfresh a (by simp)
    have hstep : ix.getOrAdd a
        = (ix.nextIndex, ⟨ix.nextIndex + 1, ix.indices ++ [(a, ix.nextIndex)]⟩) := by
      unfold Indexer.getOrAdd
      rw [ha]
    have hfresh2 : ∀ x ∈ l, ((ix.getOrAdd a).2).indices.lookup x = none := by
      intro x hx
      rw [hstep]
      have hxa : x ≠ a := by
        rintro rfl
        exact (List.nodup_cons.mp hl).1 hx
      have hbeq : (x == a) = false := by simpa using hxa
      simp [List.lookup_append, hfresh x (by simp [hx]), List.lookup_cons, hbeq]
    match i with
    | 0 =>
      have hmem : ((ix.getOrAdd a).2).indices.lookup a = some ix.nextIndex := by
        rw [hstep]
        simp [List.lookup_append, ha]
      simpa using registerList_preserves l hmem
    | i + 1 =>
      have := ih (ix.getOrAdd a).2 (List.nodup_cons.mp hl).2 hfresh2 i
        (by simpa using Nat.lt_of_succ_lt_succ hi)
      rw [hstep] at this
      rw [registerList_cons, hstep]
      simpa [Int.add_comm 1 (i : ℤ), Int.add_assoc] using this

/-- C5: registering `N` distinct entities in order assigns the ids
`f, f+1, …, f+N-1`, and re-registering a previously seen entity returns the id
it was first assigned, without changing the indexer (no new id consumed). -/
theorem indexer_sequential_and_stable (f : ℤ) (l : List ℕ) (hl : l.Nodup)
    (i : ℕ) (hi : i < l.length) :
    ((mkIndexer f).registerList l).indices.lookup l[i] = some (f + i) ∧
    ((mkIndexer f).registerList l).getOrAdd l[i]
      = (f + i, (mkIndexer f).registerList l) := by
  have h := registerList_fresh (mkIndexer f) l hl (by simp [mkIndexer]) i hi
  exact ⟨h, getOrAdd_of_mem h⟩

theorem indexer_sequential_and_stable_witness :
    ([7, 3, 12].Nodup ∧ 1 < [7, 3, 12].length) ∧
    (((mkIndexer 5).registerList [7, 3, 12]).indices.lookup 3 = some (5 + 1) ∧
     ((mkIndexer 5).registerList [7, 3, 12]).getOrAdd 3
       = (5 + 1, (mkIndexer 5).registerList [7, 3, 12])) :=
  ⟨⟨by decide, by decide⟩,
    indexer_sequential_and_stable 5 [7, 3, 12] (by decide) 1 (by decide)⟩

/-! ### Lemmas about `STFOutput.write` -/

theorem splitLinesAux_no_newline (l : List Char) (h : '\n' ∉ l) :
    ∀ cur, splitLinesAux l cur = [cur ++ l] := by
  induction l with
  | nil => intro cur; simp [splitLinesAux]
  | cons c tl ih =>
    intro cur
    have hc : c ≠ '\n' := fun hcc => h (hcc ▸ List.mem_cons_self c tl)
    have htl : '\n' ∉ tl := fun htl2 => h (List.mem_cons_of_mem c htl2)
    rw [show splitLinesAux (c :: tl) cur = splitLinesAux tl (cur ++ [c]) by
      simp [splitLinesAux, hc]]
    rw [ih htl]
    simp

/-- C7 (amended): `STFOutput.write` checks, per line, that the indentation —
the balance before the line, minus one when the stripped line begins with
`')'` — is nonnegative, and raises otherwise; in particular a line beginning
with `')'` while the balance is zero raises.  A successful write updates the
balance by (number of `'('`) − (number of `')'`) of the line, which is not
guaranteed to leave the balance nonnegative. -/
theorem stf_write_line_balance (bal : ℤ) (line : List Char)
    (h1 : line ≠ []) (h2 : '\n' ∉ line) :
    (stfWrite bal line = none ↔
      (if startsWithChar ')' (lstrip line) then bal - 1 else bal) < 0) ∧
    ∀ out b2, stfWrite bal line = some (out, b2) →
      b2 = bal + countChar '(' (lstrip line) - countChar ')' (lstrip line) := by
  have hsplit : splitLines line = [line] := by
    unfold splitLines
    rw [if_neg h1]
    simpa using splitLinesAux_no_newline line h2 []
  unfold stfWrite
  rw [hsplit]
  simp only [List.foldl_cons, List.foldl_nil]
  unfold writeLine
  by_cases hp : (if startsWithChar ')' (lstrip line) then bal - 1 else bal) < 0
  · rw [if_pos hp]
    simp [hp]
  · rw [if_neg hp]
    simp only [hp, iff_false]
    constructor
    · simp
    · intro out b2 hsome
      have h3 : bal + (countChar '(' (lstrip line) : ℤ) - countChar ')' (lstrip line) = b2 := by
        simpa using congrArg (fun o => Option.map Prod.snd o) hsome
      exact h3.symm

theorem stf_write_line_balance_witness :
    ((')' :: ['x']) ≠ [] ∧ '\n' ∉ [')', 'x']) ∧
    ((stfWrite 0 [')', 'x'] = none ↔
        (if startsWithChar ')' (lstrip [')', 'x']) then (0 : ℤ) - 1 else 0) < 0) ∧
      ∀ out b2, stfWrite 0 [')', 'x'] = some (out, b2) →
        b2 = 0 + countChar '(' (lstrip [')', 'x']) - countChar ')' (lstrip [')', 'x'])) :=
  ⟨⟨by decide, by decide⟩, stf_write_line_balance 0 [')', 'x'] (by decide) (by decide)⟩

/-- C7 counterexample: the write of `"((\nx))))"` at balance 0 succeeds (no
line begins with `')'`, so every per-line indent check passes) yet leaves the
running balance at `-2 < 0`, so a successful write does not keep the
open-minus-closed balance nonnegative. -/
theorem stf_write_negative_balance_counterexample :
    (stfWrite 0 ('(' :: '(' :: '\n' :: 'x' :: ')' :: ')' :: ')' :: [')'])).map Prod.snd
      = some (-2) ∧ (-2 : ℤ) < 0 := by
  exact ⟨by decide, by decide⟩

/-! ### Lemmas about `_get_section_index` -/

/-- C8: the shape id computed by `_get_section_index` is even exactly for
straight (`radius = 0`) and left-curve (`radius < 0`) segments, and odd exactly
for right-curve (`radius > 0`) segments. -/
theorem section_index_parity (idx : ℤ) (radius : ℝ) :
    (Even (getSectionIndex idx radius) ↔ radius ≤ 0) ∧
    (Odd (getSectionIndex idx radius) ↔ 0 < radius) := by
  by_cases h : radius ≤ 0
  · have hx : getSectionIndex idx radius = 2 * idx - 40000 := if_pos h
    have he : Even (2 * idx - 40000) := ⟨idx - 20000, by ring⟩
    have hno : ¬ Odd (2 * idx - 40000) := by
      rw [Int.odd_iff]
      omega
    rw [hx]
    exact ⟨iff_of_true he h, iff_of_false hno (not_lt.mpr h)⟩
  · have hx : getSectionIndex idx radius = 2 * idx - 40000 + 1 := if_neg h
    have ho : Odd (2 * idx - 40000 + 1) := ⟨idx - 20000, by ring⟩
    have hne : ¬ Even (2 * idx - 40000 + 1) := by
      rw [Int.even_iff]
      omega
    rw [hx]
    exact ⟨iff_of_false hne h, iff_of_true ho (not_le.mp h)⟩

theorem section_index_parity_witness :
    Even (getSectionIndex 40001 0) ∧ Odd (getSectionIndex 40001 1) :=
  ⟨(section_index_parity 40001 0).1.mpr (by norm_num),
   (section_index_parity 40001 1).2.mpr (by norm_num)⟩

/-! ### Lemmas about `_tile_file_names` -/

/-- Bit `i` of a natural number. -/
def nbit (a : ℕ) (i : ℕ) : ℕ := a / 2 ^ i % 2

/-- Base-4 little-endian value of a digit list. -/
def val4 (l : List ℕ) : ℕ := l.foldr (fun d acc => d + 4 * acc) 0

/-- Base-2 little-endian value of a digit list. -/
def val2 (l : List ℕ) : ℕ := l.foldr (fun d acc => d + 2 * acc) 0

theorem nbit_le_one (a i : ℕ) : nbit a i ≤ 1 :=
  Nat.le_of_lt_succ (Nat.mod_lt _ (by norm_num))

theorem neg_succ_ediv_pow (a : ℕ) (i : ℕ) :
    (-(a : ℤ) - 1) / 2 ^ i = -((a : ℤ) / 2 ^ i) - 1 := by
  have hd : (0 : ℤ) < 2 ^ i := by positivity
  have hr0 : 0 ≤ (a : ℤ) % 2 ^ i := Int.emod_nonneg _ (by positivity)
  have hr1 : (a : ℤ) % 2 ^ i < 2 ^ i := Int.emod_lt_of_pos _ hd
  have heq : 2 ^ i * ((a : ℤ) / 2 ^ i) + (a : ℤ) % 2 ^ i = a := Int.ediv_add_emod _ _
  exact ((@Int.ediv_emod_unique (-(a : ℤ) - 1) (2 ^ i) (2 ^ i - 1 - (a : ℤ) % 2 ^ i)
    (-((a : ℤ) / 2 ^ i) - 1) hd).mpr ⟨by linarith, by omega, by omega⟩).1

theorem pyBitAnd_pyNot (a : ℕ) (i : ℕ) :
    pyBitAnd (pyNot (a : ℤ)) i = ((2 ^ i * (1 - nbit a i) : ℕ) : ℤ) := by
  unfold pyBitAnd pyNot nbit
  rw [neg_succ_ediv_pow]
  have hcast : ((a : ℤ) / 2 ^ i) = ((a / 2 ^ i : ℕ) : ℤ) := by
    push_cast
    rfl
  rw [hcast]
  have hmod : (-(((a / 2 ^ i : ℕ) : ℤ)) - 1) % 2 = 1 - ((a / 2 ^ i % 2 : ℕ) : ℤ) := by
    omega
  rw [hmod]
  have hle : a / 2 ^ i % 2 ≤ 1 := Nat.le_of_lt_succ (Nat.mod_lt _ (by norm_num))
  have hc2 : ((2 ^ i * (1 - a / 2 ^ i % 2) : ℕ) : ℤ)
      = 2 ^ i * (1 - ((a / 2 ^ i % 2 : ℕ) : ℤ)) := by
    push_cast [Nat.cast_sub hle]
    ring
  rw [hc2]

/-- `a ||| b = a + b` when `a` occupies only bits below `k` and `b` only bits
at or above `k`. -/
theorem lor_disjoint {k a b : ℕ} (ha : a < 2 ^ k) (hb : 2 ^ k ∣ b) :
    a ||| b = a + b := by
  obtain ⟨c, rfl⟩ := hb
  apply Nat.eq_of_testBit_eq
  intro i
  rw [Nat.testBit_lor]
  rcases Nat.lt_or_ge i k with hik | hik
  · have hk : 2 ^ k * c = 2 ^ i * (2 * (2 ^ (k - i - 1) * c)) := by
      have hex : k = i + 1 + (k - i - 1) := by omega
      calc 2 ^ k * c = 2 ^ (i + 1 + (k - i - 1)) * c := by rw [← hex]
        _ = 2 ^ i * (2 * (2 ^ (k - i - 1) * c)) := by
            rw [Nat.pow_add, Nat.pow_add]
            ring
    have hpos : 0 < 2 ^ i := Nat.pos_pow_of_pos _ (by norm_num)
    have hb_bit : (2 ^ k * c).testBit i = false := by
      rw [Nat.testBit_to_div_mod, hk, Nat.mul_div_cancel_left _ hpos]
      simp [Nat.mul_mod_right]
    have hsum_bit : (a + 2 ^ k * c).testBit i = a.testBit i := by
      rw [Nat.testBit_to_div_mod, Nat.testBit_to_div_mod, hk,
        Nat.add_mul_div_left _ _ hpos, Nat.add_mul_mod_self_left]
    rw [hb_bit, hsum_bit, Bool.or_false]
  · have ha_bit : a.testBit i = false :=
      Nat.testBit_lt_two_pow
        (Nat.lt_of_lt_of_le ha (Nat.pow_le_pow_right (by norm_num) hik))
    obtain ⟨m, rfl⟩ : ∃ m, i = k + m := ⟨i - k, by omega⟩
    have hpos : 0 < 2 ^ (k + m) := Nat.pos_pow_of_pos _ (by norm_num)
    have hc := Nat.div_add_mod c (2 ^ m)
    have hr : c % 2 ^ m < 2 ^ m := Nat.mod_lt _ (Nat.pos_pow_of_pos _ (by norm_num))
    have hbc : 2 ^ k * c = 2 ^ (k + m) * (c / 2 ^ m) + 2 ^ k * (c % 2 ^ m) := by
      calc 2 ^ k * c = 2 ^ k * (2 ^ m * (c / 2 ^ m) + c % 2 ^ m) := by rw [hc]
        _ = 2 ^ (k + m) * (c / 2 ^ m) + 2 ^ k * (c % 2 ^ m) := by
            rw [Nat.pow_add]
            ring
    have hsmall : a + 2 ^ k * (c % 2 ^ m) < 2 ^ (k + m) := by
      have h1 : 2 ^ k * (c % 2 ^ m) ≤ 2 ^ k * (2 ^ m - 1) :=
        Nat.mul_le_mul_left _ (by omega)
      have h2 : (0 : ℕ) < 2 ^ k := Nat.pos_pow_of_pos _ (by norm_num)
      have hm1 : 2 ^ m - 1 + 1 = 2 ^ m := by
        have : (0 : ℕ) < 2 ^ m := Nat.pos_pow_of_pos _ (by norm_num)
        omega
      have h3 : 2 ^ k * (2 ^ m - 1) + 2 ^ k = 2 ^ (k + m) := by
        calc 2 ^ k * (2 ^ m - 1) + 2 ^ k = 2 ^ k * (2 ^ m - 1 + 1) := by ring
          _ = 2 ^ k * 2 ^ m := by rw [hm1]
          _ = 2 ^ (k + m) := (Nat.pow_add 2 k m).symm
      omega
    have h1 : 2 ^ k * c / 2 ^ (k + m) = c / 2 ^ m := by
      rw [hbc, Nat.add_comm, Nat.add_mul_div_left _ _ hpos,
        Nat.div_eq_of_lt (by omega), Nat.zero_add]
    have h2 : (a + 2 ^ k * c) / 2 ^ (k + m) = c / 2 ^ m := by
      have : a + 2 ^ k * c = (a + 2 ^ k * (c % 2 ^ m)) + 2 ^ (k + m) * (c / 2 ^ m) := by
        rw [hbc]
        ring
      rw [this, Nat.add_mul_div_left _ _ hpos, Nat.div_eq_of_lt hsmall, Nat.zero_add]
    rw [Nat.testBit_to_div_mod, Nat.testBit_to_div_mod, Nat.testBit_to_div_mod, h1, h2]
    have ha0 : a / 2 ^ (k + m) = 0 :=
      Nat.div_eq_of_lt (Nat.lt_of_lt_of_le ha (Nat.pow_le_pow_right (by norm_num) hik))
    rw [ha0]
    simp

theorem val4_append (l : List ℕ) (d : ℕ) :
    val4 (l ++ [d]) = val4 l + 4 ^ l.length * d := by
  induction l with
  | nil => simp [val4]
  | cons e t ih =>
    unfold val4 at *
    simp only [List.cons_append, List.foldr_cons, List.length_cons] at *
    rw [ih]
    ring

theorem val4_lt (l : List ℕ) (h : ∀ d ∈ l, d ≤ 3) : val4 l < 4 ^ l.length := by
  induction l with
  | nil => simp [val4]
  | cons e t ih =>
    have he : e ≤ 3 := h e (by simp)
    have ht := ih (fun d hd => h d (by simp [hd]))
    unfold val4 at *
    simp only [List.foldr_cons, List.length_cons]
    rw [pow_succ]
    omega

theorem val4_inj (l1 l2 : List ℕ) (h1 : ∀ d ∈ l1, d ≤ 3) (h2 : ∀ d ∈ l2, d ≤ 3)
    (hlen : l1.length = l2.length) (hv : val4 l1 = val4 l2) : l1 = l2 := by
  induction l1 generalizing l2 with
  | nil =>
    cases l2 with
    | nil => rfl
    | cons b t2 => simp at hlen
  | cons a t1 ih =>
    cases l2 with
    | nil => simp at hlen
    | cons b t2 =>
      have ha : a ≤ 3 := h1 a (by simp)
      have hb : b ≤ 3 := h2 b (by simp)
      unfold val4 at hv
      simp only [List.foldr_cons] at hv
      have hab : a = b ∧ (val4 t1 = val4 t2) := by
        unfold val4
        constructor <;> omega
      have ht := ih t2 (fun d hd => h1 d (List.mem_cons_of_mem _ hd))
        (fun d hd => h2 d (List.mem_cons_of_mem _ hd)) (by simpa using hlen) hab.2
      rw [hab.1, ht]

theorem val2_bits (n : ℕ) (b : ℕ) (hb : b < 2 ^ n) :
    val2 ((List.range n).map (nbit b)) = b := by
  induction n generalizing b with
  | zero =>
    interval_cases b
    simp [val2]
  | succ n ih =>
    rw [List.range_succ_eq_map, List.map_cons, List.map_map]
    have hmap : (List.map (nbit b ∘ Nat.succ) (List.range n))
        = List.map (nbit (b / 2)) (List.range n) := by
      apply List.map_congr_left
      intro i _
      show nbit b (i + 1) = nbit (b / 2) i
      unfold nbit
      rw [Nat.div_div_eq_div_mul, ← Nat.pow_succ']
    have hdiv : b / 2 < 2 ^ n := by
      rw [Nat.pow_succ'] at hb
      omega
    have h0 : nbit b 0 = b % 2 := by
      unfold nbit
      norm_num
    unfold val2 at *
    simp only [List.foldr_cons]
    rw [hmap, ih (b / 2) hdiv, h0]
    omega

theorem pyOr_ofNat (x y : ℕ) : pyOr (x : ℤ) (y : ℤ) = ((x ||| y : ℕ) : ℤ) := by
  unfold pyOr
  norm_num

theorem four_pow_eq (n : ℕ) : (4 : ℕ) ^ n = 2 ^ n * 2 ^ n := by
  rw [show (4 : ℕ) = 2 * 2 from rfl, Nat.mul_pow]

theorem tile_digit_le (a b i : ℕ) : (1 - nbit a i) + 2 * (1 - nbit b i) ≤ 3 := by
  have := nbit_le_one a i
  have := nbit_le_one b i
  omega

theorem tile_fold_eq (a b : ℕ) (n : ℕ) :
    (List.range n).foldl
      (fun acc i => pyOr acc
        ((pyOr (pyBitAnd (pyNot (a : ℤ)) i) (pyBitAnd (pyNot (b : ℤ)) i * 2)) * 2 ^ i)) 0
    = ((val4 ((List.range n).map
        (fun i => (1 - nbit a i) + 2 * (1 - nbit b i))) : ℕ) : ℤ) := by
  induction n with
  | zero => simp [val4]
  | succ n ih =>
    rw [List.range_succ, List.foldl_append, List.map_append]
    simp only [List.map_cons, List.map_nil]
    rw [val4_append, ih]
    simp only [List.foldl_cons, List.foldl_nil, List.length_map, List.length_range]
    rw [pyBitAnd_pyNot, pyBitAnd_pyNot]
    have hu := nbit_le_one a n
    have hv := nbit_le_one b n
    have hc1 : ((2 ^ n * (1 - nbit b n) : ℕ) : ℤ) * 2
        = ((2 ^ (n + 1) * (1 - nbit b n) : ℕ) : ℤ) := by
      push_cast
      ring
    rw [hc1, pyOr_ofNat]
    have hinner : 2 ^ n * (1 - nbit a n) ||| 2 ^ (n + 1) * (1 - nbit b n)
        = 2 ^ n * (1 - nbit a n) + 2 ^ (n + 1) * (1 - nbit b n) := by
      apply lor_disjoint
      · calc 2 ^ n * (1 - nbit a n) ≤ 2 ^ n * 1 := Nat.mul_le_mul_left _ (by omega)
          _ < 2 ^ (n + 1) := by
            rw [Nat.mul_one, Nat.pow_succ]
            have : (0 : ℕ) < 2 ^ n := Nat.pos_pow_of_pos _ (by norm_num)
            omega
      · exact Dvd.intro _ rfl
    rw [hinner]
    have hc2 : (((2 ^ n * (1 - nbit a n) + 2 ^ (n + 1) * (1 - nbit b n) : ℕ)) : ℤ) * 2 ^ n
        = (((2 ^ n * (1 - nbit a n) + 2 ^ (n + 1) * (1 - nbit b n)) * 2 ^ n : ℕ) : ℤ) := by
      push_cast
      ring
    rw [hc2, pyOr_ofNat]
    have hterm : (2 ^ n * (1 - nbit a n) + 2 ^ (n + 1) * (1 - nbit b n)) * 2 ^ n
        = 4 ^ n * ((1 - nbit a n) + 2 * (1 - nbit b n)) := by
      rw [four_pow_eq, Nat.pow_succ]
      ring
    rw [hterm]
    have houter : val4 ((List.range n).map (fun i => (1 - nbit a i) + 2 * (1 - nbit b i)))
          ||| 4 ^ n * ((1 - nbit a n) + 2 * (1 - nbit b n))
        = val4 ((List.range n).map (fun i => (1 - nbit a i) + 2 * (1 - nbit b i)))
          + 4 ^ n * ((1 - nbit a n) + 2 * (1 - nbit b n)) := by
      have hk : (2 : ℕ) ^ (2 * n) = 4 ^ n := by
        rw [four_pow_eq, Nat.two_mul, Nat.pow_add]
      apply lor_disjoint (k := 2 * n)
      · rw [hk]
        have := val4_lt ((List.range n).map (fun i => (1 - nbit a i) + 2 * (1 - nbit b i)))
          (by
            intro d hd
            obtain ⟨i, _, rfl⟩ := List.mem_map.mp hd
            exact tile_digit_le a b i)
        simpa using this
      · rw [hk]
        exact Dvd.intro _ rfl
    rw [houter]

/-- `tile_idx` as a base-4 digit string: digit `i` is the complemented bit `i`
of `x ^ z` plus twice the complemented bit `i` of `z`. -/
theorem tileFileIdx_eq_val4 (tx tz : ℤ) (hx : 0 ≤ tx + 2 ^ 14) (hz : 0 ≤ tz + 2 ^ 14) :
    tileFileIdx tx tz
      = ((4 * val4 ((List.range 15).map
          (fun i => (1 - nbit ((tx + 2 ^ 14).toNat ^^^ (tz + 2 ^ 14).toNat) i)
            + 2 * (1 - nbit (tz + 2 ^ 14).toNat i))) : ℕ) : ℤ) := by
  unfold tileFileIdx pyXor
  have hzz : tz + 2 ^ 14 = (((tz + 2 ^ 14).toNat : ℕ) : ℤ) := (Int.toNat_of_nonneg hz).symm
  rw [hzz]
  simp only [Int.toNat_ofNat]
  rw [tile_fold_eq]
  push_cast
  ring

/-- C10: the `_tile_file_names` bit-interleaving is injective: distinct tile
coordinates with all components in `[-2^14, 2^14)` get distinct file-name
indices, hence distinct `.t`/`_y.raw` file names. -/
theorem tile_file_names_injective (tx1 tz1 tx2 tz2 : ℤ)
    (h1 : -2 ^ 14 ≤ tx1) (h2 : tx1 < 2 ^ 14) (h3 : -2 ^ 14 ≤ tz1) (h4 : tz1 < 2 ^ 14)
    (h5 : -2 ^ 14 ≤ tx2) (h6 : tx2 < 2 ^ 14) (h7 : -2 ^ 14 ≤ tz2) (h8 : tz2 < 2 ^ 14)
    (hne : (tx1, tz1) ≠ (tx2, tz2)) :
    tileFileIdx tx1 tz1 ≠ tileFileIdx tx2 tz2 := by
  intro heq
  rw [tileFileIdx_eq_val4 tx1 tz1 (by omega) (by omega),
    tileFileIdx_eq_val4 tx2 tz2 (by omega) (by omega)] at heq
  set x1 : ℕ := (tx1 + 2 ^ 14).toNat with hx1
  set z1 : ℕ := (tz1 + 2 ^ 14).toNat with hz1
  set x2 : ℕ := (tx2 + 2 ^ 14).toNat with hx2
  set z2 : ℕ := (tz2 + 2 ^ 14).toNat with hz2
  have hval : val4 ((List.range 15).map
        (fun i => (1 - nbit (x1 ^^^ z1) i) + 2 * (1 - nbit z1 i)))
      = val4 ((List.range 15).map
        (fun i => (1 - nbit (x2 ^^^ z2) i) + 2 * (1 - nbit z2 i))) := by
    have := Int.ofNat.inj heq
    omega
  have hlists := val4_inj _ _
    (by
      intro d hd
      obtain ⟨i, _, rfl⟩ := List.mem_map.mp hd
      exact tile_digit_le _ _ i)
    (by
      intro d hd
      obtain ⟨i, _, rfl⟩ := List.mem_map.mp hd
      exact tile_digit_le _ _ i)
    (by simp) hval
  have hpt := List.map_inj_left.mp hlists
  have hbits : ∀ i ∈ List.range 15, nbit (x1 ^^^ z1) i = nbit (x2 ^^^ z2) i
      ∧ nbit z1 i = nbit z2 i := by
    intro i hi
    have hg := hpt i hi
    have ha1 := nbit_le_one (x1 ^^^ z1) i
    have ha2 := nbit_le_one (x2 ^^^ z2) i
    have hb1 := nbit_le_one z1 i
    have hb2 := nbit_le_one z2 i
    constructor <;> omega
  have hx1lt : x1 < 2 ^ 15 := by omega
  have hz1lt : z1 < 2 ^ 15 := by omega
  have hx2lt : x2 < 2 ^ 15 := by omega
  have hz2lt : z2 < 2 ^ 15 := by omega
  have hzeq : z1 = z2 := by
    have e1 := val2_bits 15 z1 hz1lt
    have e2 := val2_bits 15 z2 hz2lt
    rw [List.map_inj_left.mpr (fun i hi => (hbits i hi).2)] at e1
    omega
  have haeq : x1 ^^^ z1 = x2 ^^^ z2 := by
    have e1 := val2_bits 15 (x1 ^^^ z1) (Nat.xor_lt_two_pow hx1lt hz1lt)
    have e2 := val2_bits 15 (x2 ^^^ z2) (Nat.xor_lt_two_pow hx2lt hz2lt)
    rw [List.map_inj_left.mpr (fun i hi => (hbits i hi).1)] at e1
    omega
  have hxeq : x1 = x2 := by
    have := congrArg (fun w => w ^^^ z1) haeq
    simpa [hzeq, Nat.xor_cancel_right] using this
  exact hne (by
    have : tx1 = tx2 := by omega
    have : tz1 = tz2 := by omega
    simp_all)

theorem tile_file_names_injective_witness :
    ((-2 ^ 14 ≤ (0 : ℤ) ∧ (0 : ℤ) < 2 ^ 14 ∧ -2 ^ 14 ≤ (1 : ℤ) ∧ (1 : ℤ) < 2 ^ 14) ∧
      ((0 : ℤ), (0 : ℤ)) ≠ ((0 : ℤ), (1 : ℤ))) ∧
    tileFileIdx 0 0 ≠ tileFileIdx 0 1 :=
  ⟨⟨⟨by norm_num, by norm_num, by norm_num, by norm_num⟩, by decide⟩,
    tile_file_names_injective 0 0 0 1 (by norm_num) (by norm_num) (by norm_num)
      (by norm_num) (by norm_num) (by norm_num) (by norm_num) (by norm_num) (by decide)⟩

/-! ## The geometry kernel (`geometry.py`)

Floats are exact reals.  Python `Pose.__init__` normalises the direction with
`direction % (2*math.pi)`; `mkPose` does the same (Python float `%` has the
sign of the divisor, i.e. it is `a - 2π⌊a/(2π)⌋`). -/

noncomputable section

open Real

/-- `geometry.Vector`. -/
structure Vec where
  x : ℝ
  y : ℝ

instance : Add Vec := ⟨fun a b => ⟨a.x + b.x, a.y + b.y⟩⟩
instance : Sub Vec := ⟨fun a b => ⟨a.x - b.x, a.y - b.y⟩⟩
instance : Neg Vec := ⟨fun a => ⟨-a.x, -a.y⟩⟩
instance : SMul ℝ Vec := ⟨fun r a => ⟨r * a.x, r * a.y⟩⟩

/-- `Vector.__mul__` on two vectors (dot product). -/
def Vec.dot (a b : Vec) : ℝ := a.x * b.x + a.y * b.y

/-- `Vector.__matmul__` (z component of the cross product). -/
def Vec.cross (a b : Vec) : ℝ := a.x * b.y - a.y * b.x

/-- `Vector.ortho` = `(-y, x)`. -/
def Vec.ortho (a : Vec) : Vec := ⟨-a.y, a.x⟩

/-- `Vector.__abs__` (length). -/
def Vec.len (a : Vec) : ℝ := Real.sqrt (a.x ^ 2 + a.y ^ 2)

/-- `Vector.alpha` = `math.atan2(y, x)`; `Complex.arg` is `atan2` on `(-π, π]`. -/
def Vec.alpha (a : Vec) : ℝ := Complex.arg ⟨a.x, a.y⟩

/-- `geometry.polar(alpha, length)`. -/
def polar (α L : ℝ) : Vec := ⟨Real.cos α * L, Real.sin α * L⟩

/-- `geometry.polar(alpha)` with the default length 1. -/
def polar1 (α : ℝ) : Vec := polar α 1

/-- Python float `%` for the positive modulus `2π`. -/
def angNorm (a : ℝ) : ℝ := a - 2 * π * ⌊a / (2 * π)⌋

/-- `geometry.Pose` (the stored direction is the normalised one). -/
structure Pose where
  pos : Vec
  dir : ℝ

/-- `Pose.__init__`: normalises `direction % (2*pi)`. -/
def mkPose (p : Vec) (d : ℝ) : Pose := ⟨p, angNorm d⟩

/-- `Pose.reverse`. -/
def Pose.reverse (p : Pose) : Pose := mkPose p.pos (p.dir + π)

/-- `Pose.to_global` on a pose argument. -/
def Pose.toGlobalP (self other : Pose) : Pose :=
  let vx := polar1 self.dir
  let vy := vx.ortho
  mkPose (self.pos + other.pos.x • vx + other.pos.y • vy) (self.dir + other.dir)

/-- `Pose.to_local` on a pose argument. -/
def Pose.toLocalP (self other : Pose) : Pose :=
  let vx := polar1 self.dir
  let vy := vx.ortho
  let p := other.pos - self.pos
  mkPose ⟨p.dot vx, p.dot vy⟩ (other.dir - self.dir)

/-- `geometry.angle_between` on two direction values, in `[-π, π)`. -/
def angleBetween (a b : ℝ) : ℝ := angNorm (b - a + π) - π

/-! ## The graph model (`railgraphs.py`)

Nodes, edges and scenery objects live in arenas keyed by their identity
(a `ℕ` id); `incoming`/`outgoing`/`scenery_objects` lists hold ids in Python
list order.  Mutation is explicit state passing on `RGraph`; operations that
can raise (`assert`, attribute access on `None`, `list.remove` of a missing
element, `KeyError`) return `none`. -/

/-- `railgraphs.EdgeSegment`. -/
structure Seg where
  start : Pose
  length : ℝ
  radius : ℝ

/-- `EdgeSegment.center`. -/
def Seg.center (seg : Seg) : Vec := seg.start.pos + polar (seg.start.dir - 0.5 * π) seg.radius

/-- `EdgeSegment.travel`. -/
def Seg.travel (seg : Seg) (s : ℝ) : Pose :=
  if seg.radius = 0 then
    mkPose (seg.start.pos + polar seg.start.dir s) seg.start.dir
  else
    let c := seg.center
    let angle := s / seg.radius
    let beta := seg.start.dir + 0.5 * π - angle
    mkPose (c + polar beta seg.radius) (seg.start.dir - angle)

/-- `EdgeSegment.end` (the end pose, pointing back towards the start). -/
def Seg.endPose (seg : Seg) : Pose := (seg.travel seg.length).reverse

/-- `EdgeSegment.flip` (the end pose is computed before the radius is negated). -/
def Seg.flip (seg : Seg) : Seg := ⟨seg.endPose, seg.length, -seg.radius⟩

/-- `EdgeSegment.to_global` on a pose argument. -/
def Seg.toGlobal (seg : Seg) (o : Pose) (off : ℝ) (eb ea : Bool) : Option Pose :=
  let x := o.pos.x - off
  let y := o.pos.y
  if x < 0 ∧ eb = false then none
  else if x > seg.length ∧ ea = false then none
  else
    let q := seg.travel x
    let vy := (polar1 q.dir).ortho
    some (mkPose (q.pos + y • vy) (o.dir + q.dir))

/-- `railgraphs.EdgeEnd`. -/
inductive Side
  | SOURCE
  | TARGET
  deriving DecidableEq, Repr

/-- `railgraphs.End`: the identity of an `End` object is (edge id, side). -/
structure GEnd where
  edge : ℕ
  side : Side
  deriving DecidableEq, Repr

/-- `End.other_end`. -/
def otherEnd (en : GEnd) : GEnd :=
  ⟨en.edge, match en.side with | .SOURCE => .TARGET | .TARGET => .SOURCE⟩

/-- Arena record for a `Node`. -/
structure NodeD where
  pose : Pose
  s : ℝ
  incoming : List ℕ
  outgoing : List ℕ

/-- Arena record for an `Edge`. -/
structure EdgeD where
  src : Option ℕ
  tgt : Option ℕ
  segments : List Seg
  scenery : List ℕ

/-- Arena record for a `SceneryObject` (`relativeTo = none` means
graph-relative). -/
structure SceneryD where
  pose : Pose
  relativeTo : Option ℕ

/-- `railgraphs.Graph` as an arena. -/
structure RGraph where
  nodes : List (ℕ × NodeD)
  edges : List (ℕ × EdgeD)
  scenery : List (ℕ × SceneryD)
  nextId : ℕ

def RGraph.node? (g : RGraph) (i : ℕ) : Option NodeD := g.nodes.lookup i

def RGraph.edge? (g : RGraph) (i : ℕ) : Option EdgeD := g.edges.lookup i

def RGraph.obj? (g : RGraph) (i : ℕ) : Option SceneryD := g.scenery.lookup i

def RGraph.setNode (g : RGraph) (i : ℕ) (nd : NodeD) : RGraph :=
  { g with nodes := g.nodes.map (fun p => if p.1 = i then (i, nd) else p) }

def RGraph.setEdge (g : RGraph) (i : ℕ) (e : EdgeD) : RGraph :=
  { g with edges := g.edges.map (fun p => if p.1 = i then (i, e) else p) }

def RGraph.setObj (g : RGraph) (i : ℕ) (ob : SceneryD) : RGraph :=
  { g with scenery := g.scenery.map (fun p => if p.1 = i then (i, ob) else p) }

/-- `Edge.start`. -/
def edgeStart (g : RGraph) (e : EdgeD) : Option Pose :=
  match e.segments with
  | seg :: _ => some seg.start
  | [] => do
    let sid ← e.src
    let sn ← g.node? sid
    let tid ← e.tgt
    let tn ← g.node? tid
    pure (mkPose sn.pose.pos ((tn.pose.pos - sn.pose.pos).alpha))

/-- `Edge.end`. -/
def edgeEnd (g : RGraph) (e : EdgeD) : Option Pose :=
  match e.segments.getLast? with
  | some seg => some seg.endPose
  | none => do
    let sid ← e.src
    let sn ← g.node? sid
    let tid ← e.tgt
    let tn ← g.node? tid
    pure (mkPose tn.pose.pos ((sn.pose.pos - tn.pose.pos).alpha))

/-- `Edge.length`. -/
def edgeLength (g : RGraph) (e : EdgeD) : Option ℝ :=
  match e.segments with
  | _ :: _ => some ((e.segments.map Seg.length).sum)
  | [] => do
    let sid ← e.src
    let sn ← g.node? sid
    let tid ← e.tgt
    let tn ← g.node? tid
    pure (sn.pose.pos - tn.pose.pos).len

/-- `End.pose`. -/
def endPoseOf (g : RGraph) (en : GEnd) : Option Pose := do
  let e ← g.edge? en.edge
  match en.side with
  | .SOURCE => edgeStart g e
  | .TARGET => edgeEnd g e

/-- `End.node` (the node object, as an id). -/
def endNodeOf (g : RGraph) (en : GEnd) : Option ℕ := do
  let e ← g.edge? en.edge
  match en.side with
  | .SOURCE => e.src
  | .TARGET => e.tgt

/-- Stable insertion into a key-sorted list (insert after equal keys, as
Python's stable `list.sort`). -/
def insKey (a : GEnd × ℝ) : List (GEnd × ℝ) → List (GEnd × ℝ)
  | [] => [a]
  | b :: t => if b.2 ≤ a.2 then b :: insKey a t else a :: b :: t

/-- Stable sort by key (extensionally Python's stable `list.sort(key=…)`). -/
def sortByKey (l : List (GEnd × ℝ)) : List (GEnd × ℝ) :=
  l.foldl (fun acc a => insKey a acc) []

/-- `Node.ends()`: target ends of incoming edges then source ends of outgoing
edges, stably sorted by `|angle_between(node.direction, end.pose().direction)|`
(the tip, closest to the node direction, comes first).  The second sort in the
source, `ends[1:].sort(key=End.curvature)`, sorts a slice copy and has no
effect, so it is omitted. -/
def nodeEnds (g : RGraph) (nid : ℕ) : Option (List GEnd) := do
  let nd ← g.node? nid
  let raw := nd.incoming.map (fun e => GEnd.mk e .TARGET)
    ++ nd.outgoing.map (fun e => GEnd.mk e .SOURCE)
  let keyed ← raw.mapM (fun en => do
    let p ← endPoseOf g en
    pure (en, |angleBetween nd.pose.dir p.dir|))
  pure ((sortByKey keyed).map Prod.fst)

open Classical in
/-- `Node.connected_ends` (`assert end in ends` modelled by `none`). -/
def connectedEnds (g : RGraph) (nid : ℕ) (en : GEnd) : Option (List GEnd) := do
  let ends ← nodeEnds g nid
  if en ∈ ends then
    if ends.head? = some en then pure ends.tail
    else pure (ends.take 1)
  else none

/-- `Node.directions()`. -/
def nodeDirections (g : RGraph) (nid : ℕ) : Option (List ℝ) := do
  let nd ← g.node? nid
  let dirs1 ← nd.incoming.mapM (fun ei => do
    let e ← g.edge? ei
    let p ← edgeEnd g e
    pure p.dir)
  let dirs2 ← nd.outgoing.mapM (fun ei => do
    let e ← g.edge? ei
    let p ← edgeStart g e
    pure p.dir)
  pure (dirs1 ++ dirs2)

open Classical in
/-- The body of the `for i in range(len(dirs))` tip search in
`Node.calculate_direction`: `prev` is `dirs[:i]`, the argument `dirs[i:]`. -/
def findTipAux (prev : List ℝ) : List ℝ → Option ℝ
  | [] => none
  | d :: rest =>
    if ∀ d2 ∈ prev ++ rest, |angleBetween d d2| > 0.66 * π then some d
    else findTipAux (prev ++ [d]) rest

open Classical in
/-- `Node.calculate_direction`.  Returns the Python `bool` result and the
updated graph (the node's pose is assigned on success). -/
def calculateDirection (g : RGraph) (nid : ℕ) : Option (Bool × RGraph) := do
  let nd ← g.node? nid
  let dirs ← nodeDirections g nid
  match dirs with
  | [d0] => pure (true, g.setNode nid { nd with pose := mkPose nd.pose.pos d0 })
  | [d0, d1] =>
    if |angleBetween d0 d1| ≤ 0.5 * π then pure (false, g)
    else pure (true, g.setNode nid
      { nd with pose := mkPose nd.pose.pos (d1 + angleBetween d1 (d0 + π) * 0.5) })
  | _ =>
    match findTipAux [] dirs with
    | some d => pure (true, g.setNode nid { nd with pose := mkPose nd.pose.pos d })
    | none => pure (false, g)

/-! ### Mutating operations -/

/-- Remove `eid` from a node's `outgoing` (Python `list.remove`: raises when
the element is missing). -/
def nodeRemoveOutgoing (g : RGraph) (nid eid : ℕ) : Option RGraph := do
  let nd ← g.node? nid
  if eid ∈ nd.outgoing then pure (g.setNode nid { nd with outgoing := nd.outgoing.erase eid })
  else none

/-- Remove `eid` from a node's `incoming`. -/
def nodeRemoveIncoming (g : RGraph) (nid eid : ℕ) : Option RGraph := do
  let nd ← g.node? nid
  if eid ∈ nd.incoming then pure (g.setNode nid { nd with incoming := nd.incoming.erase eid })
  else none

/-- Append `eid` to a node's `outgoing`. -/
def nodeAppendOutgoing (g : RGraph) (nid eid : ℕ) : Option RGraph := do
  let nd ← g.node? nid
  pure (g.setNode nid { nd with outgoing := nd.outgoing ++ [eid] })

/-- Append `eid` to a node's `incoming`. -/
def nodeAppendIncoming (g : RGraph) (nid eid : ℕ) : Option RGraph := do
  let nd ← g.node? nid
  pure (g.setNode nid { nd with incoming := nd.incoming ++ [eid] })

/-- The scenery loop of `Edge.flip`: for each object of the edge (in list
order), if it is relative to this edge, reverse its pose, set
`x = edge.length() - x` and negate `y` (plain field mutation, no
renormalisation beyond `Pose.reverse`). -/
def flipSceneryList (g : RGraph) (eid : ℕ) : List ℕ → Option RGraph
  | [] => pure g
  | oid :: rest => do
    let ob ← g.obj? oid
    if ob.relativeTo = some eid then do
      let e ← g.edge? eid
      let L ← edgeLength g e
      let p1 := ob.pose.reverse
      let p2 : Pose := ⟨⟨L - p1.pos.x, -p1.pos.y⟩, p1.dir⟩
      flipSceneryList (g.setObj oid { ob with pose := p2 }) eid rest
    else flipSceneryList g eid rest

/-- `Edge.flip`: exchange source and target (with back-reference list surgery
in source order), flip and reverse the segments, then transform the
edge-relative scenery objects. -/
def edgeFlip (g : RGraph) (eid : ℕ) : Option RGraph := do
  let e ← g.edge? eid
  let g ← match e.src with
    | some s => nodeRemoveOutgoing g s eid
    | none => pure g
  let g ← match e.tgt with
    | some t => nodeRemoveIncoming g t eid
    | none => pure g
  let newSrc := e.tgt
  let newTgt := e.src
  let g ← match newTgt with
    | some t => nodeAppendIncoming g t eid
    | none => pure g
  let g ← match newSrc with
    | some s => nodeAppendOutgoing g s eid
    | none => pure g
  let segs2 := (e.segments.map Seg.flip).reverse
  let g := g.setEdge eid { e with src := newSrc, tgt := newTgt, segments := segs2 }
  flipSceneryList g eid e.scenery

/-- `Edge.set_source`. -/
def setSource (g : RGraph) (eid : ℕ) (newSrc : Option ℕ) : Option RGraph := do
  let e ← g.edge? eid
  if newSrc = e.src then pure g
  else do
    let g ← match e.src with
      | some s => nodeRemoveOutgoing g s eid
      | none => pure g
    let g ← match newSrc with
      | some s => nodeAppendOutgoing g s eid
      | none => pure g
    pure (g.setEdge eid { e with src := newSrc })

/-- `Edge.set_target`. -/
def setTarget (g : RGraph) (eid : ℕ) (newTgt : Option ℕ) : Option RGraph := do
  let e ← g.edge? eid
  if newTgt = e.tgt then pure g
  else do
    let g ← match e.tgt with
      | some t => nodeRemoveIncoming g t eid
      | none => pure g
    let g ← match newTgt with
      | some t => nodeAppendIncoming g t eid
      | none => pure g
    pure (g.setEdge eid { e with tgt := newTgt })

/-- `Edge.__init__`: a fresh edge with the given source/target, registered in
the graph and in the nodes' back-reference lists. -/
def newEdge (g : RGraph) (srcId tgtId : Option ℕ) : Option (ℕ × RGraph) := do
  let eid := g.nextId
  let g := { g with nextId := g.nextId + 1,
                    edges := g.edges ++ [(eid, ⟨srcId, tgtId, [], []⟩)] }
  let g ← match srcId with
    | some s => nodeAppendOutgoing g s eid
    | none => pure g
  let g ← match tgtId with
    | some t => nodeAppendIncoming g t eid
    | none => pure g
  pure (eid, g)

/-- `Node.__init__`: a fresh node registered in the graph. -/
def newNode (g : RGraph) (pose : Pose) (s : ℝ) : ℕ × RGraph :=
  let nid := g.nextId
  (nid, { g with nextId := g.nextId + 1, nodes := g.nodes ++ [(nid, ⟨pose, s, [], []⟩)] })

open Classical in
/-- `Node.add_edge`. -/
def nodeAddEdge (g : RGraph) (nid : ℕ) (length radius : ℝ) (backward : Bool) :
    Option (GEnd × RGraph) := do
  let nd ← g.node? nid
  let (eid, g) ← newEdge g (some nid) none
  let startPose := if (length < 0) ↔ (backward = true) then nd.pose else nd.pose.reverse
  let segment : Seg := ⟨startPose, |length|, radius⟩
  let e ← g.edge? eid
  let g := g.setEdge eid { e with segments := e.segments ++ [segment] }
  let endPose := segment.endPose
  let (tid, g) := newNode g endPose.reverse (nd.s + length)
  let g ← setTarget g eid (some tid)
  if length ≥ 0 then pure (⟨eid, .TARGET⟩, g)
  else do
    let g ← edgeFlip g eid
    pure (⟨eid, .SOURCE⟩, g)

/-- `Node.degree`. -/
def nodeDegree (nd : NodeD) : ℕ := nd.incoming.length + nd.outgoing.length

open Classical in
/-- `End.add_edge`: the route-authoring primitive.  `length == 0` returns the
same `End` with nothing changed; extending appends/prepends a segment to the
existing edge and moves the degree-1 node; otherwise a new edge is created via
`Node.add_edge`, flipped for a `SOURCE`-side end. -/
def endAddEdge (g : RGraph) (en : GEnd) (length radius : ℝ) (extendEdge : Bool) :
    Option (GEnd × RGraph) := do
  if length = 0 then pure (en, g)
  else do
    let nid ← endNodeOf g en
    let nd ← g.node? nid
    if extendEdge = true ∧ length ≥ 0 ∧ nodeDegree nd = 1 then do
      let p ← endPoseOf g en
      let startPose := p.reverse
      let segment : Seg := ⟨startPose, length, radius⟩
      let endPose := segment.endPose
      let e ← g.edge? en.edge
      let g ← match en.side with
        | .TARGET => do
            let g := g.setEdge en.edge { e with segments := e.segments ++ [segment] }
            let nd2 ← g.node? nid
            pure (g.setNode nid { nd2 with s := nd2.s + length })
        | .SOURCE => do
            let g := g.setEdge en.edge { e with segments := segment.flip :: e.segments }
            let nd2 ← g.node? nid
            pure (g.setNode nid { nd2 with s := nd2.s - length })
      let nd3 ← g.node? nid
      pure (en, g.setNode nid { nd3 with pose := endPose })
    else do
      let ce ← connectedEnds g nid en
      let step ← (if ce ≠ [] then do
          let p ← endPoseOf g en
          let g := g.setNode nid { nd with pose := p }
          nodeAddEdge g nid length radius true
        else do
          let p ← endPoseOf g en
          let g := g.setNode nid { nd with pose := p.reverse }
          nodeAddEdge g nid length radius false)
      let (ne, g) := step
      match en.side with
      | .SOURCE => do
          let g ← edgeFlip g ne.edge
          pure (⟨ne.edge, Side.SOURCE⟩, g)
      | .TARGET => pure (ne, g)

/-- C9: `End.add_edge` with `length = 0` returns the same `End` object and
leaves the graph (all nodes with their poses and `s`, all edges with their
segment lists, all scenery) completely unchanged. -/
theorem end_add_edge_zero_length (g : RGraph) (en : GEnd) (radius : ℝ)
    (extendEdge : Bool) :
    endAddEdge g en 0 radius extendEdge = some (en, g) := by
  unfold endAddEdge
  simp

/-! ## `find_shortest_path` (`railgraphs.py` lines 999-1029)

The `heapq` priority queue holds `(cumulative length, insertion count, End)`
triples; counts are unique, so the popped element is the unique minimum in the
lexicographic `(length, count)` order, which `popMin` extracts.  The
`predecessors` dict is keyed by `End` identity.  The Python `while` loops are
modelled with fuel; `none` covers both a raised exception and exhausted fuel
(the Python loop always terminates, each push being keyed by an unseen `End`).
-/

/-- `railgraphs.Path`: ends plus start/end trim offsets. -/
structure RPath where
  ends : List GEnd
  startOffset : ℝ
  endOffset : ℝ

/-- Lexicographic order on `(cumulative length, insertion count)`, as `heapq`
compares the pushed tuples (the `End` component is never compared because
counts are unique). -/
def heapLe (a b : ℝ × ℕ × GEnd) : Prop := a.1 < b.1 ∨ (a.1 = b.1 ∧ a.2.1 ≤ b.2.1)

open Classical in
/-- Pop the minimum entry from the heap. -/
def popMin : List (ℝ × ℕ × GEnd) → Option ((ℝ × ℕ × GEnd) × List (ℝ × ℕ × GEnd))
  | [] => none
  | x :: xs =>
    match popMin xs with
    | none => some (x, xs)
    | some (m, rest) => if heapLe x m then some (x, xs) else some (m, x :: rest)

/-- The initial pushes: `(end.edge.length(), cnt, end)` with
`predecessors[end] = None`. -/
def initPush (g : RGraph) :
    List GEnd → List (ℝ × ℕ × GEnd) → List (GEnd × Option GEnd) → ℕ →
    Option (List (ℝ × ℕ × GEnd) × List (GEnd × Option GEnd) × ℕ)
  | [], heap, preds, cnt => some (heap, preds, cnt)
  | en :: rest, heap, preds, cnt => do
    let e ← g.edge? en.edge
    let L ← edgeLength g e
    initPush g rest (heap ++ [(L, cnt, en)]) (preds ++ [(en, none)]) (cnt + 1)

/-- The expansion loop body: push every connected end not yet in
`predecessors`. -/
def pushEnds (g : RGraph) (s : ℝ) (cur : GEnd) :
    List GEnd → List (ℝ × ℕ × GEnd) → List (GEnd × Option GEnd) → ℕ →
    Option (List (ℝ × ℕ × GEnd) × List (GEnd × Option GEnd) × ℕ)
  | [], heap, preds, cnt => some (heap, preds, cnt)
  | en :: rest, heap, preds, cnt =>
    if (preds.lookup en).isSome then pushEnds g s cur rest heap preds cnt
    else do
      let e ← g.edge? en.edge
      let L ← edgeLength g e
      pushEnds g s cur rest (heap ++ [(s + L, cnt, en)]) (preds ++ [(en, some cur)]) (cnt + 1)

/-- The `while heap:` loop.  Returns the final `current_end` and the
predecessor map (`current_end` is the last popped entry when the heap runs
dry, the entry whose other end reaches `end_node` on a break). -/
def searchLoop (g : RGraph) (endNode : ℕ) :
    ℕ → List (ℝ × ℕ × GEnd) → List (GEnd × Option GEnd) → ℕ → Option GEnd →
    Option (Option GEnd × List (GEnd × Option GEnd))
  | 0, _, _, _, _ => none
  | fuel + 1, heap, preds, cnt, cur =>
    match popMin heap with
    | none => some (cur, preds)
    | some ((s, _, e), heap2) =>
      match endNodeOf g (otherEnd e) with
      | none => none
      | some n =>
        if n = endNode then some (some e, preds)
        else
          match connectedEnds g n (otherEnd e) with
          | none => none
          | some ce =>
            match pushEnds g s e ce heap2 preds cnt with
            | none => none
            | some (heap3, preds3, cnt3) => searchLoop g endNode fuel heap3 preds3 cnt3 (some e)

/-- The reconstruction loop `while current_end: pth.insert(0, current_end);
current_end = predecessors[current_end]`. -/
def reconstructPath : ℕ → List (GEnd × Option GEnd) → Option GEnd → List GEnd →
    Option (List GEnd)
  | _, _, none, acc => some acc
  | 0, _, some _, _ => none
  | fuel + 1, preds, some e, acc =>
    match preds.lookup e with
    | none => none
    | some pre => reconstructPath fuel preds pre (e :: acc)

/-- `if isinstance(start, Node): start_ends = start.ends() else: [start]`. -/
def startEndsOf (g : RGraph) (start : ℕ ⊕ GEnd) : Option (List GEnd) :=
  match start with
  | .inl nid => nodeEnds g nid
  | .inr en => some [en]

/-- `railgraphs.find_shortest_path(start, end_node)`. -/
def findShortestPath (g : RGraph) (start : ℕ ⊕ GEnd) (endNode : ℕ) (fuel : ℕ) :
    Option RPath := do
  let startEnds ← startEndsOf g start
  let (heap, preds, cnt) ← initPush g startEnds [] [] 0
  let (cur, preds2) ← searchLoop g endNode fuel heap preds cnt none
  let ends ← reconstructPath (preds2.length + 1) preds2 cur []
  pure ⟨ends, 0, 0⟩

/-! ### Lemmas about `find_shortest_path` -/

theorem popMin_isSome {l : List (ℝ × ℕ × GEnd)} (h : l ≠ []) : (popMin l).isSome := by
  cases l with
  | nil => exact absurd rfl h
  | cons x xs =>
    unfold popMin
    cases popMin xs with
    | none => simp
    | some m =>
      simp only []
      split <;> simp

theorem initPush_heap (g : RGraph) (l : List GEnd) :
    ∀ heap preds cnt heap2 preds2 cnt2,
      initPush g l heap preds cnt = some (heap2, preds2, cnt2) →
      ∃ ext, heap2 = heap ++ ext ∧ ext.length = l.length := by
  induction l with
  | nil =>
    intro heap preds cnt heap2 preds2 cnt2 h
    unfold initPush at h
    simp only [Option.some.injEq, Prod.mk.injEq] at h
    exact ⟨[], by simp [← h.1], by simp⟩
  | cons en rest ih =>
    intro heap preds cnt heap2 preds2 cnt2 h
    unfold initPush at h
    cases he : g.edge? en.edge with
    | none => rw [he] at h; exact absurd h (by simp)
    | some e =>
      rw [he] at h
      simp only [Option.bind_eq_bind, Option.some_bind] at h
      cases hL : edgeLength g e with
      | none => rw [hL] at h; exact absurd h (by simp)
      | some L =>
        rw [hL] at h
        simp only [Option.bind_eq_bind, Option.some_bind] at h
        obtain ⟨extl, hext, hlen⟩ := ih _ _ _ _ _ _ h
        exact ⟨(L, cnt, en) :: extl, by simpa using hext, by simpa using hlen⟩

theorem searchLoop_cur (g : RGraph) (endNode : ℕ) :
    ∀ fuel heap preds cnt cur cur2 preds2,
      searchLoop g endNode fuel heap preds cnt cur = some (cur2, preds2) →
      (heap ≠ [] ∨ cur ≠ none) → cur2 ≠ none := by
  intro fuel
  induction fuel with
  | zero => intro heap preds cnt cur cur2 preds2 h; exact absurd h (by simp [searchLoop])
  | succ fuel ih =>
    intro heap preds cnt cur cur2 preds2 h hnz
    unfold searchLoop at h
    split at h
    · rename_i hpm
      have hcur : cur ≠ none := by
        rcases hnz with hne | hc
        · have := popMin_isSome hne
          rw [hpm] at this
          simp at this
        · exact hc
      simp only [Option.some.injEq, Prod.mk.injEq] at h
      rw [← h.1]
      exact hcur
    · rename_i s c e heap2 hpm
      split at h
      · exact absurd h (by simp)
      · rename_i n hen
        split at h
        · simp only [Option.some.injEq, Prod.mk.injEq] at h
          rw [← h.1]
          simp
        · split at h
          · exact absurd h (by simp)
          · rename_i ce hce
            split at h
            · exact absurd h (by simp)
            · rename_i heap3 preds3 cnt3 hpe
              exact ih _ _ _ _ _ _ h (Or.inr (by simp))

theorem reconstructPath_ne_nil :
    ∀ fuel preds cur acc l, reconstructPath fuel preds cur acc = some l →
      (cur ≠ none ∨ acc ≠ []) → l ≠ [] := by
  intro fuel
  induction fuel with
  | zero =>
    intro preds cur acc l h hnz
    cases cur with
    | none =>
      obtain rfl : acc = l := Option.some.inj h
      rcases hnz with hc | ha
      · exact absurd rfl hc
      · exact ha
    | some e => exact absurd h (by simp [reconstructPath])
  | succ fuel ih =>
    intro preds cur acc l h hnz
    cases cur with
    | none =>
      obtain rfl : acc = l := Option.some.inj h
      rcases hnz with hc | ha
      · exact absurd rfl hc
      · exact ha
    | some e =>
      unfold reconstructPath at h
      cases hl : preds.lookup e with
      | none => rw [hl] at h; exact absurd h (by simp)
      | some pre =>
        rw [hl] at h
        exact ih _ _ _ _ h (Or.inr (by simp))

/-- C1 (amended): `find_shortest_path` returns an empty `Path` exactly when
the start supplies no initial `End`s (a degree-0 start `Node`).  When the
target is unreachable but the start has at least one incident `End`, the
search drains the queue and the returned `Path` is the non-empty predecessor
chain of the last `End` popped — not an empty `Path`. -/
theorem find_shortest_path_empty_iff (g : RGraph) (start : ℕ ⊕ GEnd) (endNode : ℕ)
    (fuel : ℕ) (p : RPath) (startEnds : List GEnd)
    (hse : startEndsOf g start = some startEnds)
    (h : findShortestPath g start endNode fuel = some p) :
    (p.ends = [] ↔ startEnds = []) := by
  unfold findShortestPath at h
  have h2 := h
  clear h
  rw [hse] at h2
  simp only [Option.bind_eq_bind, Option.some_bind] at h2
  cases hip : initPush g startEnds [] [] 0 with
  | none => rw [hip] at h2; exact absurd h2 (by simp)
  | some trip =>
    obtain ⟨heap, preds, cnt⟩ := trip
    rw [hip] at h2
    simp only [Option.bind_eq_bind, Option.some_bind] at h2
    cases hsl : searchLoop g endNode fuel heap preds cnt none with
    | none => rw [hsl] at h2; exact absurd h2 (by simp)
    | some pr =>
      obtain ⟨cur, preds2⟩ := pr
      rw [hsl] at h2
      simp only [Option.bind_eq_bind, Option.some_bind] at h2
      cases hrp : reconstructPath (preds2.length + 1) preds2 cur [] with
      | none => rw [hrp] at h2; exact absurd h2 (by simp)
      | some ends =>
        rw [hrp] at h2
        simp only [Option.bind_eq_bind, Option.some_bind, Option.pure_def,
          Option.some.injEq] at h2
        by_cases hse2 : startEnds = []
        · subst hse2
          unfold initPush at hip
          simp only [Option.some.injEq, Prod.mk.injEq] at hip
          obtain ⟨rfl, rfl, rfl⟩ := hip
          cases fuel with
          | zero => exact absurd hsl (by simp [searchLoop])
          | succ fuel =>
            have hsl2 : searchLoop g endNode (fuel + 1) [] [] 0 none
                = some (none, []) := by
              unfold searchLoop
              rfl
            rw [hsl2] at hsl
            simp only [Option.some.injEq, Prod.mk.injEq] at hsl
            obtain ⟨rfl, rfl⟩ := hsl
            have hrp2 : reconstructPath (List.length ([] : List (GEnd × Option GEnd)) + 1)
                [] (none : Option GEnd) [] = some [] := rfl
            rw [hrp2] at hrp
            obtain rfl : ([] : List GEnd) = ends := Option.some.inj hrp
            rw [← h2]
        · have hne : p.ends ≠ [] := by
            obtain ⟨extl, hext, hlen⟩ := initPush_heap g startEnds _ _ _ _ _ _ hip
            rw [hext] at hsl
            have hheap : ([] : List (ℝ × ℕ × GEnd)) ++ extl ≠ [] := by
              simp only [List.nil_append]
              intro hc
              exact hse2 (List.length_eq_zero.mp (by rw [← hlen, hc]; rfl))
            have hcur := searchLoop_cur g endNode fuel _ _ _ _ _ _ hsl (Or.inl hheap)
            have hends := reconstructPath_ne_nil _ _ _ _ _ hrp (Or.inl hcur)
            rw [← h2]
            simpa using hends
          exact iff_of_false hne hse2

/-- A concrete graph for the unreachable case: nodes 0 → 1 joined by edge 3
(one straight unit segment), and an isolated node 2 that no edge touches. -/
def cxUnreachable : RGraph :=
  ⟨[(0, ⟨⟨⟨0, 0⟩, 0⟩, 0, [], [3]⟩),
    (1, ⟨⟨⟨1, 0⟩, 0⟩, 0, [3], []⟩),
    (2, ⟨⟨⟨5, 5⟩, 0⟩, 0, [], []⟩)],
   [(3, ⟨some 0, some 1, [⟨⟨⟨0, 0⟩, 0⟩, 1, 0⟩], []⟩)],
   [], 4⟩

/-- C1 counterexample: node 2 is touched by no edge (hence unreachable from
node 0), yet `find_shortest_path(node 0, node 2)` returns a *non-empty* Path
`[source end of edge 3]` — the predecessor chain of the last popped `End` —
not an empty Path. -/
theorem find_shortest_path_unreachable_counterexample :
    (∀ pr ∈ cxUnreachable.edges, pr.2.src ≠ some 2 ∧ pr.2.tgt ≠ some 2) ∧
    findShortestPath cxUnreachable (Sum.inl 0) 2 5
      = some ⟨[⟨3, Side.SOURCE⟩], 0, 0⟩ ∧
    ([⟨3, Side.SOURCE⟩] : List GEnd) ≠ [] := by
  refine ⟨?_, ?_, by simp⟩
  · intro pr hpr
    simp only [cxUnreachable, List.mem_singleton] at hpr
    subst hpr
    refine ⟨by simp, by simp⟩
  · rfl

theorem find_shortest_path_empty_iff_witness :
    (startEndsOf cxUnreachable (Sum.inl 0) = some [⟨3, Side.SOURCE⟩] ∧
     findShortestPath cxUnreachable (Sum.inl 0) 2 5 = some ⟨[⟨3, Side.SOURCE⟩], 0, 0⟩) ∧
    ((⟨[⟨3, Side.SOURCE⟩], 0, 0⟩ : RPath).ends = [] ↔ ([⟨3, Side.SOURCE⟩] : List GEnd) = []) :=
  ⟨⟨rfl, rfl⟩, find_shortest_path_empty_iff cxUnreachable (Sum.inl 0) 2 5 _ _ rfl rfl⟩

/-- The two-parallel-routes scenario: nodes 0 (start) and 1 (end), edge 10 of
length 100 and edge 11 of length 200, both from node 0 to node 1, each a
single segment; poses and `s` values are arbitrary. -/
def twoRouteGraph (pA pB q1 q2 : Pose) (sA sB : ℝ) : RGraph :=
  ⟨[(0, ⟨pA, sA, [], [10, 11]⟩),
    (1, ⟨pB, sB, [10, 11], []⟩)],
   [(10, ⟨some 0, some 1, [⟨q1, 100, 0⟩], []⟩),
    (11, ⟨some 0, some 1, [⟨q2, 200, 0⟩], []⟩)],
   [], 12⟩

theorem twoRoute_nodeEnds (pA pB q1 q2 : Pose) (sA sB : ℝ) :
    nodeEnds (twoRouteGraph pA pB q1 q2 sA sB) 0 = some [⟨10, .SOURCE⟩, ⟨11, .SOURCE⟩]
    ∨ nodeEnds (twoRouteGraph pA pB q1 q2 sA sB) 0 = some [⟨11, .SOURCE⟩, ⟨10, .SOURCE⟩] := by
  have hred : nodeEnds (twoRouteGraph pA pB q1 q2 sA sB) 0
      = some (List.map Prod.fst
          (insKey (⟨⟨11, .SOURCE⟩, |angleBetween pA.dir q2.dir|⟩ : GEnd × ℝ)
            [(⟨10, .SOURCE⟩, |angleBetween pA.dir q1.dir|)])) := rfl
  by_cases hk : |angleBetween pA.dir q1.dir| ≤ |angleBetween pA.dir q2.dir|
  · left
    rw [hred]
    unfold insKey
    rw [if_pos hk]
    rfl
  · right
    rw [hred]
    unfold insKey
    rw [if_neg hk]
    rfl

/-- C4: on a graph with two parallel routes of lengths 100 and 200 between
the same start and end node, `find_shortest_path(start, end)` returns the
Path consisting of exactly the `End`s of the length-100 route (the source end
of edge 10), for any node poses, segment start poses and `s` values. -/
theorem find_shortest_path_two_routes (pA pB q1 q2 : Pose) (sA sB : ℝ) :
    findShortestPath (twoRouteGraph pA pB q1 q2 sA sB) (Sum.inl 0) 1 5
      = some ⟨[⟨10, Side.SOURCE⟩], 0, 0⟩ := by
  have hends := twoRoute_nodeEnds pA pB q1 q2 sA sB
  unfold findShortestPath
  rcases hends with h | h
  · rw [show startEndsOf (twoRouteGraph pA pB q1 q2 sA sB) (Sum.inl 0)
        = nodeEnds (twoRouteGraph pA pB q1 q2 sA sB) 0 from rfl, h]
    simp only [Option.bind_eq_bind, Option.some_bind]
    have hip : initPush (twoRouteGraph pA pB q1 q2 sA sB)
        [⟨10, .SOURCE⟩, ⟨11, .SOURCE⟩] [] [] 0
        = some ([((100 : ℝ) + 0, 0, ⟨10, .SOURCE⟩), ((200 : ℝ) + 0, 1, ⟨11, .SOURCE⟩)],
            [(⟨10, .SOURCE⟩, none), (⟨11, .SOURCE⟩, none)], 2) := rfl
    rw [hip]
    simp only [Option.some_bind]
    have hpop : popMin [((100 : ℝ) + 0, 0, (⟨10, .SOURCE⟩ : GEnd)),
        ((200 : ℝ) + 0, 1, ⟨11, .SOURCE⟩)]
        = some (((100 : ℝ) + 0, 0, ⟨10, .SOURCE⟩), [((200 : ℝ) + 0, 1, ⟨11, .SOURCE⟩)]) := by
      have hcmp : heapLe ((100 : ℝ) + 0, 0, (⟨10, .SOURCE⟩ : GEnd))
          ((200 : ℝ) + 0, 1, ⟨11, .SOURCE⟩) := Or.inl (by norm_num)
      simp only [popMin, hcmp, if_true]
    have hloop : searchLoop (twoRouteGraph pA pB q1 q2 sA sB) 1 5
        [((100 : ℝ) + 0, 0, ⟨10, .SOURCE⟩), ((200 : ℝ) + 0, 1, ⟨11, .SOURCE⟩)]
        [(⟨10, .SOURCE⟩, none), (⟨11, .SOURCE⟩, none)] 2 none
        = some (some ⟨10, .SOURCE⟩, [(⟨10, .SOURCE⟩, none), (⟨11, .SOURCE⟩, none)]) := by
      rw [show (5 : ℕ) = 4 + 1 from rfl]
      unfold searchLoop
      rw [hpop]
      rfl
    rw [hloop]
    rfl
  · rw [show startEndsOf (twoRouteGraph pA pB q1 q2 sA sB) (Sum.inl 0)
        = nodeEnds (twoRouteGraph pA pB q1 q2 sA sB) 0 from rfl, h]
    simp only [Option.bind_eq_bind, Option.some_bind]
    have hip : initPush (twoRouteGraph pA pB q1 q2 sA sB)
        [⟨11, .SOURCE⟩, ⟨10, .SOURCE⟩] [] [] 0
        = some ([((200 : ℝ) + 0, 0, ⟨11, .SOURCE⟩), ((100 : ℝ) + 0, 1, ⟨10, .SOURCE⟩)],
            [(⟨11, .SOURCE⟩, none), (⟨10, .SOURCE⟩, none)], 2) := rfl
    rw [hip]
    simp only [Option.some_bind]
    have hpop : popMin [((200 : ℝ) + 0, 0, (⟨11, .SOURCE⟩ : GEnd)),
        ((100 : ℝ) + 0, 1, ⟨10, .SOURCE⟩)]
        = some (((100 : ℝ) + 0, 1, ⟨10, .SOURCE⟩), [((200 : ℝ) + 0, 0, ⟨11, .SOURCE⟩)]) := by
      have hcmp : ¬ heapLe ((200 : ℝ) + 0, 0, (⟨11, .SOURCE⟩ : GEnd))
          ((100 : ℝ) + 0, 1, ⟨10, .SOURCE⟩) := by
        intro hle
        rcases hle with hlt | ⟨heq2, _⟩
        · norm_num at hlt
        · norm_num at heq2
      simp only [popMin, hcmp, if_false]
    have hloop : searchLoop (twoRouteGraph pA pB q1 q2 sA sB) 1 5
        [((200 : ℝ) + 0, 0, ⟨11, .SOURCE⟩), ((100 : ℝ) + 0, 1, ⟨10, .SOURCE⟩)]
        [(⟨11, .SOURCE⟩, none), (⟨10, .SOURCE⟩, none)] 2 none
        = some (some ⟨10, .SOURCE⟩, [(⟨11, .SOURCE⟩, none), (⟨10, .SOURCE⟩, none)]) := by
      rw [show (5 : ℕ) = 4 + 1 from rfl]
      unfold searchLoop
      rw [hpop]
      rfl
    rw [hloop]
    rfl

/-! ### Lemmas about `Node.calculate_direction` -/

theorem angNorm_eq_self {a : ℝ} (h0 : 0 ≤ a) (h1 : a < 2 * π) : angNorm a = a := by
  unfold angNorm
  have hpos : (0 : ℝ) < 2 * π := by positivity
  have hf : ⌊a / (2 * π)⌋ = 0 := by
    rw [Int.floor_eq_zero_iff]
    exact ⟨div_nonneg h0 hpos.le, (div_lt_one hpos).mpr h1⟩
  rw [hf]
  simp

theorem angNorm_sub_two_pi {a : ℝ} (h0 : 2 * π ≤ a) (h1 : a < 4 * π) :
    angNorm a = a - 2 * π := by
  unfold angNorm
  have hpos : (0 : ℝ) < 2 * π := by positivity
  have hf : ⌊a / (2 * π)⌋ = 1 := by
    rw [Int.floor_eq_iff]
    constructor
    · push_cast
      rw [le_div_iff₀ hpos]
      linarith
    · push_cast
      rw [div_lt_iff₀ hpos]
      linarith
  rw [hf]
  push_cast
  ring

theorem angNorm_add_two_pi {a : ℝ} (h0 : -(2 * π) ≤ a) (h1 : a < 0) :
    angNorm a = a + 2 * π := by
  unfold angNorm
  have hpos : (0 : ℝ) < 2 * π := by positivity
  have hf : ⌊a / (2 * π)⌋ = -1 := by
    rw [Int.floor_eq_iff]
    constructor
    · push_cast
      rw [le_div_iff₀ hpos]
      linarith
    · push_cast
      rw [div_lt_iff₀ hpos]
      linarith
  rw [hf]
  push_cast
  ring

/-- The tip property checked by `calculate_direction` for a candidate
direction `d` against the other incident directions. -/
def goodTipDirs (thr : ℝ) (d : ℝ) (others : List ℝ) : Prop :=
  ∀ d2 ∈ others, |angleBetween d d2| > thr

theorem findTipAux_some (rest : List ℝ) :
    ∀ prev d, findTipAux prev rest = some d →
      ∃ r1 r2, rest = r1 ++ d :: r2 ∧ goodTipDirs (0.66 * π) d (prev ++ r1 ++ r2) := by
  induction rest with
  | nil => intro prev d h; exact absurd h (by simp [findTipAux])
  | cons d0 rest ih =>
    intro prev d h
    unfold findTipAux at h
    by_cases hg : ∀ d2 ∈ prev ++ rest, |angleBetween d0 d2| > 0.66 * π
    · rw [if_pos hg] at h
      obtain rfl : d0 = d := Option.some.inj h
      exact ⟨[], rest, rfl, by simpa [goodTipDirs] using hg⟩
    · rw [if_neg hg] at h
      obtain ⟨r1, r2, hsplit, hgood⟩ := ih _ _ h
      refine ⟨d0 :: r1, r2, by simp [hsplit], ?_⟩
      simpa [goodTipDirs, List.append_assoc] using hgood

theorem findTipAux_none (rest : List ℝ) :
    ∀ prev, findTipAux prev rest = none →
      ∀ r1 d r2, rest = r1 ++ d :: r2 → ¬ goodTipDirs (0.66 * π) d (prev ++ r1 ++ r2) := by
  induction rest with
  | nil =>
    intro prev h r1 d r2 hsplit
    exact absurd hsplit (by simp)
  | cons d0 rest ih =>
    intro prev h r1 d r2 hsplit
    unfold findTipAux at h
    by_cases hg : ∀ d2 ∈ prev ++ rest, |angleBetween d0 d2| > 0.66 * π
    · rw [if_pos hg] at h
      exact absurd h (by simp)
    · rw [if_neg hg] at h
      cases r1 with
      | nil =>
        simp only [List.nil_append] at hsplit
        obtain ⟨rfl, rfl⟩ : d0 = d ∧ rest = r2 := by
          have := List.cons.inj hsplit
          exact ⟨this.1, this.2⟩
        intro hgood
        exact hg (by simpa [goodTipDirs] using hgood)
      | cons a1 r1 =>
        simp only [List.cons_append] at hsplit
        obtain ⟨rfl, hrest⟩ : a1 = d0 ∧ rest = r1 ++ d :: r2 := by
          have := List.cons.inj hsplit
          exact ⟨this.1.symm, this.2⟩
        have := ih _ h r1 d r2 hrest
        intro hgood
        exact this (by simpa [goodTipDirs, List.append_assoc] using hgood)

/-- C3 (amended): for a node of degree ≥ 3, `calculate_direction` returns
`True` and assigns the node an incident direction whose absolute angular
separation from every other incident direction exceeds `0.66·π` — the code's
threshold, which is strictly smaller than the 120° = `2π/3` stated in the
specification — and returns `False` (leaving the graph unchanged) exactly
when no incident direction has that property. -/
theorem calculate_direction_switch (g : RGraph) (nid : ℕ) (nd : NodeD) (dirs : List ℝ)
    (hnd : g.node? nid = some nd) (hdirs : nodeDirections g nid = some dirs)
    (hdeg : 3 ≤ dirs.length) :
    (∃ r1 d r2, dirs = r1 ++ d :: r2 ∧ goodTipDirs (0.66 * π) d (r1 ++ r2) ∧
        calculateDirection g nid
          = some (true, g.setNode nid { nd with pose := mkPose nd.pose.pos d }))
    ∨ ((∀ r1 d r2, dirs = r1 ++ d :: r2 → ¬ goodTipDirs (0.66 * π) d (r1 ++ r2)) ∧
        calculateDirection g nid = some (false, g)) := by
  obtain ⟨a, b, c, tl, rfl⟩ : ∃ a b c tl, dirs = a :: b :: c :: tl := by
    match dirs, hdeg with
    | a :: b :: c :: tl, _ => exact ⟨a, b, c, tl, rfl⟩
  have hcd : calculateDirection g nid
      = (match findTipAux [] (a :: b :: c :: tl) with
         | some d => some (true, g.setNode nid { nd with pose := mkPose nd.pose.pos d })
         | none => some (false, g)) := by
    unfold calculateDirection
    rw [hnd]
    simp only [Option.bind_eq_bind, Option.some_bind]
    rw [hdirs]
    simp only [Option.some_bind, Option.pure_def]
  cases hft : findTipAux [] (a :: b :: c :: tl) with
  | some d =>
    left
    obtain ⟨r1, r2, hsplit, hgood⟩ := findTipAux_some _ _ _ hft
    exact ⟨r1, d, r2, hsplit, by simpa using hgood, by rw [hcd, hft]⟩
  | none =>
    right
    refine ⟨fun r1 d r2 hsplit => ?_, by rw [hcd, hft]⟩
    have := findTipAux_none _ _ hft r1 d r2 hsplit
    simpa using this

/-- A degree-3 switch whose incident directions are `0`, `0.665π` and
`1.335π`: separations are exactly `0.665π`, between the code's `0.66π`
threshold and the specified `2π/3 ≈ 0.667π`. -/
def cx3 : RGraph :=
  ⟨[(0, ⟨⟨⟨0, 0⟩, 0⟩, 0, [], [1, 2, 3]⟩),
    (4, ⟨⟨⟨1, 0⟩, 0⟩, 0, [1], []⟩),
    (5, ⟨⟨⟨-1, 1⟩, 0⟩, 0, [2], []⟩),
    (6, ⟨⟨⟨-1, -1⟩, 0⟩, 0, [3], []⟩)],
   [(1, ⟨some 0, some 4, [⟨⟨⟨0, 0⟩, 0⟩, 1, 0⟩], []⟩),
    (2, ⟨some 0, some 5, [⟨⟨⟨0, 0⟩, 0.665 * π⟩, 1, 0⟩], []⟩),
    (3, ⟨some 0, some 6, [⟨⟨⟨0, 0⟩, 1.335 * π⟩, 1, 0⟩], []⟩)],
   [], 7⟩

theorem cx3_sep1 : |angleBetween 0 (0.665 * π)| = 0.665 * π := by
  unfold angleBetween
  have hpi := Real.pi_pos
  rw [show (0.665 * π - 0 + π : ℝ) = 1.665 * π by ring]
  rw [angNorm_eq_self (by nlinarith) (by nlinarith)]
  rw [show (1.665 * π - π : ℝ) = 0.665 * π by ring]
  exact abs_of_nonneg (by nlinarith)

theorem cx3_sep2 : |angleBetween 0 (1.335 * π)| = 0.665 * π := by
  unfold angleBetween
  have hpi := Real.pi_pos
  rw [show (1.335 * π - 0 + π : ℝ) = 2.335 * π by ring]
  rw [angNorm_sub_two_pi (by nlinarith) (by nlinarith)]
  rw [show (2.335 * π - 2 * π - π : ℝ) = -(0.665 * π) by ring]
  exact abs_neg (0.665 * π) ▸ abs_of_nonneg (by nlinarith)

theorem cx3_sep3 : |angleBetween (0.665 * π) 0| = 0.665 * π := by
  unfold angleBetween
  have hpi := Real.pi_pos
  rw [show (0 - 0.665 * π + π : ℝ) = 0.335 * π by ring]
  rw [angNorm_eq_self (by nlinarith) (by nlinarith)]
  rw [show (0.335 * π - π : ℝ) = -(0.665 * π) by ring]
  exact abs_neg (0.665 * π) ▸ abs_of_nonneg (by nlinarith)

theorem cx3_sep4 : |angleBetween (1.335 * π) 0| = 0.665 * π := by
  unfold angleBetween
  have hpi := Real.pi_pos
  rw [show (0 - 1.335 * π + π : ℝ) = -(0.335 * π) by ring]
  rw [angNorm_add_two_pi (by nlinarith) (by nlinarith)]
  rw [show (-(0.335 * π) + 2 * π - π : ℝ) = 0.665 * π by ring]
  exact abs_of_nonneg (by nlinarith)

theorem cx3_findTip : findTipAux [] [0, 0.665 * π, 1.335 * π] = some 0 := by
  unfold findTipAux
  rw [if_pos]
  intro d2 hd2
  have hpi := Real.pi_pos
  simp only [List.nil_append, List.mem_cons, List.not_mem_nil, or_false] at hd2
  rcases hd2 with rfl | rfl
  · rw [cx3_sep1]
    nlinarith
  · rw [cx3_sep2]
    nlinarith

/-- C3 counterexample: on a degree-3 node with incident directions
`0, 0.665π, 1.335π`, no incident direction is separated from all others by
more than `2π/3` (every separation is `0.665π < 2π/3`), so by the claim
`calculate_direction` would have to return `False`; the code returns `True`
(its threshold is `0.66π`, not `2π/3`). -/
theorem calculate_direction_threshold_counterexample :
    nodeDirections cx3 0 = some [0, 0.665 * π, 1.335 * π] ∧
    (∀ r1 d r2, ([0, 0.665 * π, 1.335 * π] : List ℝ) = r1 ++ d :: r2 →
      ¬ goodTipDirs (2 / 3 * π) d (r1 ++ r2)) ∧
    calculateDirection cx3 0
      = some (true, cx3.setNode 0
          { pose := mkPose ⟨0, 0⟩ 0, s := 0, incoming := [], outgoing := [1, 2, 3] }) := by
  have hpi := Real.pi_pos
  refine ⟨rfl, ?_, ?_⟩
  · intro r1 d r2 hsplit hgood
    match r1, hsplit with
    | [], hsplit =>
      obtain ⟨rfl, h2⟩ := List.cons.inj hsplit
      have hm : (0.665 * π) ∈ ([] ++ r2 : List ℝ) := by
        rw [← h2]
        simp
      have := hgood _ hm
      rw [cx3_sep1] at this
      nlinarith
    | [x], hsplit =>
      obtain ⟨rfl, h2⟩ := List.cons.inj hsplit
      obtain ⟨rfl, h3⟩ := List.cons.inj h2
      have hm : (0 : ℝ) ∈ ([(0 : ℝ)] ++ r2 : List ℝ) := by simp
      have := hgood _ hm
      rw [cx3_sep3] at this
      nlinarith
    | [x, y], hsplit =>
      obtain ⟨rfl, h2⟩ := List.cons.inj hsplit
      obtain ⟨rfl, h3⟩ := List.cons.inj h2
      obtain ⟨rfl, h4⟩ := List.cons.inj h3
      have hm : (0 : ℝ) ∈ ([(0 : ℝ), 0.665 * π] ++ r2 : List ℝ) := by simp
      have := hgood _ hm
      rw [cx3_sep4] at this
      nlinarith
    | x :: y :: z :: r1, hsplit =>
      obtain ⟨rfl, h2⟩ := List.cons.inj hsplit
      obtain ⟨rfl, h3⟩ := List.cons.inj h2
      obtain ⟨rfl, h4⟩ := List.cons.inj h3
      exact absurd h4 (by simp)
  · have hred : calculateDirection cx3 0
        = (match findTipAux [] [0, 0.665 * π, 1.335 * π] with
           | some d => some (true, cx3.setNode 0
               { pose := mkPose ⟨0, 0⟩ d, s := 0, incoming := [], outgoing := [1, 2, 3] })
           | none => some (false, cx3)) := rfl
    rw [hred, cx3_findTip]

theorem calculate_direction_switch_witness :
    (cx3.node? 0 = some ⟨⟨⟨0, 0⟩, 0⟩, 0, [], [1, 2, 3]⟩ ∧
     nodeDirections cx3 0 = some [0, 0.665 * π, 1.335 * π] ∧
     3 ≤ ([0, 0.665 * π, 1.335 * π] : List ℝ).length) ∧
    ((∃ r1 d r2, ([0, 0.665 * π, 1.335 * π] : List ℝ) = r1 ++ d :: r2 ∧
        goodTipDirs (0.66 * π) d (r1 ++ r2) ∧
        calculateDirection cx3 0 = some (true, cx3.setNode 0
          { pose := mkPose ⟨0, 0⟩ d, s := 0, incoming := [], outgoing := [1, 2, 3] }))
      ∨ ((∀ r1 d r2, ([0, 0.665 * π, 1.335 * π] : List ℝ) = r1 ++ d :: r2 →
            ¬ goodTipDirs (0.66 * π) d (r1 ++ r2)) ∧
          calculateDirection cx3 0 = some (false, cx3))) :=
  ⟨⟨rfl, rfl, by norm_num⟩,
    calculate_direction_switch cx3 0 ⟨⟨⟨0, 0⟩, 0⟩, 0, [], [1, 2, 3]⟩
      [0, 0.665 * π, 1.335 * π] rfl rfl (by norm_num)⟩

/-! ## Bi-arc interpolation (`geometry.biarc_interpolation`)

The function returns `(r1, theta1, r2, theta2)` in the general branch and
`(c1, theta1, c2, theta2)` (centres instead of radii) in the degenerate
parallel branch with `v·t = 0`.  `none` models a Python exception:
`ZeroDivisionError` on a zero denominator or a zero radius inside
`calculate_arc`, or a `math.sqrt` domain error.  The locals `s`, `c`, `op`,
`om` and `theta` of `calculate_arc(p, t_)` are the named definitions
`arcS`, `arcC`, `arcOp`, `arcOm` and `arcTheta` (`d` and `pm` are the
enclosing locals the closure captures). -/

theorem Vec.add_def (a b : Vec) : a + b = ⟨a.x + b.x, a.y + b.y⟩ := rfl

theorem Vec.sub_def (a b : Vec) : a - b = ⟨a.x - b.x, a.y - b.y⟩ := rfl

theorem Vec.neg_def (a : Vec) : -a = ⟨-a.x, -a.y⟩ := rfl

theorem Vec.smul_def (r : ℝ) (a : Vec) : r • a = ⟨r * a.x, r * a.y⟩ := rfl

theorem Vec.ext2 (a b : Vec) (hx : a.x = b.x) (hy : a.y = b.y) : a = b := by
  cases a; cases b; simp_all

def arcS (pm p t_ : Vec) : ℝ := ((pm - p).dot (pm - p)) / (2 * (t_.ortho.dot (pm - p)))
def arcC (pm p t_ : Vec) : Vec := p + arcS pm p t_ • t_.ortho
def arcOp (pm p t_ : Vec) : Vec := (1 / |arcS pm p t_|) • (p - arcC pm p t_)
def arcOm (pm p t_ : Vec) : Vec := (1 / |arcS pm p t_|) • (pm - arcC pm p t_)

open Classical in
def arcTheta (d : ℝ) (pm p t_ : Vec) : ℝ :=
  if (arcOp pm p t_).cross (arcOm pm p t_) ≤ 0
  then -(if d ≤ 0 then Real.arccos ((arcOp pm p t_).dot (arcOm pm p t_)) - 2 * π
         else Real.arccos ((arcOp pm p t_).dot (arcOm pm p t_)))
  else (if d ≤ 0 then Real.arccos ((arcOp pm p t_).dot (arcOm pm p t_)) - 2 * π
        else Real.arccos ((arcOp pm p t_).dot (arcOm pm p t_)))

open Classical in
def calculateArc (d : ℝ) (pm p t_ : Vec) : Option (ℝ × ℝ) :=
  if 2 * (t_.ortho.dot (pm - p)) = 0 then none else
  if |arcS pm p t_| = 0 then none else
  some (|arcS pm p t_|, arcTheta d pm p t_)

inductive BiarcResult where
  | semi (c1 : Vec) (th1 : ℝ) (c2 : Vec) (th2 : ℝ) : BiarcResult
  | arcs (r1 th1 r2 th2 : ℝ) : BiarcResult

def BiarcResult.theta1 : BiarcResult → ℝ
  | .semi _ th _ _ => th
  | .arcs _ th _ _ => th

def BiarcResult.theta2 : BiarcResult → ℝ
  | .semi _ _ _ th => th
  | .arcs _ _ _ th => th

def biarcArcs (p1 t1 p2 t2 : Vec) (d : ℝ) : Option BiarcResult :=
  let pm := (1 / 2 : ℝ) • (p1 + p2 + d • (t1 - t2))
  match calculateArc d pm p1 t1, calculateArc d pm p2 t2 with
  | some (r1, th1), some (r2, th2) => some (.arcs r1 th1 r2 th2)
  | _, _ => none

open Classical in
def biarcInterpolation (p1 t1 p2 t2 : Vec) : Option BiarcResult :=
  let v := p2 - p1
  let t := t1 + t2
  let vt := v.dot t
  let denominator := 2 * (1 - t1.dot t2)
  if denominator = 0 then
    if vt = 0 then
      let c1 := p1 + (1 / 4 : ℝ) • v
      let c2 := p1 + (3 / 4 : ℝ) • v
      if v.cross t2 < 0 then some (.semi c1 π c2 (-π)) else some (.semi c1 (-π) c2 π)
    else
      biarcArcs p1 t1 p2 t2 (1 / 2 * (v.dot v) / vt)
  else
    if vt ^ 2 + 2 * (1 - t1.dot t2) * (v.dot v) < 0 then none
    else biarcArcs p1 t1 p2 t2
      ((-vt + Real.sqrt (vt ^ 2 + 2 * (1 - t1.dot t2) * (v.dot v))) / denominator)


/-- Rotation of a vector by the angle `th`, counter-clockwise. -/
def rotate (th : ℝ) (w : Vec) : Vec :=
  ⟨Real.cos th * w.x - Real.sin th * w.y, Real.sin th * w.x + Real.cos th * w.y⟩

/-- Two direction values are equal modulo `2π`. -/
def angEq (a b : ℝ) : Prop := ∃ k : ℤ, a - b = 2 * π * k

theorem abs_smul_dot (s : ℝ) (a b : Vec) :
    ((1 / |s|) • a).dot ((1 / |s|) • b) = a.dot b / s ^ 2 := by
  conv_rhs => rw [← sq_abs s]
  simp only [Vec.dot, Vec.smul_def]
  ring

theorem abs_smul_cross (s : ℝ) (a b : Vec) :
    ((1 / |s|) • a).cross ((1 / |s|) • b) = a.cross b / s ^ 2 := by
  conv_rhs => rw [← sq_abs s]
  simp only [Vec.cross, Vec.smul_def]
  ring

theorem arcS_ne_zero (pm p t_ : Vec) (hB : t_.ortho.dot (pm - p) ≠ 0)
    (hA : (pm - p).dot (pm - p) ≠ 0) : arcS pm p t_ ≠ 0 :=
  div_ne_zero hA (mul_ne_zero two_ne_zero hB)

theorem arc_op_eq (pm p t_ : Vec) :
    p - arcC pm p t_ = (-(arcS pm p t_)) • t_.ortho := by
  apply Vec.ext2 <;>
    simp only [arcC, Vec.sub_def, Vec.add_def, Vec.smul_def, Vec.ortho] <;> ring

theorem arc_om_eq (pm p t_ : Vec) :
    pm - arcC pm p t_ = (pm - p) - arcS pm p t_ • t_.ortho := by
  apply Vec.ext2 <;>
    simp only [arcC, Vec.sub_def, Vec.add_def, Vec.smul_def, Vec.ortho] <;> ring

theorem ortho_dot_ortho (t_ : Vec) : t_.ortho.dot t_.ortho = t_.x ^ 2 + t_.y ^ 2 := by
  simp only [Vec.dot, Vec.ortho]; ring

theorem ortho_cross_self (t_ : Vec) : t_.ortho.cross t_.ortho = 0 := by
  simp only [Vec.cross, Vec.ortho]; ring

theorem ortho_cross_eq (t_ u : Vec) : t_.ortho.cross u = -(t_.dot u) := by
  simp only [Vec.cross, Vec.dot, Vec.ortho]; ring

theorem neg_smul_dot_sub (s : ℝ) (n u : Vec) :
    ((-s) • n).dot (u - s • n) = -(s * n.dot u) + s ^ 2 * n.dot n := by
  simp only [Vec.dot, Vec.smul_def, Vec.sub_def]; ring

theorem neg_smul_cross_sub (s : ℝ) (n u : Vec) :
    ((-s) • n).cross (u - s • n) = -(s * n.cross u) + s ^ 2 * n.cross n := by
  simp only [Vec.cross, Vec.smul_def, Vec.sub_def]; ring

theorem div_arcS (pm p t_ : Vec) (hB : t_.ortho.dot (pm - p) ≠ 0)
    (hA : (pm - p).dot (pm - p) ≠ 0) :
    1 / arcS pm p t_ = 2 * (t_.ortho.dot (pm - p)) / ((pm - p).dot (pm - p)) := by
  rw [arcS, one_div_div]

theorem arc_dot_val (pm p t_ : Vec) (hB : t_.ortho.dot (pm - p) ≠ 0)
    (hA : (pm - p).dot (pm - p) ≠ 0) :
    (arcOp pm p t_).dot (arcOm pm p t_)
      = (t_.x ^ 2 + t_.y ^ 2)
        - 2 * (t_.ortho.dot (pm - p)) ^ 2 / ((pm - p).dot (pm - p)) := by
  have hs := arcS_ne_zero pm p t_ hB hA
  rw [arcOp, arcOm, abs_smul_dot, arc_op_eq, arc_om_eq, neg_smul_dot_sub,
    ortho_dot_ortho]
  have hBs : t_.ortho.dot (pm - p) / arcS pm p t_
      = 2 * (t_.ortho.dot (pm - p)) ^ 2 / ((pm - p).dot (pm - p)) := by
    rw [div_eq_mul_one_div, div_arcS pm p t_ hB hA]
    ring
  rw [← hBs]
  field_simp
  ring

theorem arc_cross_val (pm p t_ : Vec) (hB : t_.ortho.dot (pm - p) ≠ 0)
    (hA : (pm - p).dot (pm - p) ≠ 0) :
    (arcOp pm p t_).cross (arcOm pm p t_)
      = 2 * (t_.ortho.dot (pm - p)) * (t_.dot (pm - p)) / ((pm - p).dot (pm - p)) := by
  have hs := arcS_ne_zero pm p t_ hB hA
  rw [arcOp, arcOm, abs_smul_cross, arc_op_eq, arc_om_eq, neg_smul_cross_sub,
    ortho_cross_self, ortho_cross_eq]
  have hTs : t_.dot (pm - p) / arcS pm p t_
      = 2 * (t_.ortho.dot (pm - p)) * (t_.dot (pm - p)) / ((pm - p).dot (pm - p)) := by
    rw [div_eq_mul_one_div, div_arcS pm p t_ hB hA]
    ring
  rw [← hTs]
  field_simp
  ring

theorem theta_cos_sin (dd x y : ℝ) (hxy : x ^ 2 + y ^ 2 = 1) :
    Real.cos (if y ≤ 0 then -(if dd ≤ 0 then Real.arccos x - 2 * π else Real.arccos x)
              else (if dd ≤ 0 then Real.arccos x - 2 * π else Real.arccos x)) = x ∧
    Real.sin (if y ≤ 0 then -(if dd ≤ 0 then Real.arccos x - 2 * π else Real.arccos x)
              else (if dd ≤ 0 then Real.arccos x - 2 * π else Real.arccos x)) = y := by
  have hx1 : -1 ≤ x := by nlinarith [sq_nonneg y]
  have hx2 : x ≤ 1 := by nlinarith [sq_nonneg y]
  have hsy : Real.sin (Real.arccos x) = |y| := by
    rw [Real.sin_arccos, show 1 - x ^ 2 = y ^ 2 by linarith, Real.sqrt_sq_eq_abs]
  constructor
  · rcases le_or_lt y 0 with hy | hy
    · rw [if_pos hy, Real.cos_neg]
      rcases le_or_lt dd 0 with hd | hd
      · rw [if_pos hd, Real.cos_sub_two_pi, Real.cos_arccos hx1 hx2]
      · rw [if_neg (not_le.mpr hd), Real.cos_arccos hx1 hx2]
    · rw [if_neg (not_le.mpr hy)]
      rcases le_or_lt dd 0 with hd | hd
      · rw [if_pos hd, Real.cos_sub_two_pi, Real.cos_arccos hx1 hx2]
      · rw [if_neg (not_le.mpr hd), Real.cos_arccos hx1 hx2]
  · rcases le_or_lt y 0 with hy | hy
    · rw [if_pos hy, Real.sin_neg]
      rcases le_or_lt dd 0 with hd | hd
      · rw [if_pos hd, Real.sin_sub_two_pi, hsy, abs_of_nonpos hy, neg_neg]
      · rw [if_neg (not_le.mpr hd), hsy, abs_of_nonpos hy, neg_neg]
    · rw [if_neg (not_le.mpr hy)]
      rcases le_or_lt dd 0 with hd | hd
      · rw [if_pos hd, Real.sin_sub_two_pi, hsy, abs_of_pos hy]
      · rw [if_neg (not_le.mpr hd), hsy, abs_of_pos hy]

theorem lagrange_dot_cross (t_ u : Vec) :
    (t_.ortho.dot u) ^ 2 + (t_.dot u) ^ 2 = (t_.x ^ 2 + t_.y ^ 2) * (u.dot u) := by
  simp only [Vec.dot, Vec.ortho]; ring

theorem calculateArc_spec (d : ℝ) (pm p t_ : Vec) (r th : ℝ)
    (ht : t_.x ^ 2 + t_.y ^ 2 = 1)
    (hres : calculateArc d pm p t_ = some (r, th)) :
    t_.ortho.dot (pm - p) ≠ 0 ∧ (pm - p).dot (pm - p) ≠ 0 ∧
    Real.cos th = 1 - 2 * (t_.ortho.dot (pm - p)) ^ 2 / ((pm - p).dot (pm - p)) ∧
    Real.sin th = 2 * (t_.ortho.dot (pm - p)) * (t_.dot (pm - p)) / ((pm - p).dot (pm - p)) := by
  unfold calculateArc at hres
  split at hres
  · exact absurd hres (by simp)
  · rename_i h2B
    split at hres
    · exact absurd hres (by simp)
    · rename_i hr0
      have hB : t_.ortho.dot (pm - p) ≠ 0 := fun h => h2B (by rw [h]; ring)
      have hA : (pm - p).dot (pm - p) ≠ 0 := by
        intro h
        apply hr0
        rw [arcS, h, zero_div, abs_zero]
      obtain ⟨hre, hthe⟩ := Prod.mk.injEq .. ▸ Option.some.injEq .. ▸ hres
      have hx0 := arc_dot_val pm p t_ hB hA
      have hy0 := arc_cross_val pm p t_ hB hA
      rw [ht] at hx0
      have hL : (t_.ortho.dot (pm - p)) ^ 2 + (t_.dot (pm - p)) ^ 2 = (pm - p).dot (pm - p) := by
        rw [lagrange_dot_cross, ht, one_mul]
      have hxy : ((arcOp pm p t_).dot (arcOm pm p t_)) ^ 2
          + ((arcOp pm p t_).cross (arcOm pm p t_)) ^ 2 = 1 := by
        rw [hx0, hy0]
        field_simp
        linear_combination (4 * (t_.ortho.dot (pm - p)) ^ 2) * hL
      obtain ⟨hcos, hsin⟩ := theta_cos_sin d ((arcOp pm p t_).dot (arcOm pm p t_))
        ((arcOp pm p t_).cross (arcOm pm p t_)) hxy
      refine ⟨hB, hA, ?_, ?_⟩
      · rw [← hthe, arcTheta, hcos, hx0]
      · rw [← hthe, arcTheta, hsin, hy0]

theorem rotate_arc_tangent (t_ u : Vec) (ht : t_.x ^ 2 + t_.y ^ 2 = 1)
    (hA : u.dot u ≠ 0) (th : ℝ)
    (hcos : Real.cos th = 1 - 2 * (t_.ortho.dot u) ^ 2 / (u.dot u))
    (hsin : Real.sin th = 2 * (t_.ortho.dot u) * (t_.dot u) / (u.dot u)) :
    rotate th t_ = t_ + (2 * (t_.ortho.dot u) / (u.dot u)) • u.ortho := by
  have hA1 : u.x * u.x + u.y * u.y ≠ 0 := by
    intro h
    exact hA (by simpa only [Vec.dot] using h)
  refine Vec.ext2 _ _ ?_ ?_
  · simp only [rotate, hcos, hsin, Vec.dot, Vec.ortho, Vec.add_def, Vec.smul_def]
    field_simp
    linear_combination (2 * u.x * u.y * t_.y - 2 * u.y ^ 2 * t_.x) * ht
  · simp only [rotate, hcos, hsin, Vec.dot, Vec.ortho, Vec.add_def, Vec.smul_def]
    field_simp
    linear_combination (2 * u.x * t_.x * u.y - 2 * t_.y * u.x ^ 2) * ht


set_option maxHeartbeats 1600000 in
theorem biarc_key_x (t1x t1y t2x t2y vx vy d : ℝ)
    (h1 : t1x ^ 2 + t1y ^ 2 = 1) (h2 : t2x ^ 2 + t2y ^ 2 = 1)
    (hQ : ((t1x - t2x) ^ 2 + (t1y - t2y) ^ 2) * d ^ 2
        + 2 * (vx * (t1x + t2x) + vy * (t1y + t2y)) * d - (vx ^ 2 + vy ^ 2) = 0) :
    (((vx + d * (t1x - t2x)) / 2) ^ 2 + ((vy + d * (t1y - t2y)) / 2) ^ 2)
      * ((((-vx) + d * (t1x - t2x)) / 2) ^ 2 + (((-vy) + d * (t1y - t2y)) / 2) ^ 2)
      * (t1x - t2x)
    - 2 * ((-t1y) * ((vx + d * (t1x - t2x)) / 2) + t1x * ((vy + d * (t1y - t2y)) / 2))
      * ((((-vx) + d * (t1x - t2x)) / 2) ^ 2 + (((-vy) + d * (t1y - t2y)) / 2) ^ 2)
      * ((vy + d * (t1y - t2y)) / 2)
    + 2 * ((-t2y) * (((-vx) + d * (t1x - t2x)) / 2) + t2x * (((-vy) + d * (t1y - t2y)) / 2))
      * (((vx + d * (t1x - t2x)) / 2) ^ 2 + ((vy + d * (t1y - t2y)) / 2) ^ 2)
      * (((-vy) + d * (t1y - t2y)) / 2) = 0 := by
  linear_combination
    (((1 : ℝ) / 8) * t1y * t2x * t2y * d ^ 2 +
      ((1 : ℝ) / 8) * t1x * t2x ^ 2 * d ^ 2 +
      ((-1 : ℝ) / 8) * t1x * t1y * t2y * d ^ 2 +
      ((-1 : ℝ) / 8) * t1x ^ 2 * t2x * d ^ 2 +
      ((1 : ℝ) / 8) * t2y * vx * vy +
      ((-1 : ℝ) / 8) * t2x * d ^ 2 +
      ((-1 : ℝ) / 16) * t2x * vy ^ 2 +
      ((1 : ℝ) / 16) * t2x * vx ^ 2 +
      ((-1 : ℝ) / 8) * t1y * vx * vy +
      ((1 : ℝ) / 8) * t1x * d ^ 2 +
      ((1 : ℝ) / 16) * t1x * vy ^ 2 +
      ((-1 : ℝ) / 16) * t1x * vx ^ 2) * hQ
    + (((-1 : ℝ) / 8) * t2x * t2y ^ 2 * d ^ 4 +
        ((-1 : ℝ) / 8) * t2x ^ 3 * d ^ 4 +
        ((1 : ℝ) / 8) * t1y * t2x * t2y * d ^ 4 +
        ((-1 : ℝ) / 16) * t1y ^ 2 * t2x * d ^ 4 +
        ((1 : ℝ) / 8) * t1x * t2y ^ 2 * d ^ 4 +
        ((1 : ℝ) / 4) * t1x * t2x ^ 2 * d ^ 4 +
        ((-1 : ℝ) / 8) * t1x * t1y * t2y * d ^ 4 +
        ((1 : ℝ) / 16) * t1x * t1y ^ 2 * d ^ 4 +
        ((-3 : ℝ) / 16) * t1x ^ 2 * t2x * d ^ 4 +
        ((1 : ℝ) / 16) * t1x ^ 3 * d ^ 4 +
        ((-3 : ℝ) / 8) * t2x * t2y * vy * d ^ 3 +
        ((-3 : ℝ) / 8) * t2x ^ 2 * vx * d ^ 3 +
        ((-1 : ℝ) / 4) * t1y * t2y * vx * d ^ 3 +
        ((1 : ℝ) / 8) * t1y * t2x * vy * d ^ 3 +
        ((1 : ℝ) / 8) * t1y ^ 2 * vx * d ^ 3 +
        ((3 : ℝ) / 8) * t1x * t2y * vy * d ^ 3 +
        ((1 : ℝ) / 4) * t1x * t2x * vx * d ^ 3 +
        ((-1 : ℝ) / 8) * t1x * t1y * vy * d ^ 3 +
        ((1 : ℝ) / 16) * t2x * d ^ 4 +
        ((1 : ℝ) / 16) * t2x * vy ^ 2 * d ^ 2 +
        ((1 : ℝ) / 16) * t2x * vx ^ 2 * d ^ 2 +
        ((-1 : ℝ) / 16) * t1x * d ^ 4 +
        ((-1 : ℝ) / 16) * t1x * vy ^ 2 * d ^ 2 +
        ((-1 : ℝ) / 16) * t1x * vx ^ 2 * d ^ 2 +
        ((1 : ℝ) / 8) * vx * d ^ 3 +
        ((1 : ℝ) / 8) * vx * vy ^ 2 * d +
        ((1 : ℝ) / 8) * vx ^ 3 * d) * h1
    + (((-1 : ℝ) / 16) * t2x * t2y ^ 2 * d ^ 4 +
        ((-1 : ℝ) / 16) * t2x ^ 3 * d ^ 4 +
        ((1 : ℝ) / 8) * t1y * t2x * t2y * d ^ 4 +
        ((1 : ℝ) / 16) * t1x * t2y ^ 2 * d ^ 4 +
        ((3 : ℝ) / 16) * t1x * t2x ^ 2 * d ^ 4 +
        ((-1 : ℝ) / 8) * t1x * t1y * t2y * d ^ 4 +
        ((-1 : ℝ) / 8) * t1x ^ 2 * t2x * d ^ 4 +
        ((-1 : ℝ) / 8) * t2y ^ 2 * vx * d ^ 3 +
        ((1 : ℝ) / 8) * t2x * t2y * vy * d ^ 3 +
        ((1 : ℝ) / 4) * t1y * t2y * vx * d ^ 3 +
        ((-3 : ℝ) / 8) * t1y * t2x * vy * d ^ 3 +
        ((-1 : ℝ) / 8) * t1x * t2y * vy * d ^ 3 +
        ((-1 : ℝ) / 4) * t1x * t2x * vx * d ^ 3 +
        ((3 : ℝ) / 8) * t1x * t1y * vy * d ^ 3 +
        ((3 : ℝ) / 8) * t1x ^ 2 * vx * d ^ 3 +
        ((-1 : ℝ) / 16) * t2x * d ^ 4 +
        ((1 : ℝ) / 16) * t2x * vy ^ 2 * d ^ 2 +
        ((1 : ℝ) / 16) * t2x * vx ^ 2 * d ^ 2 +
        ((1 : ℝ) / 16) * t1x * d ^ 4 +
        ((-1 : ℝ) / 16) * t1x * vy ^ 2 * d ^ 2 +
        ((-1 : ℝ) / 16) * t1x * vx ^ 2 * d ^ 2 +
        ((-1 : ℝ) / 8) * vx * d ^ 3 +
        ((-1 : ℝ) / 8) * vx * vy ^ 2 * d +
        ((-1 : ℝ) / 8) * vx ^ 3 * d) * h2

set_option maxHeartbeats 1600000 in
theorem biarc_key_y (t1x t1y t2x t2y vx vy d : ℝ)
    (h1 : t1x ^ 2 + t1y ^ 2 = 1) (h2 : t2x ^ 2 + t2y ^ 2 = 1)
    (hQ : ((t1x - t2x) ^ 2 + (t1y - t2y) ^ 2) * d ^ 2
        + 2 * (vx * (t1x + t2x) + vy * (t1y + t2y)) * d - (vx ^ 2 + vy ^ 2) = 0) :
    (((vx + d * (t1x - t2x)) / 2) ^ 2 + ((vy + d * (t1y - t2y)) / 2) ^ 2)
      * ((((-vx) + d * (t1x - t2x)) / 2) ^ 2 + (((-vy) + d * (t1y - t2y)) / 2) ^ 2)
      * (t1y - t2y)
    + 2 * ((-t1y) * ((vx + d * (t1x - t2x)) / 2) + t1x * ((vy + d * (t1y - t2y)) / 2))
      * ((((-vx) + d * (t1x - t2x)) / 2) ^ 2 + (((-vy) + d * (t1y - t2y)) / 2) ^ 2)
      * ((vx + d * (t1x - t2x)) / 2)
    - 2 * ((-t2y) * (((-vx) + d * (t1x - t2x)) / 2) + t2x * (((-vy) + d * (t1y - t2y)) / 2))
      * (((vx + d * (t1x - t2x)) / 2) ^ 2 + ((vy + d * (t1y - t2y)) / 2) ^ 2)
      * (((-vx) + d * (t1x - t2x)) / 2) = 0 := by
  linear_combination
    (((-1 : ℝ) / 8) * t1y * t2x ^ 2 * d ^ 2 +
      ((1 : ℝ) / 8) * t1x * t2x * t2y * d ^ 2 +
      ((-1 : ℝ) / 8) * t1x * t1y * t2x * d ^ 2 +
      ((1 : ℝ) / 8) * t1x ^ 2 * t2y * d ^ 2 +
      ((-1 : ℝ) / 4) * t2y * d ^ 2 +
      ((1 : ℝ) / 16) * t2y * vy ^ 2 +
      ((-1 : ℝ) / 16) * t2y * vx ^ 2 +
      ((1 : ℝ) / 8) * t2x * vx * vy +
      ((1 : ℝ) / 4) * t1y * d ^ 2 +
      ((-1 : ℝ) / 16) * t1y * vy ^ 2 +
      ((1 : ℝ) / 16) * t1y * vx ^ 2 +
      ((-1 : ℝ) / 8) * t1x * vx * vy) * hQ
    + (((-5 : ℝ) / 8) * t2y ^ 3 * d ^ 4 +
        ((-5 : ℝ) / 8) * t2x ^ 2 * t2y * d ^ 4 +
        ((5 : ℝ) / 8) * t1y * t2y ^ 2 * d ^ 4 +
        ((1 : ℝ) / 4) * t1y * t2x ^ 2 * d ^ 4 +
        ((-5 : ℝ) / 16) * t1y ^ 2 * t2y * d ^ 4 +
        ((1 : ℝ) / 16) * t1y ^ 3 * d ^ 4 +
        ((3 : ℝ) / 8) * t1x * t2x * t2y * d ^ 4 +
        ((-1 : ℝ) / 8) * t1x * t1y * t2x * d ^ 4 +
        ((-3 : ℝ) / 16) * t1x ^ 2 * t2y * d ^ 4 +
        ((1 : ℝ) / 16) * t1x ^ 2 * t1y * d ^ 4 +
        ((-5 : ℝ) / 8) * t2x * t2y * vx * d ^ 3 +
        ((5 : ℝ) / 8) * t2x ^ 2 * vy * d ^ 3 +
        ((3 : ℝ) / 8) * t1y * t2x * vx * d ^ 3 +
        ((-1 : ℝ) / 8) * t1x * t2y * vx * d ^ 3 +
        ((-1 : ℝ) / 4) * t1x * t2x * vy * d ^ 3 +
        ((-1 : ℝ) / 8) * t1x * t1y * vx * d ^ 3 +
        ((1 : ℝ) / 8) * t1x ^ 2 * vy * d ^ 3 +
        ((7 : ℝ) / 16) * t2y * d ^ 4 +
        ((3 : ℝ) / 16) * t2y * vy ^ 2 * d ^ 2 +
        ((3 : ℝ) / 16) * t2y * vx ^ 2 * d ^ 2 +
        ((-3 : ℝ) / 16) * t1y * d ^ 4 +
        ((-1 : ℝ) / 16) * t1y * vy ^ 2 * d ^ 2 +
        ((-1 : ℝ) / 16) * t1y * vx ^ 2 * d ^ 2 +
        ((-1 : ℝ) / 2) * vy * d ^ 3 +
        ((1 : ℝ) / 8) * vy ^ 3 * d +
        ((1 : ℝ) / 8) * vx ^ 2 * vy * d) * h1
    + (((-1 : ℝ) / 16) * t2y ^ 3 * d ^ 4 +
        ((-1 : ℝ) / 16) * t2x ^ 2 * t2y * d ^ 4 +
        ((5 : ℝ) / 16) * t1y * t2y ^ 2 * d ^ 4 +
        ((3 : ℝ) / 16) * t1y * t2x ^ 2 * d ^ 4 +
        ((1 : ℝ) / 8) * t1x * t2x * t2y * d ^ 4 +
        ((-3 : ℝ) / 8) * t1x * t1y * t2x * d ^ 4 +
        ((3 : ℝ) / 8) * t1x ^ 2 * t2y * d ^ 4 +
        ((1 : ℝ) / 8) * t2x * t2y * vx * d ^ 3 +
        ((-1 : ℝ) / 8) * t2x ^ 2 * vy * d ^ 3 +
        ((1 : ℝ) / 8) * t1y * t2x * vx * d ^ 3 +
        ((-3 : ℝ) / 8) * t1x * t2y * vx * d ^ 3 +
        ((1 : ℝ) / 4) * t1x * t2x * vy * d ^ 3 +
        ((5 : ℝ) / 8) * t1x * t1y * vx * d ^ 3 +
        ((-5 : ℝ) / 8) * t1x ^ 2 * vy * d ^ 3 +
        ((-7 : ℝ) / 16) * t2y * d ^ 4 +
        ((1 : ℝ) / 16) * t2y * vy ^ 2 * d ^ 2 +
        ((1 : ℝ) / 16) * t2y * vx ^ 2 * d ^ 2 +
        ((3 : ℝ) / 16) * t1y * d ^ 4 +
        ((-3 : ℝ) / 16) * t1y * vy ^ 2 * d ^ 2 +
        ((-3 : ℝ) / 16) * t1y * vx ^ 2 * d ^ 2 +
        ((1 : ℝ) / 2) * vy * d ^ 3 +
        ((-1 : ℝ) / 8) * vy ^ 3 * d +
        ((-1 : ℝ) / 8) * vx ^ 2 * vy * d) * h2
theorem biarc_W_x (t1x t1y t2x t2y vx vy d : ℝ)
    (h1 : t1x ^ 2 + t1y ^ 2 = 1) (h2 : t2x ^ 2 + t2y ^ 2 = 1)
    (hQ : ((t1x - t2x) ^ 2 + (t1y - t2y) ^ 2) * d ^ 2
        + 2 * (vx * (t1x + t2x) + vy * (t1y + t2y)) * d - (vx ^ 2 + vy ^ 2) = 0)
    (hA1 : (((vx + d * (t1x - t2x)) / 2) * ((vx + d * (t1x - t2x)) / 2) + ((vy + d * (t1y - t2y)) / 2) * ((vy + d * (t1y - t2y)) / 2)) ≠ 0)
    (hA2 : ((((-vx) + d * (t1x - t2x)) / 2) * (((-vx) + d * (t1x - t2x)) / 2) + (((-vy) + d * (t1y - t2y)) / 2) * (((-vy) + d * (t1y - t2y)) / 2)) ≠ 0) :
    t1x + 2 * ((-t1y) * ((vx + d * (t1x - t2x)) / 2) + t1x * ((vy + d * (t1y - t2y)) / 2)) / (((vx + d * (t1x - t2x)) / 2) * ((vx + d * (t1x - t2x)) / 2) + ((vy + d * (t1y - t2y)) / 2) * ((vy + d * (t1y - t2y)) / 2)) * (-((vy + d * (t1y - t2y)) / 2))
      = t2x + 2 * ((-t2y) * (((-vx) + d * (t1x - t2x)) / 2) + t2x * (((-vy) + d * (t1y - t2y)) / 2)) / ((((-vx) + d * (t1x - t2x)) / 2) * (((-vx) + d * (t1x - t2x)) / 2) + (((-vy) + d * (t1y - t2y)) / 2) * (((-vy) + d * (t1y - t2y)) / 2)) * (-(((-vy) + d * (t1y - t2y)) / 2)) := by
  have e1 : 2 * ((-t1y) * ((vx + d * (t1x - t2x)) / 2) + t1x * ((vy + d * (t1y - t2y)) / 2)) / (((vx + d * (t1x - t2x)) / 2) * ((vx + d * (t1x - t2x)) / 2) + ((vy + d * (t1y - t2y)) / 2) * ((vy + d * (t1y - t2y)) / 2)) * (-((vy + d * (t1y - t2y)) / 2))
      = 2 * ((-t1y) * ((vx + d * (t1x - t2x)) / 2) + t1x * ((vy + d * (t1y - t2y)) / 2)) * (-((vy + d * (t1y - t2y)) / 2)) / (((vx + d * (t1x - t2x)) / 2) * ((vx + d * (t1x - t2x)) / 2) + ((vy + d * (t1y - t2y)) / 2) * ((vy + d * (t1y - t2y)) / 2)) := div_mul_eq_mul_div _ _ _
  have e2 : 2 * ((-t2y) * (((-vx) + d * (t1x - t2x)) / 2) + t2x * (((-vy) + d * (t1y - t2y)) / 2)) / ((((-vx) + d * (t1x - t2x)) / 2) * (((-vx) + d * (t1x - t2x)) / 2) + (((-vy) + d * (t1y - t2y)) / 2) * (((-vy) + d * (t1y - t2y)) / 2)) * (-(((-vy) + d * (t1y - t2y)) / 2))
      = 2 * ((-t2y) * (((-vx) + d * (t1x - t2x)) / 2) + t2x * (((-vy) + d * (t1y - t2y)) / 2)) * (-(((-vy) + d * (t1y - t2y)) / 2)) / ((((-vx) + d * (t1x - t2x)) / 2) * (((-vx) + d * (t1x - t2x)) / 2) + (((-vy) + d * (t1y - t2y)) / 2) * (((-vy) + d * (t1y - t2y)) / 2)) := div_mul_eq_mul_div _ _ _
  rw [← sub_eq_zero, e1, e2, add_sub_add_comm, div_sub_div _ _ hA1 hA2,
    add_div' _ _ _ (mul_ne_zero hA1 hA2), div_eq_zero_iff]
  left
  linear_combination biarc_key_x t1x t1y t2x t2y vx vy d h1 h2 hQ

theorem biarc_W_y (t1x t1y t2x t2y vx vy d : ℝ)
    (h1 : t1x ^ 2 + t1y ^ 2 = 1) (h2 : t2x ^ 2 + t2y ^ 2 = 1)
    (hQ : ((t1x - t2x) ^ 2 + (t1y - t2y) ^ 2) * d ^ 2
        + 2 * (vx * (t1x + t2x) + vy * (t1y + t2y)) * d - (vx ^ 2 + vy ^ 2) = 0)
    (hA1 : (((vx + d * (t1x - t2x)) / 2) * ((vx + d * (t1x - t2x)) / 2) + ((vy + d * (t1y - t2y)) / 2) * ((vy + d * (t1y - t2y)) / 2)) ≠ 0)
    (hA2 : ((((-vx) + d * (t1x - t2x)) / 2) * (((-vx) + d * (t1x - t2x)) / 2) + (((-vy) + d * (t1y - t2y)) / 2) * (((-vy) + d * (t1y - t2y)) / 2)) ≠ 0) :
    t1y + 2 * ((-t1y) * ((vx + d * (t1x - t2x)) / 2) + t1x * ((vy + d * (t1y - t2y)) / 2)) / (((vx + d * (t1x - t2x)) / 2) * ((vx + d * (t1x - t2x)) / 2) + ((vy + d * (t1y - t2y)) / 2) * ((vy + d * (t1y - t2y)) / 2)) * ((vx + d * (t1x - t2x)) / 2)
      = t2y + 2 * ((-t2y) * (((-vx) + d * (t1x - t2x)) / 2) + t2x * (((-vy) + d * (t1y - t2y)) / 2)) / ((((-vx) + d * (t1x - t2x)) / 2) * (((-vx) + d * (t1x - t2x)) / 2) + (((-vy) + d * (t1y - t2y)) / 2) * (((-vy) + d * (t1y - t2y)) / 2)) * (((-vx) + d * (t1x - t2x)) / 2) := by
  have e1 : 2 * ((-t1y) * ((vx + d * (t1x - t2x)) / 2) + t1x * ((vy + d * (t1y - t2y)) / 2)) / (((vx + d * (t1x - t2x)) / 2) * ((vx + d * (t1x - t2x)) / 2) + ((vy + d * (t1y - t2y)) / 2) * ((vy + d * (t1y - t2y)) / 2)) * ((vx + d * (t1x - t2x)) / 2)
      = 2 * ((-t1y) * ((vx + d * (t1x - t2x)) / 2) + t1x * ((vy + d * (t1y - t2y)) / 2)) * ((vx + d * (t1x - t2x)) / 2) / (((vx + d * (t1x - t2x)) / 2) * ((vx + d * (t1x - t2x)) / 2) + ((vy + d * (t1y - t2y)) / 2) * ((vy + d * (t1y - t2y)) / 2)) := div_mul_eq_mul_div _ _ _
  have e2 : 2 * ((-t2y) * (((-vx) + d * (t1x - t2x)) / 2) + t2x * (((-vy) + d * (t1y - t2y)) / 2)) / ((((-vx) + d * (t1x - t2x)) / 2) * (((-vx) + d * (t1x - t2x)) / 2) + (((-vy) + d * (t1y - t2y)) / 2) * (((-vy) + d * (t1y - t2y)) / 2)) * (((-vx) + d * (t1x - t2x)) / 2)
      = 2 * ((-t2y) * (((-vx) + d * (t1x - t2x)) / 2) + t2x * (((-vy) + d * (t1y - t2y)) / 2)) * (((-vx) + d * (t1x - t2x)) / 2) / ((((-vx) + d * (t1x - t2x)) / 2) * (((-vx) + d * (t1x - t2x)) / 2) + (((-vy) + d * (t1y - t2y)) / 2) * (((-vy) + d * (t1y - t2y)) / 2)) := div_mul_eq_mul_div _ _ _
  rw [← sub_eq_zero, e1, e2, add_sub_add_comm, div_sub_div _ _ hA1 hA2,
    add_div' _ _ _ (mul_ne_zero hA1 hA2), div_eq_zero_iff]
  left
  linear_combination biarc_key_y t1x t1y t2x t2y vx vy d h1 h2 hQ

theorem biarcArcs_continuous (p1 t1 p2 t2 : Vec) (d : ℝ)
    (h1 : t1.x ^ 2 + t1.y ^ 2 = 1) (h2 : t2.x ^ 2 + t2.y ^ 2 = 1)
    (hQ : ((t1.x - t2.x) ^ 2 + (t1.y - t2.y) ^ 2) * d ^ 2
        + 2 * ((p2.x - p1.x) * (t1.x + t2.x) + (p2.y - p1.y) * (t1.y + t2.y)) * d
        - ((p2.x - p1.x) ^ 2 + (p2.y - p1.y) ^ 2) = 0)
    (res : BiarcResult) (hres : biarcArcs p1 t1 p2 t2 d = some res) :
    rotate res.theta1 t1 = rotate res.theta2 t2 := by
  unfold biarcArcs at hres
  set pmv := (1 / 2 : ℝ) • (p1 + p2 + d • (t1 - t2)) with hpm
  simp only [] at hres
  rcases hc1 : calculateArc d pmv p1 t1 with _ | ⟨r1, th1⟩ <;> rw [hc1] at hres
  · exact absurd hres (by simp)
  rcases hc2 : calculateArc d pmv p2 t2 with _ | ⟨r2, th2⟩ <;> rw [hc2] at hres
  · exact absurd hres (by simp)
  simp only at hres
  obtain rfl := (Option.some.injEq .. ▸ hres).symm
  simp only [BiarcResult.theta1, BiarcResult.theta2]
  obtain ⟨hB1, hA1, hcos1, hsin1⟩ := calculateArc_spec d pmv p1 t1 r1 th1 h1 hc1
  obtain ⟨hB2, hA2, hcos2, hsin2⟩ := calculateArc_spec d pmv p2 t2 r2 th2 h2 hc2
  rw [rotate_arc_tangent t1 (pmv - p1) h1 hA1 th1 hcos1 hsin1,
    rotate_arc_tangent t2 (pmv - p2) h2 hA2 th2 hcos2 hsin2]
  have hu1x : pmv.x - p1.x = (p2.x - p1.x + d * (t1.x - t2.x)) / 2 := by
    rw [hpm]
    simp only [Vec.add_def, Vec.smul_def, Vec.sub_def]
    ring
  have hu1y : pmv.y - p1.y = (p2.y - p1.y + d * (t1.y - t2.y)) / 2 := by
    rw [hpm]
    simp only [Vec.add_def, Vec.smul_def, Vec.sub_def]
    ring
  have hu2x : pmv.x - p2.x = (-(p2.x - p1.x) + d * (t1.x - t2.x)) / 2 := by
    rw [hpm]
    simp only [Vec.add_def, Vec.smul_def, Vec.sub_def]
    ring
  have hu2y : pmv.y - p2.y = (-(p2.y - p1.y) + d * (t1.y - t2.y)) / 2 := by
    rw [hpm]
    simp only [Vec.add_def, Vec.smul_def, Vec.sub_def]
    ring
  simp only [Vec.dot, Vec.sub_def] at hA1 hA2
  rw [hu1x, hu1y] at hA1
  rw [hu2x, hu2y] at hA2
  refine Vec.ext2 _ _ ?_ ?_
  · simp only [Vec.add_def, Vec.smul_def, Vec.ortho, Vec.dot, Vec.sub_def]
    rw [hu1x, hu1y, hu2x, hu2y]
    linear_combination biarc_W_x t1.x t1.y t2.x t2.y (p2.x - p1.x) (p2.y - p1.y) d h1 h2 hQ hA1 hA2
  · simp only [Vec.add_def, Vec.smul_def, Vec.ortho, Vec.dot, Vec.sub_def]
    rw [hu1x, hu1y, hu2x, hu2y]
    linear_combination biarc_W_y t1.x t1.y t2.x t2.y (p2.x - p1.x) (p2.y - p1.y) d h1 h2 hQ hA1 hA2

theorem exp_alpha_rotate (t_ : Vec) (ht : t_.x ^ 2 + t_.y ^ 2 = 1) (th : ℝ) :
    Complex.exp (((t_.alpha + th : ℝ) : ℂ) * Complex.I)
      = ⟨(rotate th t_).x, (rotate th t_).y⟩ := by
  have habs : Complex.abs ⟨t_.x, t_.y⟩ = 1 := by
    rw [Complex.abs_apply, Complex.normSq_mk]
    rw [show t_.x * t_.x + t_.y * t_.y = 1 by linear_combination ht]
    exact Real.sqrt_one
  have hz : Complex.exp ((t_.alpha : ℂ) * Complex.I) = ⟨t_.x, t_.y⟩ := by
    have h := Complex.abs_mul_exp_arg_mul_I ⟨t_.x, t_.y⟩
    rw [habs] at h
    simpa [Vec.alpha] using h
  have hsplit : ((t_.alpha + th : ℝ) : ℂ) * Complex.I
      = (t_.alpha : ℂ) * Complex.I + (th : ℂ) * Complex.I := by
    push_cast
    ring
  rw [hsplit, Complex.exp_add, hz, Complex.exp_mul_I]
  rw [← Complex.ofReal_cos, ← Complex.ofReal_sin]
  apply Complex.ext <;>
    simp [rotate, Complex.add_re, Complex.add_im, Complex.mul_re, Complex.mul_im,
      Complex.cos_ofReal_re, Complex.sin_ofReal_re] <;>
    ring

theorem angEq_of_rotate_eq (t1 t2 : Vec) (th1 th2 : ℝ)
    (h1 : t1.x ^ 2 + t1.y ^ 2 = 1) (h2 : t2.x ^ 2 + t2.y ^ 2 = 1)
    (h : rotate th1 t1 = rotate th2 t2) :
    angEq (t1.alpha + th1) (t2.alpha + th2) := by
  have he : Complex.exp (((t1.alpha + th1 : ℝ) : ℂ) * Complex.I)
      = Complex.exp (((t2.alpha + th2 : ℝ) : ℂ) * Complex.I) := by
    rw [exp_alpha_rotate t1 h1 th1, exp_alpha_rotate t2 h2 th2, h]
  obtain ⟨n, hn⟩ := Complex.exp_eq_exp_iff_exists_int.mp he
  refine ⟨n, ?_⟩
  have h0 : (((t1.alpha + th1 - (t2.alpha + th2) - 2 * π * n : ℝ)) : ℂ) * Complex.I = 0 := by
    push_cast at hn ⊢
    linear_combination hn
  rcases mul_eq_zero.mp h0 with h0' | h0'
  · have hr : t1.alpha + th1 - (t2.alpha + th2) - 2 * π * n = 0 := by exact_mod_cast h0'
    linarith
  · exact absurd h0' Complex.I_ne_zero

theorem unit_dot_eq (t1 t2 : Vec)
    (h1 : t1.x ^ 2 + t1.y ^ 2 = 1) (h2 : t2.x ^ 2 + t2.y ^ 2 = 1)
    (hd : t1.dot t2 = 1) : t1 = t2 := by
  simp only [Vec.dot] at hd
  have hsq : (t1.x - t2.x) ^ 2 + (t1.y - t2.y) ^ 2 = 0 := by
    linear_combination h1 + h2 - 2 * hd
  refine Vec.ext2 _ _ ?_ ?_
  · nlinarith [sq_nonneg (t1.x - t2.x), sq_nonneg (t1.y - t2.y)]
  · nlinarith [sq_nonneg (t1.x - t2.x), sq_nonneg (t1.y - t2.y)]

/-- **C6.** For all endpoints with unit tangents `t1` (facing along the path)
and `t2` (facing away from it), whenever `biarc_interpolation` returns a value
the two arcs are C1-continuous: the travel tangent of arc 1 rotated through
its angle `theta1` coincides with the travel tangent of arc 2 rotated through
`theta2` (a vector equality), so the tangent direction `alpha t1 + theta1` at
the end of arc 1 equals the tangent direction `alpha t2 + theta2` at the
start of arc 2 modulo `2π` — in the general branch and in the degenerate
parallel branch alike. -/
theorem biarc_interpolation_c1_continuous (p1 t1 p2 t2 : Vec)
    (h1 : t1.x ^ 2 + t1.y ^ 2 = 1) (h2 : t2.x ^ 2 + t2.y ^ 2 = 1)
    (res : BiarcResult) (hres : biarcInterpolation p1 t1 p2 t2 = some res) :
    rotate res.theta1 t1 = rotate res.theta2 t2 ∧
    angEq (t1.alpha + res.theta1) (t2.alpha + res.theta2) := by
  suffices main : rotate res.theta1 t1 = rotate res.theta2 t2 by
    exact ⟨main, angEq_of_rotate_eq t1 t2 _ _ h1 h2 main⟩
  unfold biarcInterpolation at hres
  simp only [] at hres
  split at hres
  · rename_i hden
    split at hres
    · rename_i hvt
      have ht12 : t1 = t2 := by
        refine unit_dot_eq t1 t2 h1 h2 ?_
        linarith
      split at hres <;>
        obtain rfl := (Option.some.injEq .. ▸ hres).symm <;>
          simp only [BiarcResult.theta1, BiarcResult.theta2] <;>
          rw [ht12] <;>
          refine Vec.ext2 _ _ ?_ ?_ <;>
          simp [rotate, Real.cos_pi, Real.sin_pi, Real.cos_neg, Real.sin_neg]
    · rename_i hvt
      refine biarcArcs_continuous p1 t1 p2 t2 _ h1 h2 ?_ res hres
      have hτ : (t1.x - t2.x) ^ 2 + (t1.y - t2.y) ^ 2 = 0 := by
        simp only [Vec.dot] at hden
        linear_combination h1 + h2 + hden
      have hvtc : (p2 - p1).dot (t1 + t2)
          = (p2.x - p1.x) * (t1.x + t2.x) + (p2.y - p1.y) * (t1.y + t2.y) := by
        simp [Vec.dot, Vec.sub_def, Vec.add_def]
      have hvvc : (p2 - p1).dot (p2 - p1)
          = (p2.x - p1.x) ^ 2 + (p2.y - p1.y) ^ 2 := by
        simp [Vec.dot, Vec.sub_def]
        ring
      rw [hτ, zero_mul, zero_add, ← hvtc, ← hvvc]
      rw [hvtc] at hvt ⊢
      field_simp
  · rename_i hden
    split at hres
    · exact absurd hres (by simp)
    · rename_i hdisc
      refine biarcArcs_continuous p1 t1 p2 t2 _ h1 h2 ?_ res hres
      have hdisc0 : 0 ≤ ((p2 - p1).dot (t1 + t2)) ^ 2
          + 2 * (1 - t1.dot t2) * ((p2 - p1).dot (p2 - p1)) := not_lt.mp hdisc
      have hS : Real.sqrt (((p2 - p1).dot (t1 + t2)) ^ 2
          + 2 * (1 - t1.dot t2) * ((p2 - p1).dot (p2 - p1))) ^ 2
          = ((p2 - p1).dot (t1 + t2)) ^ 2
            + 2 * (1 - t1.dot t2) * ((p2 - p1).dot (p2 - p1)) := Real.sq_sqrt hdisc0
      have hτden : (t1.x - t2.x) ^ 2 + (t1.y - t2.y) ^ 2 = 2 * (1 - t1.dot t2) := by
        simp only [Vec.dot]
        linear_combination h1 + h2
      have hvtc : (p2 - p1).dot (t1 + t2)
          = (p2.x - p1.x) * (t1.x + t2.x) + (p2.y - p1.y) * (t1.y + t2.y) := by
        simp [Vec.dot, Vec.sub_def, Vec.add_def]
      have hvvc : (p2 - p1).dot (p2 - p1)
          = (p2.x - p1.x) ^ 2 + (p2.y - p1.y) ^ 2 := by
        simp [Vec.dot, Vec.sub_def]
        ring
      rw [hτden, ← hvtc, ← hvvc]
      have hdd : (2 * (1 - t1.dot t2)) * ((-((p2 - p1).dot (t1 + t2))
            + Real.sqrt (((p2 - p1).dot (t1 + t2)) ^ 2
              + 2 * (1 - t1.dot t2) * ((p2 - p1).dot (p2 - p1))))
            / (2 * (1 - t1.dot t2)))
          = -((p2 - p1).dot (t1 + t2))
            + Real.sqrt (((p2 - p1).dot (t1 + t2)) ^ 2
              + 2 * (1 - t1.dot t2) * ((p2 - p1).dot (p2 - p1))) :=
        mul_div_cancel₀ _ hden
      have hmul : (2 * (1 - t1.dot t2)) * ((2 * (1 - t1.dot t2))
            * ((-((p2 - p1).dot (t1 + t2))
              + Real.sqrt (((p2 - p1).dot (t1 + t2)) ^ 2
                + 2 * (1 - t1.dot t2) * ((p2 - p1).dot (p2 - p1))))
              / (2 * (1 - t1.dot t2))) ^ 2
          + 2 * ((p2 - p1).dot (t1 + t2))
            * ((-((p2 - p1).dot (t1 + t2))
              + Real.sqrt (((p2 - p1).dot (t1 + t2)) ^ 2
                + 2 * (1 - t1.dot t2) * ((p2 - p1).dot (p2 - p1))))
              / (2 * (1 - t1.dot t2)))
          - (p2 - p1).dot (p2 - p1)) = 0 := by
        linear_combination ((2 * (1 - t1.dot t2)) * ((-((p2 - p1).dot (t1 + t2))
            + Real.sqrt (((p2 - p1).dot (t1 + t2)) ^ 2
              + 2 * (1 - t1.dot t2) * ((p2 - p1).dot (p2 - p1))))
            / (2 * (1 - t1.dot t2)))
          + (-((p2 - p1).dot (t1 + t2))
            + Real.sqrt (((p2 - p1).dot (t1 + t2)) ^ 2
              + 2 * (1 - t1.dot t2) * ((p2 - p1).dot (p2 - p1))))
          + 2 * ((p2 - p1).dot (t1 + t2))) * hdd + hS
      rcases mul_eq_zero.mp hmul with h0 | h0
      · exact absurd h0 hden
      · exact h0

/-- Witness: the concrete biarc from `(0,0)` with tangent `(1,0)` to `(0,5)`
with tangent `(3/5, 4/5)` (discriminant `36`, `d = 5/2`) succeeds, and the two
returned arcs satisfy the C1-continuity property. -/
theorem biarc_interpolation_c1_continuous_witness :
    ∃ res : BiarcResult,
      biarcInterpolation ⟨0, 0⟩ ⟨1, 0⟩ ⟨0, 5⟩ ⟨3 / 5, 4 / 5⟩ = some res ∧
      (rotate res.theta1 ⟨1, 0⟩ = rotate res.theta2 ⟨3 / 5, 4 / 5⟩ ∧
       angEq ((⟨1, 0⟩ : Vec).alpha + res.theta1) ((⟨3 / 5, 4 / 5⟩ : Vec).alpha + res.theta2)) := by
  have hdisc36 : ((⟨0, 5⟩ - ⟨0, 0⟩ : Vec).dot ((⟨1, 0⟩ : Vec) + ⟨3 / 5, 4 / 5⟩)) ^ 2
      + 2 * (1 - (⟨1, 0⟩ : Vec).dot ⟨3 / 5, 4 / 5⟩)
        * ((⟨0, 5⟩ - ⟨0, 0⟩ : Vec).dot (⟨0, 5⟩ - ⟨0, 0⟩ : Vec)) = 36 := by
    norm_num [Vec.dot, Vec.sub_def, Vec.add_def]
  have hsq : Real.sqrt 36 = 6 := by
    rw [show (36 : ℝ) = 6 ^ 2 by norm_num]
    exact Real.sqrt_sq (by norm_num)
  have hdE : (-((⟨0, 5⟩ - ⟨0, 0⟩ : Vec).dot ((⟨1, 0⟩ : Vec) + ⟨3 / 5, 4 / 5⟩))
      + Real.sqrt (((⟨0, 5⟩ - ⟨0, 0⟩ : Vec).dot ((⟨1, 0⟩ : Vec) + ⟨3 / 5, 4 / 5⟩)) ^ 2
        + 2 * (1 - (⟨1, 0⟩ : Vec).dot ⟨3 / 5, 4 / 5⟩)
          * ((⟨0, 5⟩ - ⟨0, 0⟩ : Vec).dot (⟨0, 5⟩ - ⟨0, 0⟩ : Vec))))
      / (2 * (1 - (⟨1, 0⟩ : Vec).dot ⟨3 / 5, 4 / 5⟩)) = 5 / 2 := by
    rw [hdisc36, hsq]
    norm_num [Vec.dot, Vec.sub_def, Vec.add_def]
  have hpm : ((1 : ℝ) / 2) • ((⟨0, 0⟩ : Vec) + ⟨0, 5⟩ + (5 / 2 : ℝ) • ((⟨1, 0⟩ : Vec) - ⟨3 / 5, 4 / 5⟩))
      = (⟨1 / 2, 3 / 2⟩ : Vec) := by
    refine Vec.ext2 _ _ ?_ ?_ <;>
      simp [Vec.add_def, Vec.sub_def, Vec.smul_def] <;> norm_num
  have hs1 : arcS ⟨1 / 2, 3 / 2⟩ ⟨0, 0⟩ ⟨1, 0⟩ = 5 / 6 := by
    norm_num [arcS, Vec.dot, Vec.ortho, Vec.sub_def]
  have hs2 : arcS ⟨1 / 2, 3 / 2⟩ ⟨0, 5⟩ ⟨3 / 5, 4 / 5⟩ = -(5 / 2) := by
    norm_num [arcS, Vec.dot, Vec.ortho, Vec.sub_def]
  have hc1 : calculateArc (5 / 2) ⟨1 / 2, 3 / 2⟩ ⟨0, 0⟩ ⟨1, 0⟩
      = some (|arcS ⟨1 / 2, 3 / 2⟩ ⟨0, 0⟩ ⟨1, 0⟩|, arcTheta (5 / 2) ⟨1 / 2, 3 / 2⟩ ⟨0, 0⟩ ⟨1, 0⟩) := by
    unfold calculateArc
    rw [if_neg (by norm_num [Vec.ortho, Vec.dot, Vec.sub_def]),
      if_neg (by rw [hs1]; norm_num)]
  have hc2 : calculateArc (5 / 2) ⟨1 / 2, 3 / 2⟩ ⟨0, 5⟩ ⟨3 / 5, 4 / 5⟩
      = some (|arcS ⟨1 / 2, 3 / 2⟩ ⟨0, 5⟩ ⟨3 / 5, 4 / 5⟩|,
          arcTheta (5 / 2) ⟨1 / 2, 3 / 2⟩ ⟨0, 5⟩ ⟨3 / 5, 4 / 5⟩) := by
    unfold calculateArc
    rw [if_neg (by norm_num [Vec.ortho, Vec.dot, Vec.sub_def]),
      if_neg (by rw [hs2]; norm_num)]
  have hres : biarcInterpolation ⟨0, 0⟩ ⟨1, 0⟩ ⟨0, 5⟩ ⟨3 / 5, 4 / 5⟩
      = some (.arcs |arcS ⟨1 / 2, 3 / 2⟩ ⟨0, 0⟩ ⟨1, 0⟩|
          (arcTheta (5 / 2) ⟨1 / 2, 3 / 2⟩ ⟨0, 0⟩ ⟨1, 0⟩)
          |arcS ⟨1 / 2, 3 / 2⟩ ⟨0, 5⟩ ⟨3 / 5, 4 / 5⟩|
          (arcTheta (5 / 2) ⟨1 / 2, 3 / 2⟩ ⟨0, 5⟩ ⟨3 / 5, 4 / 5⟩)) := by
    unfold biarcInterpolation
    simp only []
    rw [if_neg (by norm_num [Vec.dot]), if_neg (by rw [hdisc36]; norm_num), hdE]
    unfold biarcArcs
    simp only []
    rw [hpm, hc1, hc2]
  exact ⟨_, hres, biarc_interpolation_c1_continuous _ _ _ _ (by norm_num) (by norm_num) _ hres⟩


/-! ## `Graph.contract_edges` and scenery preservation (`railgraphs.py`)

The walk lemmas about `Edge.to_global`, the evaluation of one
`contract_edges` loop iteration, and the preservation/counterexample
theorems for claim C2. -/

theorem Pose.eq_of_fields (a b : Pose) (hp : a.pos = b.pos) (hd : a.dir = b.dir) : a = b := by
  cases a; cases b; simp_all

/-- Angle congruence modulo `2π`. -/
def angEqv (a b : ℝ) : Prop := ∃ k : ℤ, a = b + 2 * π * k

theorem angEqv_refl (a : ℝ) : angEqv a a := ⟨0, by push_cast; ring⟩

theorem angEqv_symm {a b : ℝ} (h : angEqv a b) : angEqv b a := by
  obtain ⟨k, hk⟩ := h
  exact ⟨-k, by push_cast; rw [hk]; push_cast; ring⟩

theorem angEqv_trans {a b c : ℝ} (h1 : angEqv a b) (h2 : angEqv b c) : angEqv a c := by
  obtain ⟨k1, hk1⟩ := h1
  obtain ⟨k2, hk2⟩ := h2
  exact ⟨k1 + k2, by rw [hk1, hk2]; push_cast; ring⟩

theorem angEqv_add {a b c d : ℝ} (h1 : angEqv a b) (h2 : angEqv c d) :
    angEqv (a + c) (b + d) := by
  obtain ⟨k1, hk1⟩ := h1
  obtain ⟨k2, hk2⟩ := h2
  exact ⟨k1 + k2, by rw [hk1, hk2]; push_cast; ring⟩

theorem angEqv_sub {a b c d : ℝ} (h1 : angEqv a b) (h2 : angEqv c d) :
    angEqv (a - c) (b - d) := by
  obtain ⟨k1, hk1⟩ := h1
  obtain ⟨k2, hk2⟩ := h2
  exact ⟨k1 - k2, by rw [hk1, hk2]; push_cast; ring⟩

theorem angNorm_angEqv (a : ℝ) : angEqv (angNorm a) a :=
  ⟨-⌊a / (2 * π)⌋, by unfold angNorm; push_cast; ring⟩

theorem angNorm_eq_of_angEqv {a b : ℝ} (h : angEqv a b) : angNorm a = angNorm b := by
  obtain ⟨k, hk⟩ := h
  unfold angNorm
  rw [hk]
  have h2π : (2 : ℝ) * π ≠ 0 := by positivity
  have hdiv : (b + 2 * π * k) / (2 * π) = b / (2 * π) + k := by
    field_simp
    ring
  rw [hdiv, Int.floor_add_int]
  push_cast
  ring

theorem cos_angNorm (a : ℝ) : Real.cos (angNorm a) = Real.cos a := by
  obtain ⟨k, hk⟩ := angNorm_angEqv a
  rw [hk, show a + 2 * π * k = a + (k : ℝ) * (2 * π) by ring,
    Real.cos_add_int_mul_two_pi]

theorem sin_angNorm (a : ℝ) : Real.sin (angNorm a) = Real.sin a := by
  obtain ⟨k, hk⟩ := angNorm_angEqv a
  rw [hk, show a + 2 * π * k = a + (k : ℝ) * (2 * π) by ring,
    Real.sin_add_int_mul_two_pi]

theorem mkPose_congr {a b : ℝ} (p : Vec) (h : angEqv a b) : mkPose p a = mkPose p b := by
  unfold mkPose
  rw [angNorm_eq_of_angEqv h]

theorem polar_angNorm (a L : ℝ) : polar (angNorm a) L = polar a L := by
  unfold polar
  rw [cos_angNorm, sin_angNorm]

theorem polar_angEqv {a b : ℝ} (L : ℝ) (h : angEqv a b) : polar a L = polar b L := by
  obtain ⟨k, hk⟩ := h
  unfold polar
  rw [hk, show b + 2 * π * k = b + (k : ℝ) * (2 * π) by ring,
    Real.cos_add_int_mul_two_pi, Real.sin_add_int_mul_two_pi]

theorem mkPose_pos (p : Vec) (d : ℝ) : (mkPose p d).pos = p := rfl

theorem mkPose_dir (p : Vec) (d : ℝ) : (mkPose p d).dir = angNorm d := rfl

theorem reverse_mkPose (p : Vec) (d : ℝ) :
    (mkPose p d).reverse = mkPose p (angNorm d + π) := rfl

theorem mkPose_eq_of {A C : Vec} {B D : ℝ} (hp : A = C) (hd : angEqv B D) :
    mkPose A B = mkPose C D := by
  rw [hp]
  exact mkPose_congr _ hd

theorem travel_straight (seg : Seg) (h : seg.radius = 0) (s : ℝ) :
    seg.travel s = mkPose (seg.start.pos + polar seg.start.dir s) seg.start.dir := by
  unfold Seg.travel
  rw [if_pos h]

theorem travel_arc (seg : Seg) (h : ¬ seg.radius = 0) (s : ℝ) :
    seg.travel s = mkPose (seg.center + polar (seg.start.dir + 0.5 * π - s / seg.radius) seg.radius)
      (seg.start.dir - s / seg.radius) := by
  unfold Seg.travel
  rw [if_neg h]

theorem flip_start (seg : Seg) : seg.flip.start = (seg.travel seg.length).reverse := rfl

theorem flip_radius (seg : Seg) : seg.flip.radius = -seg.radius := rfl

theorem flip_length (seg : Seg) : seg.flip.length = seg.length := rfl

theorem flip_center (seg : Seg) (h : ¬ seg.radius = 0) : seg.flip.center = seg.center := by
  unfold Seg.center
  rw [flip_start, flip_radius, travel_arc seg h, reverse_mkPose, mkPose_pos, mkPose_dir]
  rw [show polar (angNorm (angNorm (seg.start.dir - seg.length / seg.radius) + π) - 0.5 * π)
        (-seg.radius)
      = polar (seg.start.dir - seg.length / seg.radius + π - 0.5 * π) (-seg.radius) from
    polar_angEqv _ (angEqv_sub (angEqv_trans (angNorm_angEqv _)
      (angEqv_add (angNorm_angEqv _) (angEqv_refl _))) (angEqv_refl _))]
  refine Vec.ext2 _ _ ?_ ?_ <;>
    simp only [Seg.center, polar, Vec.add_def, Real.cos_add, Real.sin_add, Real.cos_sub,
      Real.sin_sub, Real.cos_pi, Real.sin_pi, Real.cos_pi_div_two, Real.sin_pi_div_two,
      show (0.5 : ℝ) * π = π / 2 by ring] <;>
    ring

/-- `EdgeSegment.flip` reflects `travel`: travelling `L - s` on the flipped
segment reaches `travel s` of the original, facing backwards. -/
theorem flip_travel (seg : Seg) (s : ℝ) :
    (seg.flip).travel (seg.length - s) = (seg.travel s).reverse := by
  by_cases hr : seg.radius = 0
  · have h0 : seg.flip.radius = 0 := by rw [flip_radius, hr, neg_zero]
    rw [travel_straight (seg.flip) h0 (seg.length - s), travel_straight seg hr s,
      flip_start, travel_straight seg hr seg.length, reverse_mkPose, reverse_mkPose,
      mkPose_pos, mkPose_dir]
    refine mkPose_eq_of ?_ (angNorm_angEqv _)
    rw [show polar (angNorm (angNorm seg.start.dir + π)) (seg.length - s)
        = polar (seg.start.dir + π) (seg.length - s) from
      polar_angEqv _ (angEqv_trans (angNorm_angEqv _)
        (angEqv_add (angNorm_angEqv _) (angEqv_refl _)))]
    refine Vec.ext2 _ _ ?_ ?_ <;>
      simp only [polar, Vec.add_def, Real.cos_add_pi, Real.sin_add_pi] <;> ring
  · have h0 : ¬ seg.flip.radius = 0 := by
      rw [flip_radius]
      intro h
      exact hr (by linarith [neg_eq_zero.mp h])
    rw [travel_arc (seg.flip) h0 (seg.length - s), travel_arc seg hr s,
      flip_center seg hr, flip_radius, flip_start, travel_arc seg hr seg.length,
      reverse_mkPose, mkPose_dir, reverse_mkPose]
    refine mkPose_eq_of ?_ ?_
    · rw [show polar (angNorm (angNorm (seg.start.dir - seg.length / seg.radius) + π) + 0.5 * π
            - (seg.length - s) / -seg.radius) (-seg.radius)
          = polar (seg.start.dir - seg.length / seg.radius + π + 0.5 * π
            + (seg.length - s) / seg.radius) (-seg.radius) from
        polar_angEqv _ (by
          rw [show (seg.length - s) / -seg.radius = -((seg.length - s) / seg.radius) from by
            rw [div_neg]]
          refine angEqv_trans (angEqv_sub (angEqv_add (angEqv_trans (angNorm_angEqv _)
            (angEqv_add (angNorm_angEqv _) (angEqv_refl _))) (angEqv_refl _)) (angEqv_refl _)) ?_
          exact ⟨0, by push_cast; ring⟩)]
      refine Vec.ext2 _ _ ?_ ?_ <;>
        simp only [polar, Vec.add_def, Real.cos_add, Real.sin_add, Real.cos_sub, Real.sin_sub,
          Real.cos_pi, Real.sin_pi, Real.cos_pi_div_two, Real.sin_pi_div_two, sub_div,
          show (0.5 : ℝ) * π = π / 2 by ring] <;>
        simp only [div_eq_mul_inv]
      · linear_combination (Real.cos seg.start.dir * seg.radius * Real.sin (s * seg.radius⁻¹)
          - seg.radius * Real.sin seg.start.dir * Real.cos (s * seg.radius⁻¹))
          * Real.sin_sq_add_cos_sq (seg.length * seg.radius⁻¹)
      · linear_combination (Real.sin seg.start.dir * seg.radius * Real.sin (s * seg.radius⁻¹)
          + seg.radius * Real.cos seg.start.dir * Real.cos (s * seg.radius⁻¹))
          * Real.sin_sq_add_cos_sq (seg.length * seg.radius⁻¹)
    · rw [show (seg.length - s) / -seg.radius = -((seg.length - s) / seg.radius) from by
        rw [div_neg]]
      refine angEqv_trans (angEqv_sub (angEqv_trans (angNorm_angEqv _)
        (angEqv_add (angNorm_angEqv _) (angEqv_refl _))) (angEqv_refl _)) ?_
      refine angEqv_trans ?_ (angEqv_symm (angEqv_add (angNorm_angEqv _) (angEqv_refl _)))
      exact ⟨0, by push_cast; ring⟩
/-- Sum of segment lengths (`Edge.length` for a segmented edge). -/
def sumLen (segs : List Seg) : ℝ := (segs.map Seg.length).sum

/-- The pose produced by `EdgeSegment.to_global` at travel pose `q` for a local
pose with lateral offset `y` and direction `th`. -/
def applyAt (q : Pose) (y th : ℝ) : Pose :=
  mkPose (q.pos + y • (polar1 q.dir).ortho) (th + q.dir)

/-- The segment loop of `Edge.to_global` (offset bookkeeping, first-some
wins, `extend_before` only on the first segment, `extend_after` only on the
last, implicit `None` after the loop). -/
def segWalk : List Seg → Pose → ℝ → Bool → Option Pose
  | [], _, _, _ => none
  | [seg], o, off, isFirst => seg.toGlobal o off isFirst true
  | seg :: rest, o, off, isFirst =>
    match seg.toGlobal o off isFirst false with
    | some p => some p
    | none => segWalk rest o (off + seg.length) false

open Classical in
/-- `Edge.to_global` on a pose with the default `offset=0.0` and both extend
flags `True` (as called from `SceneryObject.global_pose`).  A segment-less
edge falls through the loop and returns `None` (the computed value on the
segment-less path is discarded by the source). -/
def edgeToGlobal (e : EdgeD) (o : Pose) : Option Pose :=
  if e.segments = [] then none
  else segWalk e.segments o 0 true

/-- `SceneryObject.global_pose`. -/
def globalPoseOf (g : RGraph) (oid : ℕ) : Option Pose := do
  let ob ← g.obj? oid
  match ob.relativeTo with
  | some eid => do
    let e ← g.edge? eid
    edgeToGlobal e ob.pose
  | none => pure ob.pose

theorem segWalk_one (seg : Seg) (o : Pose) (off : ℝ) (f : Bool) :
    segWalk [seg] o off f = seg.toGlobal o off f true := rfl

theorem segWalk_cons₂ (seg b : Seg) (t : List Seg) (o : Pose) (off : ℝ) (f : Bool) :
    segWalk (seg :: b :: t) o off f
      = match seg.toGlobal o off f false with
        | some p => some p
        | none => segWalk (b :: t) o (off + seg.length) false := rfl

theorem toGlobal_eval (seg : Seg) (o : Pose) (off : ℝ) (eb ea : Bool)
    (h0 : ¬ (o.pos.x - off < 0 ∧ eb = false))
    (h1 : ¬ (o.pos.x - off > seg.length ∧ ea = false)) :
    seg.toGlobal o off eb ea = some (applyAt (seg.travel (o.pos.x - off)) o.pos.y o.dir) := by
  unfold Seg.toGlobal applyAt
  rw [if_neg h0, if_neg h1]

theorem toGlobal_none_right (seg : Seg) (o : Pose) (off : ℝ) (eb : Bool)
    (h : o.pos.x - off > seg.length) :
    seg.toGlobal o off eb false = none := by
  unfold Seg.toGlobal
  by_cases h0 : o.pos.x - off < 0 ∧ eb = false
  · rw [if_pos h0]
  · rw [if_neg h0, if_pos ⟨h, rfl⟩]

theorem segWalk_shift (segs : List Seg) (o o' : Pose) (off Δ : ℝ) (f : Bool)
    (hx : o'.pos.x = o.pos.x + Δ) (hy : o'.pos.y = o.pos.y) (hd : o'.dir = o.dir) :
    segWalk segs o' (off + Δ) f = segWalk segs o off f := by
  induction segs generalizing off f with
  | nil => rfl
  | cons seg rest ih =>
    have harg : o'.pos.x - (off + Δ) = o.pos.x - off := by rw [hx]; ring
    cases rest with
    | nil =>
      rw [segWalk_one, segWalk_one]
      unfold Seg.toGlobal
      rw [harg, hy, hd]
    | cons b t =>
      rw [segWalk_cons₂, segWalk_cons₂]
      have : seg.toGlobal o' (off + Δ) f false = seg.toGlobal o off f false := by
        unfold Seg.toGlobal
        rw [harg, hy, hd]
      rw [this]
      rw [show off + Δ + seg.length = (off + seg.length) + Δ by ring]
      rw [ih (off + seg.length) false]

theorem segWalk_skip (segs1 segs2 : List Seg) (o : Pose) (off : ℝ) (f : Bool)
    (hne : segs2 ≠ [])
    (hlen : ∀ s ∈ segs1, 0 ≤ s.length)
    (hx : o.pos.x - off > sumLen segs1) :
    segWalk (segs1 ++ segs2) o off f = segWalk segs2 o (off + sumLen segs1) false := by
  induction segs1 generalizing off f with
  | nil =>
    simp only [List.nil_append, sumLen, List.map_nil, List.sum_nil, add_zero]
    cases segs2 with
    | nil => rfl
    | cons b t =>
      cases t with
      | nil =>
        rw [segWalk_one, segWalk_one]
        unfold Seg.toGlobal
        have hb : 0 ≤ o.pos.x - off := by
          have := hx
          simp only [sumLen, List.map_nil, List.sum_nil] at this
          linarith
        have h0 : ¬ (o.pos.x - off < 0 ∧ f = false) := fun h => absurd h.1 (by linarith)
        have h0' : ¬ (o.pos.x - off < 0 ∧ false = false) := fun h => absurd h.1 (by linarith)
        rw [if_neg h0, if_neg h0']
      | cons c u =>
        rw [segWalk_cons₂, segWalk_cons₂]
        have hb : 0 ≤ o.pos.x - off := by
          have := hx
          simp only [sumLen, List.map_nil, List.sum_nil] at this
          linarith
        have : b.toGlobal o off f false = b.toGlobal o off false false := by
          unfold Seg.toGlobal
          have h0 : ¬ (o.pos.x - off < 0 ∧ f = false) := fun h => absurd h.1 (by linarith)
          have h0' : ¬ (o.pos.x - off < 0 ∧ false = false) := fun h => absurd h.1 (by linarith)
          rw [if_neg h0, if_neg h0']
        rw [this]
  | cons seg rest ih =>
    have hsum : sumLen (seg :: rest) = seg.length + sumLen rest := by
      simp [sumLen]
    have hrest : ∀ s ∈ rest, 0 ≤ s.length := fun s hs => hlen s (List.mem_cons_of_mem _ hs)
    have hrsum : 0 ≤ sumLen rest := by
      simp only [sumLen]
      apply List.sum_nonneg
      intro l hl
      obtain ⟨s, hs, rfl⟩ := List.mem_map.mp hl
      exact hrest s hs
    have hxseg : o.pos.x - off > seg.length := by
      rw [hsum] at hx
      linarith
    have hne2 : rest ++ segs2 ≠ [] := by
      cases rest <;> simp_all
    obtain ⟨b, t, hbt⟩ : ∃ b t, rest ++ segs2 = b :: t := by
      cases hh : rest ++ segs2 with
      | nil => exact absurd hh hne2
      | cons b t => exact ⟨b, t, rfl⟩
    rw [List.cons_append, hbt, segWalk_cons₂,
      toGlobal_none_right seg o off f hxseg]
    have hx' : o.pos.x - (off + seg.length) > sumLen rest := by
      rw [hsum] at hx
      linarith
    rw [← hbt, ih (off + seg.length) false hrest hx', hsum,
      show off + (seg.length + sumLen rest) = off + seg.length + sumLen rest by ring]
theorem sumLen_cons (s : Seg) (t : List Seg) : sumLen (s :: t) = s.length + sumLen t := by
  simp [sumLen]

theorem sumLen_nonneg (segs : List Seg) (hlen : ∀ s ∈ segs, 0 ≤ s.length) :
    0 ≤ sumLen segs := by
  simp only [sumLen]
  apply List.sum_nonneg
  intro l hl
  obtain ⟨u, hu, rfl⟩ := List.mem_map.mp hl
  exact hlen u hu

theorem sumLen_pos (segs : List Seg) (hne : segs ≠ []) (hlen : ∀ s ∈ segs, 0 < s.length) :
    0 < sumLen segs := by
  cases segs with
  | nil => exact absurd rfl hne
  | cons s t =>
    have h1 : 0 < s.length := hlen s (List.mem_cons_self _ _)
    have h2 : 0 ≤ sumLen t :=
      sumLen_nonneg t (fun u hu => le_of_lt (hlen u (List.mem_cons_of_mem _ hu)))
    rw [sumLen_cons]
    linarith

theorem segWalk_head (s : Seg) (rest : List Seg) (o : Pose) (off : ℝ) (f : Bool)
    (h0 : 0 ≤ o.pos.x - off) (h1 : o.pos.x - off ≤ s.length) :
    segWalk (s :: rest) o off f
      = some (applyAt (s.travel (o.pos.x - off)) o.pos.y o.dir) := by
  cases rest with
  | nil =>
    rw [segWalk_one]
    exact toGlobal_eval s o off f true (fun h => absurd h.1 (by linarith))
      (fun h => absurd h.1 (by linarith))
  | cons b t =>
    rw [segWalk_cons₂,
      toGlobal_eval s o off f false (fun h => absurd h.1 (by linarith))
        (fun h => absurd h.1 (by linarith))]

theorem segWalk_flag (segs : List Seg) (o : Pose) (off : ℝ) (b1 b2 : Bool)
    (h0 : 0 ≤ o.pos.x - off) :
    segWalk segs o off b1 = segWalk segs o off b2 := by
  have heq : ∀ s ea, Seg.toGlobal s o off b1 ea = Seg.toGlobal s o off b2 ea := by
    intro s ea
    unfold Seg.toGlobal
    have hb1 : ¬ (o.pos.x - off < 0 ∧ b1 = false) := fun h => absurd h.1 (by linarith)
    have hb2 : ¬ (o.pos.x - off < 0 ∧ b2 = false) := fun h => absurd h.1 (by linarith)
    rw [if_neg hb1, if_neg hb2]
  cases segs with
  | nil => rfl
  | cons s rest =>
    cases rest with
    | nil => rw [segWalk_one, segWalk_one, heq]
    | cons b t => rw [segWalk_cons₂, segWalk_cons₂, heq]

theorem segWalk_append_right (segs1 segs2 : List Seg) (o : Pose) (off : ℝ) (f : Bool)
    (hne : segs1 ≠ [])
    (h0 : 0 ≤ o.pos.x - off)
    (hx : o.pos.x - off < sumLen segs1) :
    segWalk (segs1 ++ segs2) o off f = segWalk segs1 o off f := by
  induction segs1 generalizing off f with
  | nil => exact absurd rfl hne
  | cons s rest ih =>
    cases rest with
    | nil =>
      have hxs : o.pos.x - off < s.length := by
        rw [sumLen_cons] at hx
        simp only [sumLen, List.map_nil, List.sum_nil] at hx
        linarith
      cases segs2 with
      | nil => rfl
      | cons c u =>
        rw [List.cons_append, List.nil_append, segWalk_cons₂, segWalk_one,
          toGlobal_eval s o off f false (fun h => absurd h.1 (by linarith))
            (fun h => absurd h.1 (by linarith)),
          toGlobal_eval s o off f true (fun h => absurd h.1 (by linarith))
            (fun h => absurd h.1 (by linarith))]
    | cons b t =>
      rw [List.cons_append, List.cons_append, segWalk_cons₂, segWalk_cons₂]
      by_cases hxs : o.pos.x - off ≤ s.length
      · rw [toGlobal_eval s o off f false (fun h => absurd h.1 (by linarith))
          (fun h => absurd h.1 (by linarith))]
      · push_neg at hxs
        rw [toGlobal_none_right s o off f hxs]
        simp only
        rw [← List.cons_append]
        rw [ih (off + s.length) false (by simp) (by linarith)
            (by rw [sumLen_cons] at hx; linarith)]

theorem segWalk_at_end (segs1 segs2 : List Seg) (o : Pose) (off : ℝ) (f : Bool)
    (hne1 : segs1 ≠ []) (hne2 : segs2 ≠ [])
    (hlen : ∀ s ∈ segs1, 0 < s.length)
    (hx : o.pos.x - off = sumLen segs1) :
    segWalk (segs1 ++ segs2) o off f
      = some (applyAt ((segs1.getLast hne1).travel ((segs1.getLast hne1).length))
          o.pos.y o.dir) := by
  induction segs1 generalizing off f with
  | nil => exact absurd rfl hne1
  | cons s rest ih =>
    cases rest with
    | nil =>
      have hxs : o.pos.x - off = s.length := by
        rw [sumLen_cons] at hx
        simp only [sumLen, List.map_nil, List.sum_nil] at hx
        linarith
      have hpos : 0 < s.length := hlen s (List.mem_cons_self _ _)
      obtain ⟨c, u, hcu⟩ : ∃ c u, segs2 = c :: u := by
        cases hh : segs2 with
        | nil => exact absurd hh hne2
        | cons c u => exact ⟨c, u, rfl⟩
      rw [List.cons_append, List.nil_append, hcu, segWalk_cons₂,
        toGlobal_eval s o off f false (fun h => absurd h.1 (by linarith))
          (fun h => absurd h.1 (by linarith)), hxs]
      simp [List.getLast]
    | cons b t =>
      have hrne : (b :: t : List Seg) ≠ [] := by simp
      have hslen : 0 < s.length := hlen s (List.mem_cons_self _ _)
      have hrpos : 0 < sumLen (b :: t) :=
        sumLen_pos _ hrne (fun u hu => hlen u (List.mem_cons_of_mem _ hu))
      have hxs : o.pos.x - off > s.length := by
        rw [sumLen_cons] at hx
        linarith
      rw [List.cons_append, List.cons_append, segWalk_cons₂, toGlobal_none_right s o off f hxs]
      simp only
      have hres := ih (off + s.length) false hrne
        (fun u hu => hlen u (List.mem_cons_of_mem _ hu))
        (by rw [sumLen_cons] at hx; linarith)
      rw [← List.cons_append, hres]
      have hlast : (s :: b :: t).getLast hne1 = (b :: t).getLast hrne :=
        List.getLast_cons hrne
      rw [hlast]
theorem sumLen_append (l1 l2 : List Seg) : sumLen (l1 ++ l2) = sumLen l1 + sumLen l2 := by
  simp [sumLen]

theorem applyAt_congr (q : Pose) (y1 y2 th1 th2 : ℝ) (hy : y1 = y2) (hth : th1 = th2) :
    applyAt q y1 th1 = applyAt q y2 th2 := by rw [hy, hth]

theorem merged_walk (segs1 segs2 : List Seg) (o o' : Pose)
    (hne1 : segs1 ≠ []) (hne2 : segs2 ≠ [])
    (hlen1 : ∀ s ∈ segs1, 0 < s.length)
    (hlen2 : ∀ s ∈ segs2, 0 < s.length)
    (hJ : (segs1.getLast hne1).travel ((segs1.getLast hne1).length)
        = (segs2.head hne2).travel 0)
    (hx : 0 ≤ o.pos.x)
    (hox : o'.pos.x = o.pos.x + sumLen segs1) (hoy : o'.pos.y = o.pos.y)
    (hod : o'.dir = o.dir) :
    segWalk (segs1 ++ segs2) o' 0 true = segWalk segs2 o 0 true := by
  rcases eq_or_lt_of_le hx with h0 | h0
  · have hx' : o'.pos.x - 0 = sumLen segs1 := by rw [hox, ← h0]; ring
    rw [segWalk_at_end segs1 segs2 o' 0 true hne1 hne2 hlen1 hx']
    obtain ⟨c, u, rfl⟩ : ∃ c u, segs2 = c :: u := by
      cases hh : segs2 with
      | nil => exact absurd hh hne2
      | cons c u => exact ⟨c, u, rfl⟩
    have hc : 0 < c.length := hlen2 c (List.mem_cons_self _ _)
    rw [segWalk_head c u o 0 true (by linarith) (by simp only [sub_zero, ← h0]; linarith)]
    simp only [List.head_cons] at hJ
    rw [show o.pos.x - 0 = 0 by rw [← h0]; ring, ← hJ, hoy, hod]
  · have hgt : o'.pos.x - 0 > sumLen segs1 := by rw [hox]; linarith
    rw [segWalk_skip segs1 segs2 o' 0 true hne2 (fun s hs => le_of_lt (hlen1 s hs)) hgt,
      segWalk_shift segs2 o o' 0 (sumLen segs1) false hox hoy hod]
    exact segWalk_flag segs2 o 0 false true (by simp only [sub_zero]; linarith)

theorem applyAt_reverse (q : Pose) (y th : ℝ) :
    applyAt q.reverse (-y) (angNorm (th + π)) = applyAt q y th := by
  unfold Pose.reverse
  rw [show mkPose q.pos (q.dir + π) = (⟨q.pos, angNorm (q.dir + π)⟩ : Pose) from rfl]
  unfold applyAt
  simp only
  refine mkPose_eq_of ?_ ?_
  · rw [show polar1 (angNorm (q.dir + π)) = polar (q.dir + π) 1 from polar_angNorm _ 1]
    refine Vec.ext2 _ _ ?_ ?_ <;>
      simp only [polar1, polar, Vec.ortho, Vec.add_def, Vec.smul_def,
        Real.cos_add_pi, Real.sin_add_pi] <;>
      ring
  · exact angEqv_trans (angEqv_add (angNorm_angEqv _) (angNorm_angEqv _))
      ⟨1, by push_cast; ring⟩

theorem segWalk_flip (segs : List Seg) (hne : segs ≠ [])
    (hlen : ∀ s ∈ segs, 0 < s.length)
    (hcont : List.Chain' (fun a b => a.travel a.length = b.travel 0) segs)
    (x y th : ℝ) (hx0 : 0 ≤ x) (hxL : x ≤ sumLen segs) (b1 b2 : Bool) :
    segWalk ((segs.map Seg.flip).reverse)
        ⟨⟨sumLen segs - x, -y⟩, angNorm (th + π)⟩ 0 b1
      = segWalk segs ⟨⟨x, y⟩, th⟩ 0 b2 := by
  induction segs using List.reverseRecOn generalizing b1 b2 with
  | nil => exact absurd rfl hne
  | append_singleton ss b ih =>
    rw [show ((ss ++ [b]).map Seg.flip).reverse = b.flip :: (ss.map Seg.flip).reverse by
      simp]
    have hLsum : sumLen (ss ++ [b]) = sumLen ss + b.length := by
      rw [sumLen_append, sumLen_cons]
      simp [sumLen]
    have hbpos : 0 < b.length := hlen b (by simp)
    have hsslen : ∀ s ∈ ss, 0 < s.length := fun s hs => hlen s (by simp [hs])
    rcases lt_trichotomy x (sumLen ss) with hlt | heq | hgt
    · -- the local position lies strictly inside `ss`
      have hssne : ss ≠ [] := by
        intro hnil
        rw [hnil] at hlt
        simp only [sumLen, List.map_nil, List.sum_nil] at hlt
        linarith
      have hfail : (⟨⟨sumLen (ss ++ [b]) - x, -y⟩, angNorm (th + π)⟩ : Pose).pos.x - 0
          > b.flip.length := by
        simp only [flip_length, sub_zero]
        rw [hLsum]
        linarith
      obtain ⟨c, u, hcu⟩ : ∃ c u, (ss.map Seg.flip).reverse = c :: u := by
        cases hh : (ss.map Seg.flip).reverse with
        | nil =>
          exfalso
          have hlen0 := congrArg List.length hh
          simp at hlen0
          exact hssne hlen0
        | cons c u => exact ⟨c, u, rfl⟩
      rw [hcu, segWalk_cons₂, toGlobal_none_right _ _ _ _ hfail]
      simp only
      rw [← hcu]
      have hshift : segWalk ((ss.map Seg.flip).reverse)
          (⟨⟨sumLen (ss ++ [b]) - x, -y⟩, angNorm (th + π)⟩ : Pose) (0 + b.flip.length) false
          = segWalk ((ss.map Seg.flip).reverse)
            (⟨⟨sumLen ss - x, -y⟩, angNorm (th + π)⟩ : Pose) 0 false := by
        refine segWalk_shift _ _ _ 0 (b.flip.length) false ?_ rfl rfl
        simp only [flip_length]
        rw [hLsum]
        ring
      rw [hshift]
      have horig : segWalk (ss ++ [b]) (⟨⟨x, y⟩, th⟩ : Pose) 0 b2
          = segWalk ss (⟨⟨x, y⟩, th⟩ : Pose) 0 b2 :=
        segWalk_append_right ss [b] _ 0 b2 hssne (by simpa using hx0) (by simpa using hlt)
      rw [horig]
      exact ih hssne hsslen hcont.left_of_append (le_of_lt hlt) false b2
    · -- the local position is exactly the junction between `ss` and `b`
      rcases eq_or_ne ss [] with rfl | hssne
      · simp only [sumLen, List.map_nil, List.sum_nil] at heq
        subst heq
        simp only [List.map_nil, List.reverse_nil, List.nil_append]
        have hsum1 : sumLen [b] = b.length := by simp [sumLen]
        rw [segWalk_one, segWalk_one]
        have h1 : (⟨⟨sumLen [b] - 0, -y⟩, angNorm (th + π)⟩ : Pose).pos.x - 0
            = b.length - 0 := by
          simp only [sub_zero]
          rw [hsum1]
        rw [toGlobal_eval _ _ _ b1 true
            (by rw [h1]; exact fun h => absurd h.1 (by linarith))
            (fun h => absurd h.2 (by simp)),
          toGlobal_eval _ _ _ b2 true
            (fun h => absurd h.1 (by simp))
            (fun h => absurd h.2 (by simp)),
          h1]
        rw [show (b.flip).travel (b.length - 0) = (b.travel 0).reverse from flip_travel b 0,
          show (0 : ℝ) - 0 = (0 : ℝ) by ring]
        exact congrArg some (applyAt_reverse (b.travel 0) y th)
      · have hpassx : (⟨⟨sumLen (ss ++ [b]) - x, -y⟩, angNorm (th + π)⟩ : Pose).pos.x - 0
            = b.length - 0 := by
          simp only [sub_zero]
          rw [hLsum, heq]
          ring
        rw [segWalk_head _ _ _ 0 b1 (by rw [hpassx]; linarith)
            (by rw [hpassx, flip_length]; linarith)]
        rw [segWalk_at_end ss [b] _ 0 b2 hssne (by simp) hsslen
            (by simpa using heq)]
        rw [hpassx, show (b.flip).travel (b.length - 0) = (b.travel 0).reverse from
          flip_travel b 0]
        have hJ : (ss.getLast hssne).travel ((ss.getLast hssne)).length = b.travel 0 := by
          have hch := (List.chain'_append.mp hcont).2.2
          refine hch (ss.getLast hssne) ?_ b ?_
          · rw [List.getLast?_eq_getLast _ hssne]
            rfl
          · rfl
        rw [← hJ]
        exact congrArg some (applyAt_reverse _ y th)
    · -- the local position lies inside `b`
      rw [segWalk_head _ _ _ 0 b1
          (by simp only [sub_zero]; linarith)
          (by simp only [sub_zero, flip_length]; rw [hLsum]; linarith)]
      have hskip : segWalk (ss ++ [b]) (⟨⟨x, y⟩, th⟩ : Pose) 0 b2
          = segWalk [b] (⟨⟨x, y⟩, th⟩ : Pose) (0 + sumLen ss) false := by
        refine segWalk_skip ss [b] _ 0 b2 (by simp)
          (fun s hs => le_of_lt (hsslen s hs)) (by simpa using hgt)
      rw [hskip, segWalk_one,
        toGlobal_eval _ _ _ false true
          (fun h => absurd h.1 (by simp only [zero_add]; linarith))
          (fun h => absurd h.2 (by simp))]
      have harg : (⟨⟨sumLen (ss ++ [b]) - x, -y⟩, angNorm (th + π)⟩ : Pose).pos.x - 0
          = b.length - (x - sumLen ss) := by
        simp only [sub_zero]
        rw [hLsum]
        ring
      rw [harg, flip_travel b (x - sumLen ss)]
      have harg2 : (⟨⟨x, y⟩, th⟩ : Pose).pos.x - (0 + sumLen ss) = x - sumLen ss := by
        simp only [zero_add]
      rw [harg2]
      exact congrArg some (applyAt_reverse _ y th)
theorem lookup_cons_self {α : Type} (k : ℕ) (w : α) (l : List (ℕ × α)) :
    (((k, w) :: l).lookup k) = some w := by
  simp [List.lookup]

theorem lookup_cons_ne {α : Type} (k j : ℕ) (w : α) (l : List (ℕ × α)) (h : j ≠ k) :
    (((k, w) :: l).lookup j) = l.lookup j := by
  have hb : (j == k) = false := by simpa using h
  simp [List.lookup, hb]

theorem lookup_replace_self {α : Type} (l : List (ℕ × α)) (i : ℕ) (v : α)
    (h : (l.lookup i).isSome) :
    ((l.map fun p => if p.1 = i then (i, v) else p).lookup i) = some v := by
  induction l with
  | nil => simp [List.lookup] at h
  | cons hd tl ih =>
    obtain ⟨k, w⟩ := hd
    by_cases hk : k = i
    · subst hk
      simp only [List.map_cons, if_pos rfl]
      exact lookup_cons_self k v _
    · have hik : i ≠ k := fun hh => hk hh.symm
      simp only [List.map_cons, if_neg hk]
      rw [lookup_cons_ne _ _ _ _ hik]
      rw [lookup_cons_ne _ _ _ _ hik] at h
      exact ih h

theorem lookup_replace_other {α : Type} (l : List (ℕ × α)) (i : ℕ) (v : α) (j : ℕ)
    (h : j ≠ i) :
    ((l.map fun p => if p.1 = i then (i, v) else p).lookup j) = l.lookup j := by
  induction l with
  | nil => rfl
  | cons hd tl ih =>
    obtain ⟨k, w⟩ := hd
    by_cases hk : k = i
    · simp only [List.map_cons, if_pos hk]
      rw [lookup_cons_ne _ _ _ _ h, lookup_cons_ne _ _ _ _ (hk ▸ h)]
      exact ih
    · simp only [List.map_cons, if_neg hk]
      by_cases hjk : j = k
      · subst hjk
        rw [lookup_cons_self, lookup_cons_self]
      · rw [lookup_cons_ne _ _ _ _ hjk, lookup_cons_ne _ _ _ _ hjk]
        exact ih

theorem lookup_eraseP_other {α : Type} (l : List (ℕ × α)) (i j : ℕ) (h : j ≠ i) :
    ((l.eraseP fun p => decide (p.1 = i)).lookup j) = l.lookup j := by
  induction l with
  | nil => rfl
  | cons hd tl ih =>
    obtain ⟨k, w⟩ := hd
    by_cases hk : k = i
    · rw [List.eraseP_cons_of_pos (by simpa using hk)]
      rw [lookup_cons_ne _ _ _ _ (hk ▸ h)]
    · rw [List.eraseP_cons_of_neg (by simpa using hk)]
      by_cases hjk : j = k
      · subst hjk
        rw [lookup_cons_self, lookup_cons_self]
      · rw [lookup_cons_ne _ _ _ _ hjk, lookup_cons_ne _ _ _ _ hjk]
        exact ih

theorem node?_setEdge (g : RGraph) (i : ℕ) (e : EdgeD) (j : ℕ) :
    (g.setEdge i e).node? j = g.node? j := rfl

theorem node?_setObj (g : RGraph) (i : ℕ) (ob : SceneryD) (j : ℕ) :
    (g.setObj i ob).node? j = g.node? j := rfl

theorem obj?_setEdge (g : RGraph) (i : ℕ) (e : EdgeD) (j : ℕ) :
    (g.setEdge i e).obj? j = g.obj? j := rfl

theorem obj?_setNode (g : RGraph) (i : ℕ) (nd : NodeD) (j : ℕ) :
    (g.setNode i nd).obj? j = g.obj? j := rfl

theorem edge?_setNode (g : RGraph) (i : ℕ) (nd : NodeD) (j : ℕ) :
    (g.setNode i nd).edge? j = g.edge? j := rfl

theorem edge?_setObj (g : RGraph) (i : ℕ) (ob : SceneryD) (j : ℕ) :
    (g.setObj i ob).edge? j = g.edge? j := rfl

theorem node?_setNode_self (g : RGraph) (i : ℕ) (nd : NodeD)
    (h : (g.node? i).isSome) : (g.setNode i nd).node? i = some nd :=
  lookup_replace_self g.nodes i nd h

theorem node?_setNode_other (g : RGraph) (i : ℕ) (nd : NodeD) (j : ℕ) (h : j ≠ i) :
    (g.setNode i nd).node? j = g.node? j :=
  lookup_replace_other g.nodes i nd j h

theorem edge?_setEdge_self (g : RGraph) (i : ℕ) (e : EdgeD)
    (h : (g.edge? i).isSome) : (g.setEdge i e).edge? i = some e :=
  lookup_replace_self g.edges i e h

theorem edge?_setEdge_other (g : RGraph) (i : ℕ) (e : EdgeD) (j : ℕ) (h : j ≠ i) :
    (g.setEdge i e).edge? j = g.edge? j :=
  lookup_replace_other g.edges i e j h

theorem obj?_setObj_self (g : RGraph) (i : ℕ) (ob : SceneryD)
    (h : (g.obj? i).isSome) : (g.setObj i ob).obj? i = some ob :=
  lookup_replace_self g.scenery i ob h

theorem obj?_setObj_other (g : RGraph) (i : ℕ) (ob : SceneryD) (j : ℕ) (h : j ≠ i) :
    (g.setObj i ob).obj? j = g.obj? j :=
  lookup_replace_other g.scenery i ob j h

theorem obj?_setObj_isSome (g : RGraph) (i : ℕ) (ob : SceneryD) (j : ℕ)
    (h : (g.obj? j).isSome) : ((g.setObj i ob).obj? j).isSome := by
  by_cases hji : j = i
  · subst hji
    rw [obj?_setObj_self g j ob h]
    rfl
  · rw [obj?_setObj_other g i ob j hji]
    exact h
/-- The scenery transfer loop of `Graph.contract_edges`: for each object on
the absorbed edge `e2` (in list order), if it is relative to `e2`, re-parent
it to `e1` and shift its local `x` by `e1.length()` (read at that moment);
either way append it to `e1`'s scenery list. -/
def transferScenery (g : RGraph) (e1id e2id : ℕ) : List ℕ → Option RGraph
  | [] => pure g
  | oid :: rest => do
    let ob ← g.obj? oid
    let g ← (if ob.relativeTo = some e2id then do
        let e1 ← g.edge? e1id
        let L1 ← edgeLength g e1
        pure (g.setObj oid { ob with
          pose := ⟨⟨ob.pose.pos.x + L1, ob.pose.pos.y⟩, ob.pose.dir⟩,
          relativeTo := some e1id })
      else pure g)
    let e1 ← g.edge? e1id
    let g := g.setEdge e1id { e1 with scenery := e1.scenery ++ [oid] }
    transferScenery g e1id e2id rest

/-- `Graph.remove_edge`. -/
def removeEdge (g : RGraph) (eid : ℕ) : Option RGraph := do
  let g ← setSource g eid none
  let g ← setTarget g eid none
  pure { g with edges := g.edges.eraseP (fun p => decide (p.1 = eid)) }

/-- The merge part of one `contract_edges` loop body, after the flips: the
asserts (`none` on failure), `e1.set_target(e2.target())`, the scenery
transfer, clearing `e2`'s scenery, extending `e1`'s segments, removing `e2`
and removing the node. -/
def mergeStep (g : RGraph) (nid : ℕ) : Option RGraph := do
  let nd ← g.node? nid
  match nd.incoming, nd.outgoing with
  | [e1id], [e2id] => do
    let e2 ← g.edge? e2id
    let g ← setTarget g e1id e2.tgt
    let e2a ← g.edge? e2id
    let g ← transferScenery g e1id e2id e2a.scenery
    let e2b ← g.edge? e2id
    let g := g.setEdge e2id { e2b with scenery := [] }
    let e1b ← g.edge? e1id
    let e2c ← g.edge? e2id
    let g := g.setEdge e1id { e1b with segments := e1b.segments ++ e2c.segments }
    let g ← removeEdge g e2id
    pure { g with nodes := g.nodes.eraseP (fun p => decide (p.1 = nid)) }
  | _, _ => none

/-- One iteration of the `contract_edges` loop for the node `nid`: skip
(returning the graph unchanged) unless the degree is 2, skip self-loops, flip
`incoming[1]` when there are two incoming edges, re-read the node, flip
`outgoing[1]` when there are two outgoing edges, then merge. -/
def contractStep (g : RGraph) (nid : ℕ) : Option RGraph := do
  let nd ← g.node? nid
  if nodeDegree nd = 2 then
    match nd.incoming ++ nd.outgoing with
    | [a, b] =>
      if a = b then pure g
      else do
        let g ← match nd.incoming with
          | [_, b2] => edgeFlip g b2
          | _ => pure g
        let nd2 ← g.node? nid
        let g ← match nd2.outgoing with
          | [_, b2] => edgeFlip g b2
          | _ => pure g
        mergeStep g nid
    | _ => none
  else pure g

/-- `Graph.contract_edges`: the loop body over a snapshot of the node list.
The returned `removed` dictionary is not modelled. -/
def contractEdges (g : RGraph) : Option RGraph :=
  (g.nodes.map Prod.fst).foldlM contractStep g
theorem edgeLength_of_ne_nil (g : RGraph) (e : EdgeD) (h : e.segments ≠ []) :
    edgeLength g e = some (sumLen e.segments) := by
  unfold edgeLength
  cases hm : e.segments with
  | nil => exact absurd hm h
  | cons s t => rfl

theorem transferScenery_spec (e1id e2id oid : ℕ) (he12 : e1id ≠ e2id) (ob : SceneryD)
    (hrel : ob.relativeTo = some e2id) :
    ∀ (list : List ℕ) (g : RGraph) (e1v : EdgeD),
    (∀ o ∈ list, (g.obj? o).isSome) →
    g.edge? e1id = some e1v → e1v.segments ≠ [] →
    (g.obj? oid = some ob ∧ oid ∈ list ∨
     g.obj? oid = some ⟨⟨⟨ob.pose.pos.x + sumLen e1v.segments, ob.pose.pos.y⟩,
       ob.pose.dir⟩, some e1id⟩) →
    ∃ g', transferScenery g e1id e2id list = some g' ∧
      g'.nodes = g.nodes ∧
      g'.edge? e1id = some { e1v with scenery := e1v.scenery ++ list } ∧
      (∀ j, j ≠ e1id → g'.edge? j = g.edge? j) ∧
      g'.obj? oid = some ⟨⟨⟨ob.pose.pos.x + sumLen e1v.segments, ob.pose.pos.y⟩,
        ob.pose.dir⟩, some e1id⟩ := by
  intro list
  induction list with
  | nil =>
    intro g e1v hobjs he1 hne hdisj
    refine ⟨g, rfl, rfl, ?_, fun j _ => rfl, ?_⟩
    · rw [he1, List.append_nil]
    · rcases hdisj with ⟨_, hmem⟩ | hdone
      · exact absurd hmem (List.not_mem_nil oid)
      · exact hdone
  | cons o rest ih =>
    intro g e1v hobjs he1 hne hdisj
    have hobjo : (g.obj? o).isSome := hobjs o (List.mem_cons_self o rest)
    obtain ⟨obO, hobO⟩ := Option.isSome_iff_exists.mp hobjo
    by_cases hguard : obO.relativeTo = some e2id
    · -- the object `o` is re-parented and shifted
      have hlen : edgeLength g e1v = some (sumLen e1v.segments) :=
        edgeLength_of_ne_nil g e1v hne
      set obO' : SceneryD :=
        { obO with pose := ⟨⟨obO.pose.pos.x + sumLen e1v.segments, obO.pose.pos.y⟩,
            obO.pose.dir⟩, relativeTo := some e1id } with hobO'def
      set g1 := g.setObj o obO' with hg1
      have hg1e1 : g1.edge? e1id = some e1v := he1
      set e1v' : EdgeD := { e1v with scenery := e1v.scenery ++ [o] } with he1v'
      set g2 := g1.setEdge e1id e1v' with hg2
      have hstep : transferScenery g e1id e2id (o :: rest)
          = transferScenery g2 e1id e2id rest := by
        simp only [transferScenery, hobO, Option.pure_def, Option.bind_eq_bind,
          Option.some_bind, if_pos hguard, he1, hlen, edge?_setObj]
      have hobjs2 : ∀ p ∈ rest, (g2.obj? p).isSome := by
        intro p hp
        have h1 : ((g.setObj o obO').obj? p).isSome :=
          obj?_setObj_isSome g o obO' p (hobjs p (List.mem_cons_of_mem o hp))
        exact h1
      have hg2e1 : g2.edge? e1id = some e1v' := by
        rw [hg2]
        exact edge?_setEdge_self g1 e1id e1v' (by rw [hg1e1]; rfl)
      have hne' : e1v'.segments ≠ [] := hne
      have hdisj2 : g2.obj? oid = some ob ∧ oid ∈ rest ∨
          g2.obj? oid = some ⟨⟨⟨ob.pose.pos.x + sumLen e1v'.segments, ob.pose.pos.y⟩,
            ob.pose.dir⟩, some e1id⟩ := by
        by_cases hooid : o = oid
        · subst hooid
          rcases hdisj with ⟨hob, _⟩ | hdone
        -- `o = oid` still untransformed: this iteration performs the transfer
          · right
            have : obO = ob := by
              rw [hobO] at hob
              exact Option.some_injective _ hob
            subst this
            rw [hg2, obj?_setEdge, hg1]
            rw [obj?_setObj_self g o obO' hobjo]
        -- `o = oid` already transformed: guard would contradict `e1id ≠ e2id`
          · exfalso
            rw [hdone] at hobO
            have : obO.relativeTo = some e1id := by
              rw [← Option.some_injective _ hobO]
            rw [this] at hguard
            exact he12 (Option.some_injective _ hguard)
        · have hpres : g2.obj? oid = g.obj? oid := by
            rw [hg2, obj?_setEdge, hg1,
              obj?_setObj_other g o obO' oid (fun hh => hooid hh.symm)]
          rcases hdisj with ⟨hob, hmem⟩ | hdone
          · left
            refine ⟨by rw [hpres]; exact hob, ?_⟩
            rcases List.mem_cons.mp hmem with h | h
            · exact absurd h.symm hooid
            · exact h
          · right
            rw [hpres]
            exact hdone
      obtain ⟨g', hrun, hnodes, he1fin, hothers, hoid⟩ :=
        ih g2 e1v' hobjs2 hg2e1 hne' hdisj2
      refine ⟨g', by rw [hstep]; exact hrun, ?_, ?_, ?_, ?_⟩
      · simp only [hnodes, hg2]
        rfl
      · rw [he1fin, he1v']
        simp [List.append_assoc]
      · intro j hj
        rw [hothers j hj, hg2, edge?_setEdge_other g1 e1id e1v' j hj, hg1, edge?_setObj]
      · rw [hoid]
    · -- the object `o` is only appended to `e1`'s scenery list
      set e1v' : EdgeD := { e1v with scenery := e1v.scenery ++ [o] } with he1v'
      set g2 := g.setEdge e1id e1v' with hg2
      have hstep : transferScenery g e1id e2id (o :: rest)
          = transferScenery g2 e1id e2id rest := by
        simp only [transferScenery, hobO, Option.pure_def, Option.bind_eq_bind,
          Option.some_bind, if_neg hguard, he1]
      have hobjs2 : ∀ p ∈ rest, (g2.obj? p).isSome := by
        intro p hp
        have : g2.obj? p = g.obj? p := by rw [hg2]; rfl
        rw [this]
        exact hobjs p (List.mem_cons_of_mem o hp)
      have hg2e1 : g2.edge? e1id = some e1v' := by
        rw [hg2]
        exact edge?_setEdge_self g e1id e1v' (by rw [he1]; rfl)
      have hne' : e1v'.segments ≠ [] := hne
      have hdisj2 : g2.obj? oid = some ob ∧ oid ∈ rest ∨
          g2.obj? oid = some ⟨⟨⟨ob.pose.pos.x + sumLen e1v'.segments, ob.pose.pos.y⟩,
            ob.pose.dir⟩, some e1id⟩ := by
        have hpres : g2.obj? oid = g.obj? oid := by rw [hg2]; rfl
        rcases hdisj with ⟨hob, hmem⟩ | hdone
        · have hooid : o ≠ oid := by
            intro hh
            subst hh
            rw [hobO] at hob
            have : obO = ob := Option.some_injective _ hob
            rw [this] at hguard
            exact hguard hrel
          left
          refine ⟨by rw [hpres]; exact hob, ?_⟩
          rcases List.mem_cons.mp hmem with h | h
          · exact absurd h.symm hooid
          · exact h
        · right
          rw [hpres]
          exact hdone
      obtain ⟨g', hrun, hnodes, he1fin, hothers, hoid⟩ :=
        ih g2 e1v' hobjs2 hg2e1 hne' hdisj2
      refine ⟨g', by rw [hstep]; exact hrun, ?_, ?_, ?_, ?_⟩
      · simp only [hnodes, hg2]
        rfl
      · rw [he1fin, he1v']
        simp [List.append_assoc]
      · intro j hj
        rw [hothers j hj, hg2, edge?_setEdge_other g e1id e1v' j hj]
      · rw [hoid]
theorem setTargetA_spec (g : RGraph) (nid e1id tc : ℕ) (nd tnd : NodeD) (e1 : EdgeD)
    (hnd : g.node? nid = some nd) (hin : nd.incoming = [e1id])
    (he1 : g.edge? e1id = some e1) (he1tgt : e1.tgt = some nid)
    (htc : tc ≠ nid) (htnd : g.node? tc = some tnd) :
    setTarget g e1id (some tc)
      = some (((g.setNode nid { nd with incoming := [] }).setNode tc
          { tnd with incoming := tnd.incoming ++ [e1id] }).setEdge e1id
            { e1 with tgt := some tc }) := by
  have hcondR : ¬ ((some tc : Option ℕ) = some nid) :=
    fun hh => htc (Option.some_injective _ hh)
  have hRI : nodeRemoveIncoming g nid e1id
      = some (g.setNode nid { nd with incoming := [] }) := by
    simp only [nodeRemoveIncoming, hnd, Option.pure_def, Option.bind_eq_bind,
      Option.some_bind, hin]
    rw [if_pos (List.mem_cons_self e1id [])]
    rw [List.erase_cons_head]
  have hAI : nodeAppendIncoming (g.setNode nid { nd with incoming := [] }) tc e1id
      = some ((g.setNode nid { nd with incoming := [] }).setNode tc
          { tnd with incoming := tnd.incoming ++ [e1id] }) := by
    have htcA : (g.setNode nid { nd with incoming := [] }).node? tc = some tnd := by
      rw [node?_setNode_other g nid _ tc htc]
      exact htnd
    simp only [nodeAppendIncoming, htcA, Option.pure_def, Option.bind_eq_bind,
      Option.some_bind]
  simp only [setTarget, he1, Option.pure_def, Option.bind_eq_bind, Option.some_bind,
    he1tgt, if_neg hcondR, hRI, hAI]

theorem removeEdgeA_spec (h : RGraph) (nid e2id tc : ℕ) (ndF tndF : NodeD) (e2F : EdgeD)
    (hnd : h.node? nid = some ndF) (hout : ndF.outgoing = [e2id])
    (he2 : h.edge? e2id = some e2F) (he2src : e2F.src = some nid)
    (he2tgt : e2F.tgt = some tc) (htc : tc ≠ nid)
    (htnd : h.node? tc = some tndF) (hmem : e2id ∈ tndF.incoming) :
    ∃ g', removeEdge h e2id = some g' ∧ g'.scenery = h.scenery ∧
      (∀ j, j ≠ e2id → g'.edge? j = h.edge? j) := by
  have hnone1 : ¬ ((none : Option ℕ) = some nid) := fun hh => Option.noConfusion hh
  have hnone2 : ¬ ((none : Option ℕ) = some tc) := fun hh => Option.noConfusion hh
  have hRO : nodeRemoveOutgoing h nid e2id
      = some (h.setNode nid { ndF with outgoing := [] }) := by
    simp only [nodeRemoveOutgoing, hnd, Option.pure_def, Option.bind_eq_bind,
      Option.some_bind, hout]
    rw [if_pos (List.mem_cons_self e2id [])]
    rw [List.erase_cons_head]
  have hSS : setSource h e2id none
      = some ((h.setNode nid { ndF with outgoing := [] }).setEdge e2id
          ⟨none, some tc, e2F.segments, e2F.scenery⟩) := by
    simp only [setSource, he2, Option.pure_def, Option.bind_eq_bind, Option.some_bind,
      he2src, he2tgt, if_neg hnone1, hRO]
  have hgHe2 : ((h.setNode nid { ndF with outgoing := [] }).setEdge e2id
      ⟨none, some tc, e2F.segments, e2F.scenery⟩).edge? e2id
      = some ⟨none, some tc, e2F.segments, e2F.scenery⟩ :=
    edge?_setEdge_self _ e2id _ (by rw [edge?_setNode, he2]; rfl)
  have hgHtc : ((h.setNode nid { ndF with outgoing := [] }).setEdge e2id
      ⟨none, some tc, e2F.segments, e2F.scenery⟩).node? tc = some tndF := by
    rw [node?_setEdge, node?_setNode_other h nid _ tc htc]
    exact htnd
  have hRInc : nodeRemoveIncoming ((h.setNode nid { ndF with outgoing := [] }).setEdge
      e2id ⟨none, some tc, e2F.segments, e2F.scenery⟩) tc e2id
      = some (((h.setNode nid { ndF with outgoing := [] }).setEdge e2id
          ⟨none, some tc, e2F.segments, e2F.scenery⟩).setNode tc
            { tndF with incoming := tndF.incoming.erase e2id }) := by
    simp only [nodeRemoveIncoming, hgHtc, Option.pure_def, Option.bind_eq_bind,
      Option.some_bind]
    rw [if_pos hmem]
  have hST2 : setTarget ((h.setNode nid { ndF with outgoing := [] }).setEdge e2id
      ⟨none, some tc, e2F.segments, e2F.scenery⟩) e2id none
      = some (((((h.setNode nid { ndF with outgoing := [] }).setEdge e2id
          ⟨none, some tc, e2F.segments, e2F.scenery⟩).setNode tc
            { tndF with incoming := tndF.incoming.erase e2id })).setEdge e2id
              ⟨none, none, e2F.segments, e2F.scenery⟩) := by
    simp only [setTarget, hgHe2, Option.pure_def, Option.bind_eq_bind, Option.some_bind,
      if_neg hnone2, hRInc]
  set gJ := (((h.setNode nid { ndF with outgoing := [] }).setEdge e2id
      ⟨none, some tc, e2F.segments, e2F.scenery⟩).setNode tc
        { tndF with incoming := tndF.incoming.erase e2id }).setEdge e2id
          ⟨none, none, e2F.segments, e2F.scenery⟩ with hgJ
  refine ⟨{ gJ with edges := gJ.edges.eraseP (fun p => decide (p.1 = e2id)) }, ?_, ?_, ?_⟩
  · simp only [removeEdge, hSS, Option.pure_def, Option.bind_eq_bind, Option.some_bind,
      hST2]
  · rfl
  · intro j hj
    show ((((((h.setNode nid { ndF with outgoing := [] }).setEdge e2id
        ⟨none, some tc, e2F.segments, e2F.scenery⟩).setNode tc
          { tndF with incoming := tndF.incoming.erase e2id })).setEdge e2id
            ⟨none, none, e2F.segments, e2F.scenery⟩).edges.eraseP
              (fun p => decide (p.1 = e2id))).lookup j = h.edge? j
    rw [lookup_eraseP_other _ e2id j hj]
    show ((((h.setNode nid { ndF with outgoing := [] }).setEdge e2id
        ⟨none, some tc, e2F.segments, e2F.scenery⟩).setNode tc
          { tndF with incoming := tndF.incoming.erase e2id }).setEdge e2id
            ⟨none, none, e2F.segments, e2F.scenery⟩).edge? j = h.edge? j
    rw [edge?_setEdge_other _ e2id _ j hj, edge?_setNode,
      edge?_setEdge_other _ e2id _ j hj, edge?_setNode]

theorem mergeStep_spec (g : RGraph) (nid e1id e2id tc oid : ℕ)
    (ndp : Pose) (nds : ℝ) (tnd : NodeD) (e1 e2 : EdgeD) (ob : SceneryD)
    (hnd : g.node? nid = some ⟨ndp, nds, [e1id], [e2id]⟩)
    (hne : e1id ≠ e2id)
    (he1 : g.edge? e1id = some e1) (he2 : g.edge? e2id = some e2)
    (he1tgt : e1.tgt = some nid) (he2src : e2.src = some nid) (he2tgt : e2.tgt = some tc)
    (htc : tc ≠ nid) (htnd : g.node? tc = some tnd) (he2mem : e2id ∈ tnd.incoming)
    (hsegs1 : e1.segments ≠ [])
    (hobjs : ∀ o ∈ e2.scenery, (g.obj? o).isSome)
    (hoid : g.obj? oid = some ob) (hrel : ob.relativeTo = some e2id)
    (hmem : oid ∈ e2.scenery) :
    ∃ g', mergeStep g nid = some g' ∧
      g'.obj? oid = some ⟨⟨⟨ob.pose.pos.x + sumLen e1.segments, ob.pose.pos.y⟩,
        ob.pose.dir⟩, some e1id⟩ ∧
      ∃ e1f, g'.edge? e1id = some e1f ∧
        e1f.segments = e1.segments ++ e2.segments := by
  have hSTA := setTargetA_spec g nid e1id tc ⟨ndp, nds, [e1id], [e2id]⟩ tnd e1
    hnd rfl he1 he1tgt htc htnd
  have hSTA' : setTarget g e1id e2.tgt
      = some (((g.setNode nid ⟨ndp, nds, [], [e2id]⟩).setNode tc
          { tnd with incoming := tnd.incoming ++ [e1id] }).setEdge e1id
            ⟨e1.src, some tc, e1.segments, e1.scenery⟩) := by
    rw [he2tgt]
    exact hSTA
  have hgCe1 : (((g.setNode nid ⟨ndp, nds, [], [e2id]⟩).setNode tc
      { tnd with incoming := tnd.incoming ++ [e1id] }).setEdge e1id
        ⟨e1.src, some tc, e1.segments, e1.scenery⟩).edge? e1id
      = some ⟨e1.src, some tc, e1.segments, e1.scenery⟩ :=
    edge?_setEdge_self _ e1id _ (by rw [edge?_setNode, edge?_setNode, he1]; rfl)
  have hgCe2 : (((g.setNode nid ⟨ndp, nds, [], [e2id]⟩).setNode tc
      { tnd with incoming := tnd.incoming ++ [e1id] }).setEdge e1id
        ⟨e1.src, some tc, e1.segments, e1.scenery⟩).edge? e2id = some e2 := by
    rw [edge?_setEdge_other _ e1id _ e2id (Ne.symm hne), edge?_setNode, edge?_setNode]
    exact he2
  obtain ⟨gD, hTR, hDnodes, hDe1raw, hDothers, hDoidraw⟩ :=
    transferScenery_spec e1id e2id oid hne ob hrel e2.scenery
      (((g.setNode nid ⟨ndp, nds, [], [e2id]⟩).setNode tc
        { tnd with incoming := tnd.incoming ++ [e1id] }).setEdge e1id
          ⟨e1.src, some tc, e1.segments, e1.scenery⟩)
      ⟨e1.src, some tc, e1.segments, e1.scenery⟩
      (fun o ho => hobjs o ho) hgCe1 hsegs1 (Or.inl ⟨hoid, hmem⟩)
  have hDe1 : gD.edge? e1id
      = some ⟨e1.src, some tc, e1.segments, e1.scenery ++ e2.scenery⟩ := hDe1raw
  have hDoid : gD.obj? oid = some ⟨⟨⟨ob.pose.pos.x + sumLen e1.segments, ob.pose.pos.y⟩,
      ob.pose.dir⟩, some e1id⟩ := hDoidraw
  have hgDe2 : gD.edge? e2id = some e2 := by
    rw [hDothers e2id (Ne.symm hne)]
    exact hgCe2
  have hgEe1 : ((gD.setEdge e2id ⟨e2.src, e2.tgt, e2.segments, []⟩).edge? e1id)
      = some ⟨e1.src, some tc, e1.segments, e1.scenery ++ e2.scenery⟩ := by
    rw [edge?_setEdge_other _ e2id _ e1id hne]
    exact hDe1
  have hgEe2 : ((gD.setEdge e2id ⟨e2.src, e2.tgt, e2.segments, []⟩).edge? e2id)
      = some ⟨e2.src, e2.tgt, e2.segments, []⟩ :=
    edge?_setEdge_self _ e2id _ (by rw [hgDe2]; rfl)
  have hnodeeq : ∀ j, gD.node? j
      = (((g.setNode nid ⟨ndp, nds, [], [e2id]⟩).setNode tc
          { tnd with incoming := tnd.incoming ++ [e1id] }).setEdge e1id
            ⟨e1.src, some tc, e1.segments, e1.scenery⟩).node? j :=
    fun j => congrArg (List.lookup j) hDnodes
  have hFnid : (((gD.setEdge e2id ⟨e2.src, e2.tgt, e2.segments, []⟩).setEdge e1id
      ⟨e1.src, some tc, e1.segments ++ e2.segments, e1.scenery ++ e2.scenery⟩).node? nid)
      = some ⟨ndp, nds, [], [e2id]⟩ := by
    show gD.node? nid = _
    rw [hnodeeq nid, node?_setEdge, node?_setNode_other _ tc _ nid (Ne.symm htc),
      node?_setNode_self g nid _ (by rw [hnd]; rfl)]
  have hFtc : (((gD.setEdge e2id ⟨e2.src, e2.tgt, e2.segments, []⟩).setEdge e1id
      ⟨e1.src, some tc, e1.segments ++ e2.segments, e1.scenery ++ e2.scenery⟩).node? tc)
      = some { tnd with incoming := tnd.incoming ++ [e1id] } := by
    show gD.node? tc = _
    rw [hnodeeq tc, node?_setEdge,
      node?_setNode_self _ tc _ (by rw [node?_setNode_other g nid _ tc htc, htnd]; rfl)]
  have hFe2 : (((gD.setEdge e2id ⟨e2.src, e2.tgt, e2.segments, []⟩).setEdge e1id
      ⟨e1.src, some tc, e1.segments ++ e2.segments, e1.scenery ++ e2.scenery⟩).edge? e2id)
      = some ⟨e2.src, e2.tgt, e2.segments, []⟩ := by
    rw [edge?_setEdge_other _ e1id _ e2id (Ne.symm hne)]
    exact hgEe2
  obtain ⟨gK, hRE, hKsc, hKe⟩ :=
    removeEdgeA_spec ((gD.setEdge e2id ⟨e2.src, e2.tgt, e2.segments, []⟩).setEdge e1id
        ⟨e1.src, some tc, e1.segments ++ e2.segments, e1.scenery ++ e2.scenery⟩)
      nid e2id tc ⟨ndp, nds, [], [e2id]⟩ { tnd with incoming := tnd.incoming ++ [e1id] }
      ⟨e2.src, e2.tgt, e2.segments, []⟩
      hFnid rfl hFe2 he2src he2tgt htc hFtc (List.mem_append_left _ he2mem)
  refine ⟨{ gK with nodes := gK.nodes.eraseP fun p => decide (p.1 = nid) }, ?_, ?_, ?_⟩
  · simp only [mergeStep, hnd, Option.pure_def, Option.bind_eq_bind, Option.some_bind,
      he2, hSTA', hgCe2, hTR, hgDe2, hgEe1, hgEe2, hRE]
  · show gK.scenery.lookup oid = _
    rw [hKsc]
    exact hDoid
  · refine ⟨⟨e1.src, some tc, e1.segments ++ e2.segments, e1.scenery ++ e2.scenery⟩,
      ?_, rfl⟩
    show gK.edges.lookup e1id = _
    rw [show gK.edges.lookup e1id = gK.edge? e1id from rfl, hKe e1id hne]
    exact edge?_setEdge_self _ e1id _ (by rw [edge?_setEdge_other _ e2id _ e1id hne, hDe1]; rfl)
theorem contractStepA_eval (g : RGraph) (nid e1id e2id : ℕ) (ndp : Pose) (nds : ℝ)
    (hnd : g.node? nid = some ⟨ndp, nds, [e1id], [e2id]⟩) (hne : e1id ≠ e2id) :
    contractStep g nid = mergeStep g nid := by
  simp [contractStep, hnd, nodeDegree, hne]

theorem contractStepA_preserves (g : RGraph) (nid e1id e2id tc oid : ℕ)
    (ndp : Pose) (nds : ℝ) (tnd : NodeD) (e1 e2 : EdgeD) (ob : SceneryD)
    (hnd : g.node? nid = some ⟨ndp, nds, [e1id], [e2id]⟩)
    (hne : e1id ≠ e2id)
    (he1 : g.edge? e1id = some e1) (he2 : g.edge? e2id = some e2)
    (he1tgt : e1.tgt = some nid) (he2src : e2.src = some nid) (he2tgt : e2.tgt = some tc)
    (htc : tc ≠ nid) (htnd : g.node? tc = some tnd) (he2mem : e2id ∈ tnd.incoming)
    (hsegs1 : e1.segments ≠ []) (hsegs2 : e2.segments ≠ [])
    (hlen1 : ∀ s ∈ e1.segments, 0 < s.length)
    (hlen2 : ∀ s ∈ e2.segments, 0 < s.length)
    (hJ : (e1.segments.getLast hsegs1).travel ((e1.segments.getLast hsegs1).length)
        = (e2.segments.head hsegs2).travel 0)
    (hobjs : ∀ o ∈ e2.scenery, (g.obj? o).isSome)
    (hoid : g.obj? oid = some ob) (hrel : ob.relativeTo = some e2id)
    (hmem : oid ∈ e2.scenery)
    (hx : 0 ≤ ob.pose.pos.x) :
    ∃ g', contractStep g nid = some g' ∧ globalPoseOf g' oid = globalPoseOf g oid := by
  obtain ⟨g', hrun, hoid', he1f⟩ :=
    mergeStep_spec g nid e1id e2id tc oid ndp nds tnd e1 e2 ob hnd hne he1 he2
      he1tgt he2src he2tgt htc htnd he2mem hsegs1 hobjs hoid hrel hmem
  obtain ⟨e1f, he1fl, he1fs⟩ := he1f
  refine ⟨g', ?_, ?_⟩
  · rw [contractStepA_eval g nid e1id e2id ndp nds hnd hne]
    exact hrun
  · have hpre : globalPoseOf g oid = segWalk e2.segments ob.pose 0 true := by
      simp only [globalPoseOf, hoid, Option.pure_def, Option.bind_eq_bind,
        Option.some_bind, hrel, he2, edgeToGlobal]
      rw [if_neg hsegs2]
    have hpost : globalPoseOf g' oid
        = segWalk (e1.segments ++ e2.segments)
            ⟨⟨ob.pose.pos.x + sumLen e1.segments, ob.pose.pos.y⟩, ob.pose.dir⟩ 0 true := by
      have hfne : e1f.segments ≠ [] := by
        rw [he1fs]
        intro hh
        exact hsegs1 (List.append_eq_nil.mp hh).1
      simp only [globalPoseOf, hoid', Option.pure_def, Option.bind_eq_bind,
        Option.some_bind, he1fl, edgeToGlobal]
      rw [if_neg hfne, he1fs]
    rw [hpre, hpost]
    exact merged_walk e1.segments e2.segments ob.pose
      ⟨⟨ob.pose.pos.x + sumLen e1.segments, ob.pose.pos.y⟩, ob.pose.dir⟩
      hsegs1 hsegs2 hlen1 hlen2 hJ hx rfl rfl rfl
theorem sumLen_flipped (segs : List Seg) :
    sumLen ((segs.map Seg.flip).reverse) = sumLen segs := by
  unfold sumLen
  rw [List.map_reverse, List.sum_reverse, List.map_map]
  rfl

theorem flipped_ne_nil (segs : List Seg) (h : segs ≠ []) :
    (segs.map Seg.flip).reverse ≠ [] := by
  intro hh
  exact h (List.map_eq_nil.mp (List.reverse_eq_nil_iff.mp hh))

theorem flipSceneryList_spec (e2id oid : ℕ) (ob : SceneryD)
    (hrel : ob.relativeTo = some e2id) :
    ∀ (list : List ℕ) (g : RGraph) (e2v : EdgeD),
    (∀ o ∈ list, (g.obj? o).isSome) →
    g.edge? e2id = some e2v → e2v.segments ≠ [] →
    (g.obj? oid = some ob ∧ list.count oid = 1 ∨
     g.obj? oid = some ⟨⟨⟨sumLen e2v.segments - ob.pose.pos.x, -ob.pose.pos.y⟩,
       angNorm (ob.pose.dir + π)⟩, some e2id⟩ ∧ oid ∉ list) →
    ∃ g', flipSceneryList g e2id list = some g' ∧
      g'.nodes = g.nodes ∧ g'.edges = g.edges ∧
      (∀ p, (g.obj? p).isSome → (g'.obj? p).isSome) ∧
      g'.obj? oid = some ⟨⟨⟨sumLen e2v.segments - ob.pose.pos.x, -ob.pose.pos.y⟩,
        angNorm (ob.pose.dir + π)⟩, some e2id⟩ := by
  intro list
  induction list with
  | nil =>
    intro g e2v hobjs he2 hne hdisj
    refine ⟨g, rfl, rfl, rfl, fun p hp => hp, ?_⟩
    rcases hdisj with ⟨_, hcnt⟩ | ⟨hdone, _⟩
    · simp [List.count_nil] at hcnt
    · exact hdone
  | cons o rest ih =>
    intro g e2v hobjs he2 hne hdisj
    have hobjo : (g.obj? o).isSome := hobjs o (List.mem_cons_self o rest)
    obtain ⟨obO, hobO⟩ := Option.isSome_iff_exists.mp hobjo
    by_cases hguard : obO.relativeTo = some e2id
    · -- the object `o` is flipped in place
      have hlen : edgeLength g e2v = some (sumLen e2v.segments) :=
        edgeLength_of_ne_nil g e2v hne
      have hstep : flipSceneryList g e2id (o :: rest)
          = flipSceneryList (g.setObj o { obO with
              pose := ⟨⟨sumLen e2v.segments - obO.pose.pos.x, -obO.pose.pos.y⟩,
                angNorm (obO.pose.dir + π)⟩ }) e2id rest := by
        simp only [flipSceneryList, hobO, Option.pure_def, Option.bind_eq_bind,
          Option.some_bind, if_pos hguard, he2, hlen]
        rfl
      set obO' : SceneryD := { obO with
        pose := ⟨⟨sumLen e2v.segments - obO.pose.pos.x, -obO.pose.pos.y⟩,
          angNorm (obO.pose.dir + π)⟩ } with hobO'
      have hobjs2 : ∀ p ∈ rest, ((g.setObj o obO').obj? p).isSome :=
        fun p hp => obj?_setObj_isSome g o obO' p (hobjs p (List.mem_cons_of_mem o hp))
      have he2' : (g.setObj o obO').edge? e2id = some e2v := he2
      have hdisj2 : (g.setObj o obO').obj? oid = some ob ∧ rest.count oid = 1 ∨
          (g.setObj o obO').obj? oid
            = some ⟨⟨⟨sumLen e2v.segments - ob.pose.pos.x, -ob.pose.pos.y⟩,
              angNorm (ob.pose.dir + π)⟩, some e2id⟩ ∧ oid ∉ rest := by
        by_cases hooid : o = oid
        · subst hooid
          rcases hdisj with ⟨hob, hcnt⟩ | ⟨_, hnotin⟩
          · right
            have hobeq : obO = ob := by
              rw [hobO] at hob
              exact Option.some_injective _ hob
            subst hobeq
            constructor
            · rw [obj?_setObj_self g o obO' hobjo, hobO', hguard]
            · rw [List.count_cons_self] at hcnt
              have : rest.count o = 0 := by omega
              exact (List.count_eq_zero.mp this)
          · exact absurd (List.mem_cons_self o rest) hnotin
        · have hpres : (g.setObj o obO').obj? oid = g.obj? oid :=
            obj?_setObj_other g o obO' oid (fun hh => hooid hh.symm)
          rcases hdisj with ⟨hob, hcnt⟩ | ⟨hdone, hnotin⟩
          · left
            refine ⟨by rw [hpres]; exact hob, ?_⟩
            rw [List.count_cons_of_ne (fun hh => hooid hh.symm)] at hcnt
            exact hcnt
          · right
            refine ⟨by rw [hpres]; exact hdone, fun hh => hnotin (List.mem_cons_of_mem o hh)⟩
      obtain ⟨g', hrun, hnodes, hedges, hsome, hoidc⟩ :=
        ih (g.setObj o obO') e2v hobjs2 he2' hne hdisj2
      refine ⟨g', by rw [hstep]; exact hrun, by rw [hnodes]; rfl, by rw [hedges]; rfl,
        ?_, hoidc⟩
      intro p hp
      exact hsome p (obj?_setObj_isSome g o obO' p hp)
    · -- the object `o` is not relative to this edge: no change
      have hstep : flipSceneryList g e2id (o :: rest)
          = flipSceneryList g e2id rest := by
        simp only [flipSceneryList, hobO, Option.pure_def, Option.bind_eq_bind,
          Option.some_bind, if_neg hguard]
      have hdisj2 : g.obj? oid = some ob ∧ rest.count oid = 1 ∨
          g.obj? oid = some ⟨⟨⟨sumLen e2v.segments - ob.pose.pos.x, -ob.pose.pos.y⟩,
            angNorm (ob.pose.dir + π)⟩, some e2id⟩ ∧ oid ∉ rest := by
        have hooid : o ≠ oid := by
          intro hh
          subst hh
          rcases hdisj with ⟨hob, _⟩ | ⟨hdone, hnotin⟩
          · rw [hobO] at hob
            exact hguard ((Option.some_injective _ hob) ▸ hrel)
          · exact hnotin (List.mem_cons_self o rest)
        rcases hdisj with ⟨hob, hcnt⟩ | ⟨hdone, hnotin⟩
        · left
          refine ⟨hob, ?_⟩
          rw [List.count_cons_of_ne (fun hh => hooid hh.symm)] at hcnt
          exact hcnt
        · exact Or.inr ⟨hdone, fun hh => hnotin (List.mem_cons_of_mem o hh)⟩
      obtain ⟨g', hrun, hnodes, hedges, hsome, hoidc⟩ :=
        ih g e2v (fun p hp => hobjs p (List.mem_cons_of_mem o hp)) he2 hne hdisj2
      exact ⟨g', by rw [hstep]; exact hrun, hnodes, hedges, hsome, hoidc⟩

theorem edgeFlipB_spec (g : RGraph) (nid e1id e2id sc oid : ℕ)
    (ndp : Pose) (nds : ℝ) (snd : NodeD) (e2 : EdgeD) (ob : SceneryD)
    (hnd : g.node? nid = some ⟨ndp, nds, [e1id, e2id], []⟩)
    (hne : e1id ≠ e2id)
    (he2 : g.edge? e2id = some e2)
    (he2src : e2.src = some sc) (he2tgt : e2.tgt = some nid)
    (hsc : sc ≠ nid) (hsnd : g.node? sc = some snd) (hscmem : e2id ∈ snd.outgoing)
    (hsegs2 : e2.segments ≠ [])
    (hobjs : ∀ o ∈ e2.scenery, (g.obj? o).isSome)
    (hoid : g.obj? oid = some ob) (hrel : ob.relativeTo = some e2id)
    (hcnt : e2.scenery.count oid = 1) :
    ∃ gF, edgeFlip g e2id = some gF ∧
      gF.node? nid = some ⟨ndp, nds, [e1id], [e2id]⟩ ∧
      gF.node? sc = some ⟨snd.pose, snd.s, snd.incoming ++ [e2id],
        snd.outgoing.erase e2id⟩ ∧
      (∀ j, j ≠ e2id → gF.edge? j = g.edge? j) ∧
      gF.edge? e2id
        = some ⟨some nid, some sc, (e2.segments.map Seg.flip).reverse, e2.scenery⟩ ∧
      (∀ p, (g.obj? p).isSome → (gF.obj? p).isSome) ∧
      gF.obj? oid = some ⟨⟨⟨sumLen e2.segments - ob.pose.pos.x, -ob.pose.pos.y⟩,
        angNorm (ob.pose.dir + π)⟩, some e2id⟩ := by
  have hRO : nodeRemoveOutgoing g sc e2id
      = some (g.setNode sc { snd with outgoing := snd.outgoing.erase e2id }) := by
    simp only [nodeRemoveOutgoing, hsnd, Option.pure_def, Option.bind_eq_bind,
      Option.some_bind]
    rw [if_pos hscmem]
  have hg1nid : (g.setNode sc { snd with outgoing := snd.outgoing.erase e2id }).node? nid
      = some ⟨ndp, nds, [e1id, e2id], []⟩ := by
    rw [node?_setNode_other g sc _ nid (Ne.symm hsc)]
    exact hnd
  have herase : ([e1id, e2id] : List ℕ).erase e2id = [e1id] := by
    simp [List.erase_cons, hne]
  have hRI : nodeRemoveIncoming (g.setNode sc
      { snd with outgoing := snd.outgoing.erase e2id }) nid e2id
      = some ((g.setNode sc { snd with outgoing := snd.outgoing.erase e2id }).setNode
          nid ⟨ndp, nds, [e1id], []⟩) := by
    simp only [nodeRemoveIncoming, hg1nid, Option.pure_def, Option.bind_eq_bind,
      Option.some_bind]
    rw [if_pos (List.mem_cons_of_mem e1id (List.mem_cons_self e2id []))]
    rw [herase]
  have hg2sc : ((g.setNode sc { snd with outgoing := snd.outgoing.erase e2id }).setNode
      nid ⟨ndp, nds, [e1id], []⟩).node? sc
      = some { snd with outgoing := snd.outgoing.erase e2id } := by
    rw [node?_setNode_other _ nid _ sc hsc]
    exact node?_setNode_self g sc _ (by rw [hsnd]; rfl)
  have hAI2 : nodeAppendIncoming ((g.setNode sc
      { snd with outgoing := snd.outgoing.erase e2id }).setNode nid
        ⟨ndp, nds, [e1id], []⟩) sc e2id
      = some (((g.setNode sc { snd with outgoing := snd.outgoing.erase e2id }).setNode
          nid ⟨ndp, nds, [e1id], []⟩).setNode sc
            ⟨snd.pose, snd.s, snd.incoming ++ [e2id], snd.outgoing.erase e2id⟩) := by
    simp only [nodeAppendIncoming, hg2sc, Option.pure_def, Option.bind_eq_bind,
      Option.some_bind]
  have hg3nid : (((g.setNode sc { snd with outgoing := snd.outgoing.erase e2id }).setNode
      nid ⟨ndp, nds, [e1id], []⟩).setNode sc
        ⟨snd.pose, snd.s, snd.incoming ++ [e2id], snd.outgoing.erase e2id⟩).node? nid
      = some ⟨ndp, nds, [e1id], []⟩ := by
    rw [node?_setNode_other _ sc _ nid (Ne.symm hsc)]
    exact node?_setNode_self _ nid _ (by rw [hg1nid]; rfl)
  have hAO : nodeAppendOutgoing ((((g.setNode sc
      { snd with outgoing := snd.outgoing.erase e2id }).setNode nid
        ⟨ndp, nds, [e1id], []⟩).setNode sc
          ⟨snd.pose, snd.s, snd.incoming ++ [e2id], snd.outgoing.erase e2id⟩)) nid e2id
      = some (((((g.setNode sc { snd with outgoing := snd.outgoing.erase e2id }).setNode
          nid ⟨ndp, nds, [e1id], []⟩).setNode sc
            ⟨snd.pose, snd.s, snd.incoming ++ [e2id], snd.outgoing.erase e2id⟩)).setNode
              nid ⟨ndp, nds, [e1id], [e2id]⟩) := by
    simp only [nodeAppendOutgoing, hg3nid, Option.pure_def, Option.bind_eq_bind,
      Option.some_bind, List.nil_append]
  have hg4e2 : (((((g.setNode sc { snd with outgoing := snd.outgoing.erase e2id }).setNode
      nid ⟨ndp, nds, [e1id], []⟩).setNode sc
        ⟨snd.pose, snd.s, snd.incoming ++ [e2id], snd.outgoing.erase e2id⟩)).setNode
          nid ⟨ndp, nds, [e1id], [e2id]⟩).edge? e2id = some e2 := he2
  have he25 : ((((((g.setNode sc { snd with outgoing := snd.outgoing.erase e2id }).setNode
      nid ⟨ndp, nds, [e1id], []⟩).setNode sc
        ⟨snd.pose, snd.s, snd.incoming ++ [e2id], snd.outgoing.erase e2id⟩)).setNode
          nid ⟨ndp, nds, [e1id], [e2id]⟩).setEdge e2id
            ⟨some nid, some sc, (e2.segments.map Seg.flip).reverse, e2.scenery⟩).edge? e2id
      = some ⟨some nid, some sc, (e2.segments.map Seg.flip).reverse, e2.scenery⟩ :=
    edge?_setEdge_self _ e2id _ (by rw [hg4e2]; rfl)
  obtain ⟨gF, hrunF, hFnodes, hFedges, hFsome, hFoid⟩ :=
    flipSceneryList_spec e2id oid ob hrel e2.scenery
      ((((((g.setNode sc { snd with outgoing := snd.outgoing.erase e2id }).setNode
        nid ⟨ndp, nds, [e1id], []⟩).setNode sc
          ⟨snd.pose, snd.s, snd.incoming ++ [e2id], snd.outgoing.erase e2id⟩)).setNode
            nid ⟨ndp, nds, [e1id], [e2id]⟩).setEdge e2id
              ⟨some nid, some sc, (e2.segments.map Seg.flip).reverse, e2.scenery⟩)
      ⟨some nid, some sc, (e2.segments.map Seg.flip).reverse, e2.scenery⟩
      (fun o ho => hobjs o ho) he25 (flipped_ne_nil _ hsegs2) (Or.inl ⟨hoid, hcnt⟩)
  have hnodeeq : ∀ j, gF.node? j
      = ((((((g.setNode sc { snd with outgoing := snd.outgoing.erase e2id }).setNode
          nid ⟨ndp, nds, [e1id], []⟩).setNode sc
            ⟨snd.pose, snd.s, snd.incoming ++ [e2id], snd.outgoing.erase e2id⟩)).setNode
              nid ⟨ndp, nds, [e1id], [e2id]⟩)).node? j :=
    fun j => congrArg (List.lookup j) hFnodes
  have hedgeeq : ∀ j, gF.edge? j
      = ((((((g.setNode sc { snd with outgoing := snd.outgoing.erase e2id }).setNode
          nid ⟨ndp, nds, [e1id], []⟩).setNode sc
            ⟨snd.pose, snd.s, snd.incoming ++ [e2id], snd.outgoing.erase e2id⟩)).setNode
              nid ⟨ndp, nds, [e1id], [e2id]⟩).setEdge e2id
                ⟨some nid, some sc, (e2.segments.map Seg.flip).reverse, e2.scenery⟩).edge? j :=
    fun j => congrArg (List.lookup j) hFedges
  refine ⟨gF, ?_, ?_, ?_, ?_, ?_, fun p hp => hFsome p hp, ?_⟩
  · simp only [edgeFlip, he2, Option.pure_def, Option.bind_eq_bind, Option.some_bind,
      he2src, he2tgt, hRO, hRI, hAI2, hAO, hrunF]
  · rw [hnodeeq nid]
    exact node?_setNode_self _ nid _ (by rw [hg3nid]; rfl)
  · rw [hnodeeq sc, node?_setNode_other _ nid _ sc hsc]
    exact node?_setNode_self _ sc _ (by rw [hg2sc]; rfl)
  · intro j hj
    rw [hedgeeq j, edge?_setEdge_other _ e2id _ j hj]
    rfl
  · rw [hedgeeq e2id]
    exact he25
  · rw [← sumLen_flipped e2.segments]
    exact hFoid
theorem contractStepB_eval (g gF : RGraph) (nid e1id e2id : ℕ) (ndp : Pose) (nds : ℝ)
    (hnd : g.node? nid = some ⟨ndp, nds, [e1id, e2id], []⟩) (hne : e1id ≠ e2id)
    (hFlip : edgeFlip g e2id = some gF)
    (hFnid : gF.node? nid = some ⟨ndp, nds, [e1id], [e2id]⟩) :
    contractStep g nid = mergeStep gF nid := by
  simp [contractStep, hnd, nodeDegree, hne, hFlip, hFnid]

theorem contractStepB_preserves (g : RGraph) (nid e1id e2id sc oid : ℕ)
    (ndp : Pose) (nds : ℝ) (snd : NodeD) (e1 e2 : EdgeD) (ob : SceneryD)
    (hnd : g.node? nid = some ⟨ndp, nds, [e1id, e2id], []⟩)
    (hne : e1id ≠ e2id)
    (he1 : g.edge? e1id = some e1) (he2 : g.edge? e2id = some e2)
    (he1tgt : e1.tgt = some nid)
    (he2src : e2.src = some sc) (he2tgt : e2.tgt = some nid)
    (hsc : sc ≠ nid) (hsnd : g.node? sc = some snd) (hscmem : e2id ∈ snd.outgoing)
    (hsegs1 : e1.segments ≠ []) (hsegs2 : e2.segments ≠ [])
    (hlen1 : ∀ s ∈ e1.segments, 0 < s.length)
    (hlen2 : ∀ s ∈ e2.segments, 0 < s.length)
    (hchain2 : List.Chain' (fun a b => a.travel a.length = b.travel 0) e2.segments)
    (hJB : (e1.segments.getLast hsegs1).travel ((e1.segments.getLast hsegs1).length)
        = ((e2.segments.getLast hsegs2).travel
            ((e2.segments.getLast hsegs2).length)).reverse)
    (hobjs : ∀ o ∈ e2.scenery, (g.obj? o).isSome)
    (hoid : g.obj? oid = some ob) (hrel : ob.relativeTo = some e2id)
    (hcnt : e2.scenery.count oid = 1)
    (hx0 : 0 ≤ ob.pose.pos.x) (hxL : ob.pose.pos.x ≤ sumLen e2.segments) :
    ∃ g', contractStep g nid = some g' ∧ globalPoseOf g' oid = globalPoseOf g oid := by
  obtain ⟨gF, hFlip, hFnid, hFsc, hFeo, hFe2, hFsome, hFoid⟩ :=
    edgeFlipB_spec g nid e1id e2id sc oid ndp nds snd e2 ob hnd hne he2 he2src he2tgt
      hsc hsnd hscmem hsegs2 hobjs hoid hrel hcnt
  have hmem : oid ∈ e2.scenery := List.count_pos_iff.mp (by rw [hcnt]; norm_num)
  obtain ⟨g', hrunM, hoid', e1f, he1fl, he1fs⟩ :=
    mergeStep_spec gF nid e1id e2id sc oid ndp nds
      ⟨snd.pose, snd.s, snd.incoming ++ [e2id], snd.outgoing.erase e2id⟩ e1
      ⟨some nid, some sc, (e2.segments.map Seg.flip).reverse, e2.scenery⟩
      ⟨⟨⟨sumLen e2.segments - ob.pose.pos.x, -ob.pose.pos.y⟩,
        angNorm (ob.pose.dir + π)⟩, some e2id⟩
      hFnid hne (by rw [hFeo e1id hne]; exact he1) hFe2 he1tgt rfl rfl hsc hFsc
      (List.mem_append_right _ (List.mem_cons_self e2id [])) hsegs1
      (fun o ho => hFsome o (hobjs o ho)) hFoid rfl hmem
  have hfne : ((e2.segments.map Seg.flip).reverse) ≠ [] := flipped_ne_nil _ hsegs2
  have hflen : ∀ s ∈ (e2.segments.map Seg.flip).reverse, 0 < s.length := by
    intro s hs
    rw [List.mem_reverse] at hs
    obtain ⟨t, ht, rfl⟩ := List.mem_map.mp hs
    exact hlen2 t ht
  have hJ' : (e1.segments.getLast hsegs1).travel ((e1.segments.getLast hsegs1).length)
      = (((e2.segments.map Seg.flip).reverse).head hfne).travel 0 := by
    have hhead : ((e2.segments.map Seg.flip).reverse).head hfne
        = (e2.segments.getLast hsegs2).flip := by
      rw [List.head_reverse, List.getLast_map]
    have h0 : ((e2.segments.getLast hsegs2).flip).travel 0
        = ((e2.segments.getLast hsegs2).travel
            ((e2.segments.getLast hsegs2).length)).reverse := by
      have hft := flip_travel (e2.segments.getLast hsegs2)
        ((e2.segments.getLast hsegs2).length)
      rw [sub_self] at hft
      exact hft
    rw [hhead, h0]
    exact hJB
  refine ⟨g', ?_, ?_⟩
  · rw [contractStepB_eval g gF nid e1id e2id ndp nds hnd hne hFlip hFnid]
    exact hrunM
  · have hpre : globalPoseOf g oid = segWalk e2.segments ob.pose 0 true := by
      simp only [globalPoseOf, hoid, Option.pure_def, Option.bind_eq_bind,
        Option.some_bind, hrel, he2, edgeToGlobal]
      rw [if_neg hsegs2]
    have hfne1 : e1f.segments ≠ [] := by
      rw [he1fs]
      intro hh
      exact hsegs1 (List.append_eq_nil.mp hh).1
    have hpost : globalPoseOf g' oid
        = segWalk (e1.segments ++ (e2.segments.map Seg.flip).reverse)
            ⟨⟨(sumLen e2.segments - ob.pose.pos.x) + sumLen e1.segments,
              -ob.pose.pos.y⟩, angNorm (ob.pose.dir + π)⟩ 0 true := by
      simp only [globalPoseOf, hoid', Option.pure_def, Option.bind_eq_bind,
        Option.some_bind, he1fl, edgeToGlobal]
      rw [if_neg hfne1, he1fs]
    rw [hpre, hpost]
    have hmw := merged_walk e1.segments ((e2.segments.map Seg.flip).reverse)
      ⟨⟨sumLen e2.segments - ob.pose.pos.x, -ob.pose.pos.y⟩, angNorm (ob.pose.dir + π)⟩
      ⟨⟨(sumLen e2.segments - ob.pose.pos.x) + sumLen e1.segments,
        -ob.pose.pos.y⟩, angNorm (ob.pose.dir + π)⟩
      hsegs1 hfne hlen1 hflen hJ' (by show (0:ℝ) ≤ sumLen e2.segments - ob.pose.pos.x; linarith)
      rfl rfl rfl
    rw [hmw]
    have hsf := segWalk_flip e2.segments hsegs2 hlen2 hchain2
      ob.pose.pos.x ob.pose.pos.y ob.pose.dir hx0 hxL true true
    rw [hsf]
/-- C2 (amended): one `contract_edges` loop iteration at a degree-2 node
preserves the global pose of an edge-relative scenery object of the absorbed
edge `e2`, in both the direct configuration (one incoming, one outgoing edge)
and the flipped configuration (two incoming edges, `outgoing[1]` absent, the
second incoming edge flipped before the merge) — provided the edges have
nonempty segment lists of positive lengths, the junctions are continuous, and
the object's local `x` lies in `[0, length]` (for the direct case `0 ≤ x`
suffices).  The preservation fails for objects at negative local `x`
(see the counterexample), so the original claim about every edge-relative
object is corrected to this offset condition. -/
theorem contract_step_preserves_scenery (g : RGraph) (nid e1id e2id oid : ℕ)
    (e1 e2 : EdgeD) (ob : SceneryD)
    (hne : e1id ≠ e2id)
    (he1 : g.edge? e1id = some e1) (he2 : g.edge? e2id = some e2)
    (he1tgt : e1.tgt = some nid)
    (hsegs1 : e1.segments ≠ []) (hsegs2 : e2.segments ≠ [])
    (hlen1 : ∀ s ∈ e1.segments, 0 < s.length)
    (hlen2 : ∀ s ∈ e2.segments, 0 < s.length)
    (hobjs : ∀ o ∈ e2.scenery, (g.obj? o).isSome)
    (hoid : g.obj? oid = some ob) (hrel : ob.relativeTo = some e2id)
    (hconf :
      (∃ ndp nds tc tnd, g.node? nid = some ⟨ndp, nds, [e1id], [e2id]⟩ ∧
        e2.src = some nid ∧ e2.tgt = some tc ∧ tc ≠ nid ∧
        g.node? tc = some tnd ∧ e2id ∈ tnd.incoming ∧ oid ∈ e2.scenery ∧
        (e1.segments.getLast hsegs1).travel ((e1.segments.getLast hsegs1).length)
          = (e2.segments.head hsegs2).travel 0 ∧
        0 ≤ ob.pose.pos.x) ∨
      (∃ ndp nds sc snd, g.node? nid = some ⟨ndp, nds, [e1id, e2id], []⟩ ∧
        e2.src = some sc ∧ e2.tgt = some nid ∧ sc ≠ nid ∧
        g.node? sc = some snd ∧ e2id ∈ snd.outgoing ∧ e2.scenery.count oid = 1 ∧
        List.Chain' (fun a b => a.travel a.length = b.travel 0) e2.segments ∧
        (e1.segments.getLast hsegs1).travel ((e1.segments.getLast hsegs1).length)
          = ((e2.segments.getLast hsegs2).travel
              ((e2.segments.getLast hsegs2).length)).reverse ∧
        0 ≤ ob.pose.pos.x ∧ ob.pose.pos.x ≤ sumLen e2.segments)) :
    ∃ g', contractStep g nid = some g' ∧ globalPoseOf g' oid = globalPoseOf g oid := by
  rcases hconf with ⟨ndp, nds, tc, tnd, hnd, hsrc, htgt, htc, htnd, hmem2, hmem, hJ, hx⟩ |
    ⟨ndp, nds, sc, snd, hnd, hsrc, htgt, hsc, hsnd, hmemo, hcnt, hchain, hJB, hx0, hxL⟩
  · exact contractStepA_preserves g nid e1id e2id tc oid ndp nds tnd e1 e2 ob hnd hne
      he1 he2 he1tgt hsrc htgt htc htnd hmem2 hsegs1 hsegs2 hlen1 hlen2 hJ hobjs
      hoid hrel hmem hx
  · exact contractStepB_preserves g nid e1id e2id sc oid ndp nds snd e1 e2 ob hnd hne
      he1 he2 he1tgt hsrc htgt hsc hsnd hmemo hsegs1 hsegs2 hlen1 hlen2 hchain hJB
      hobjs hoid hrel hcnt hx0 hxL
def segW1 : Seg := ⟨⟨⟨0, 0⟩, 0⟩, 1, 0⟩

def segW2 : Seg := ⟨⟨⟨1, 0⟩, 0⟩, 1, 0⟩

def e1W : EdgeD := ⟨some 0, some 1, [segW1], []⟩

def e2W : EdgeD := ⟨some 1, some 2, [segW2], [5]⟩

def gW : RGraph :=
  ⟨[(0, ⟨⟨⟨0, 0⟩, 0⟩, 0, [], [10]⟩), (1, ⟨⟨⟨1, 0⟩, 0⟩, 0, [10], [11]⟩),
    (2, ⟨⟨⟨2, 0⟩, 0⟩, 0, [11], []⟩)],
   [(10, e1W), (11, e2W)],
   [(5, ⟨⟨⟨1 / 2, 0⟩, 0⟩, some 11⟩)],
   100⟩

theorem contract_step_preserves_scenery_witness :
    ∃ g', contractStep gW 1 = some g' ∧ globalPoseOf g' 5 = globalPoseOf gW 5 :=
  contract_step_preserves_scenery gW 1 10 11 5 e1W e2W ⟨⟨⟨1 / 2, 0⟩, 0⟩, some 11⟩
    (by decide) rfl rfl rfl (List.cons_ne_nil _ _) (List.cons_ne_nil _ _)
    (by
      intro s hs
      rw [show e1W.segments = [segW1] from rfl, List.mem_singleton] at hs
      subst hs
      norm_num [segW1])
    (by
      intro s hs
      rw [show e2W.segments = [segW2] from rfl, List.mem_singleton] at hs
      subst hs
      norm_num [segW2])
    (by
      intro o ho
      rw [show e2W.scenery = [5] from rfl, List.mem_singleton] at ho
      subst ho
      rfl)
    rfl rfl
    (Or.inl ⟨⟨⟨1, 0⟩, 0⟩, 0, 2, ⟨⟨⟨2, 0⟩, 0⟩, 0, [11], []⟩, rfl, rfl, rfl,
      (by decide), rfl, (by decide), (by decide),
      (by
        show segW1.travel segW1.length = segW2.travel 0
        rw [travel_straight segW1 rfl, travel_straight segW2 rfl]
        unfold segW1 segW2 mkPose polar
        norm_num [Vec.add_def]),
      (by norm_num)⟩)
def segC1 : Seg := ⟨⟨⟨0, 0⟩, 0⟩, 1, 0⟩

def segC2 : Seg := ⟨⟨⟨1, 0⟩, 0⟩, 1, 1⟩

def e1C : EdgeD := ⟨none, some 1, [segC1], []⟩

def e2C : EdgeD := ⟨some 1, some 2, [segC2], [5]⟩

def gCX : RGraph :=
  ⟨[(1, ⟨⟨⟨1, 0⟩, 0⟩, 0, [10], [11]⟩), (2, ⟨⟨⟨2, 0⟩, 0⟩, 0, [11], []⟩)],
   [(10, e1C), (11, e2C)],
   [(5, ⟨⟨⟨-(1 / 2), 0⟩, 0⟩, some 11⟩)],
   100⟩

/-- C2 counterexample to the unamended claim: on a concrete two-edge graph,
`contract_edges` succeeds but the global pose of the scenery object at local
`x = -1/2` on the absorbed arc edge changes (its `y` coordinate moves from
`-1 + cos(1/2)` to `0`). -/
theorem contract_edges_moves_negative_offset_object :
    ∃ g', contractEdges gCX = some g' ∧ globalPoseOf g' 5 ≠ globalPoseOf gCX 5 := by
  have h5 : ∀ g', contractEdges gCX = some g' →
      g'.obj? 5 = some ⟨⟨⟨-(1 / 2) + (1 + 0), 0⟩, 0⟩, some 10⟩ →
      g'.edge? 10 = some ⟨none, some 2, [segC1, segC2], [] ++ [5]⟩ →
      globalPoseOf g' 5 ≠ globalPoseOf gCX 5 := by
    intro g' hrun hobj hedge
    have hpost : globalPoseOf g' 5
        = some (applyAt (segC1.travel (-(1 / 2) + (1 + 0) - 0)) 0 0) := by
      simp only [globalPoseOf, hobj, Option.pure_def, Option.bind_eq_bind,
        Option.some_bind, hedge, edgeToGlobal]
      rw [if_neg (List.cons_ne_nil _ _)]
      rw [segWalk_cons₂]
      rw [toGlobal_eval segC1 ⟨⟨-(1 / 2) + (1 + 0), 0⟩, 0⟩ 0 true false
        (by simp) (by norm_num [segC1])]
    have hpre : globalPoseOf gCX 5
        = some (applyAt (segC2.travel (-(1 / 2) - 0)) 0 0) := by
      simp only [globalPoseOf,
        show gCX.obj? 5 = some ⟨⟨⟨-(1 / 2), 0⟩, 0⟩, some 11⟩ from rfl,
        Option.pure_def, Option.bind_eq_bind, Option.some_bind,
        show gCX.edge? 11 = some e2C from rfl, edgeToGlobal]
      rw [if_neg (show ¬(e2C.segments = []) from List.cons_ne_nil _ _)]
      rw [show e2C.segments = [segC2] from rfl, segWalk_one]
      rw [toGlobal_eval segC2 ⟨⟨-(1 / 2), 0⟩, 0⟩ 0 true true (by simp) (by simp)]
    rw [hpost, hpre]
    intro heq
    have hPQ : applyAt (segC1.travel (-(1 / 2) + (1 + 0) - 0)) 0 0
        = applyAt (segC2.travel (-(1 / 2) - 0)) 0 0 := Option.some_injective _ heq
    have hy := congrArg (fun p => p.pos.y) hPQ
    rw [travel_straight segC1 rfl, travel_arc segC2 (by norm_num [segC2])] at hy
    simp only [applyAt, mkPose, Vec.smul_def, Vec.add_def, Vec.ortho, polar1, polar,
      Seg.center, Real.sin_zero, Real.cos_zero, mul_zero, zero_mul, add_zero,
      zero_add, mul_one, one_mul] at hy
    rw [show segC2.start.dir - 0.5 * π = -(π / 2) from by norm_num [segC2]; ring,
      show segC2.start.dir + 0.5 * π - (-(1 / 2) - 0) / segC2.radius = π / 2 + 1 / 2
        from by norm_num [segC2]; ring,
      Real.sin_neg, Real.sin_pi_div_two, Real.sin_add, Real.cos_pi_div_two,
      Real.sin_pi_div_two] at hy
    have hcos : Real.cos (1 / 2) = 1 := by
      simp only [segC1, segC2, Real.sin_zero, zero_mul, zero_add, add_zero, mul_one,
        one_mul, mul_zero, neg_mul] at hy
      linarith [hy]
    have hb1 : -(2 * π) < (1 / 2 : ℝ) := by nlinarith [Real.pi_gt_three]
    have hb2 : (1 / 2 : ℝ) < 2 * π := by nlinarith [Real.pi_gt_three]
    have hzero := (Real.cos_eq_one_iff_of_lt_of_lt hb1 hb2).mp hcos
    norm_num at hzero
  exact ⟨_, rfl, h5 _ rfl rfl rfl⟩

end
